import Mathlib

/-!
Verification of the middleware chain executor in src/lib/executor.ts.

The executor coordinates a list of middleware ahead of a terminal API route
handler on the JavaScript single-threaded event loop.  We embed the program
as a small-step machine over an explicit state: a heap of promises, a FIFO
microtask queue, and one frame per `Executor` instance.  The bodies of
`Executor.run`, `Executor.runRemaining`, `Executor.finish`, the continuation
closure built inside `run`, and the `Executor` constructor are transcribed
as Lean functions on that state; the event loop itself (promise settlement
firing reactions as microtasks, `queueMicrotask`, `await` subscribing a
resumption) is the standard JavaScript semantics made explicit.

Middleware and terminal handlers are the program's inputs; they are embedded
as a first-order behaviour language (`MW`, `Handler`) covering synchronous
middleware, middleware that throw, middleware that invoke the continuation
with an error, asynchronous middleware that await the continuation's handle,
and asynchronous middleware that never invoke the continuation.

A ghost event log records middleware entries, terminal-handler invocation,
and teardown events, so ordering claims can be read off the trace.
-/

namespace NextMW

/-- Error values: `tyNotFn` is the TypeError raised by JavaScript when the
executor calls an `undefined` middleware (the empty-list case of the
destructuring constructor); `user n` is an arbitrary error value thrown by a
middleware, continuation call, or handler. -/
inductive Err
  | tyNotFn
  | user (n : Nat)
deriving DecidableEq

/-- Settlement of a promise: fulfilled (`ok`) or rejected with an error. -/
inductive Sett
  | ok
  | er (e : Err)
deriving DecidableEq

/- Promise identifiers are indices into the promise heap, in allocation
order; frame identifiers are indices into the frame list, in creation
order.  Both are plain naturals. -/

/-- A reaction stored on a pending promise; when the promise settles the
reaction is enqueued as a microtask carrying the settlement.
`reactResult f` is the pair of handlers attached in `run` (lines 85-95) to an
asynchronous middleware's returned promise; `resumeRemaining f` is the
resumption of the `await` inside `runRemaining` (lines 120 and 130) together
with its try/catch; `mwResume f` is the resumption of an asynchronous
middleware that is awaiting the handle returned by the continuation. -/
inductive Reaction
  | reactResult (f : Nat)
  | resumeRemaining (f : Nat)
  | mwResume (f : Nat)
deriving DecidableEq

/-- A microtask. `check f` is the callback passed to `queueMicrotask` in
`run` (lines 97-103); `react rc s` fires a stored reaction with a
settlement; `tick p n s` models an asynchronous body that performs `n` more
awaits of already-settled promises before settling promise `p` to `s`. -/
inductive Task
  | check (f : Nat)
  | react (rc : Reaction) (s : Sett)
  | tick (p : Nat) (n : Nat) (s : Sett)
deriving DecidableEq

/-- Modelled from the spec: `controlledPromise` lives in src/lib/promises.ts
which is not part of the sources; per the spec (section 9) it is a deferred
promise exposing resolve/reject with first-fire-wins semantics enforced by
the implementation, which also matches native JavaScript promises.  A
promise is pending (holding its subscribed reactions in subscription order)
or settled; settling a settled promise is a no-op. -/
inductive PState
  | pending (rs : List Reaction)
  | settled (s : Sett)
deriving DecidableEq

/-- Middleware behaviours, the universe over which the claims quantify.

* `sync b` -- synchronous middleware; if `b` it invokes the continuation
  with no error (obtaining the teardown handle, which it ignores), and in
  either case returns `undefined` without throwing.
* `syncThrow e` -- synchronous middleware that throws `e` during its own
  call, without invoking the continuation.
* `nextErr e c` -- middleware that invokes the continuation with error `e`;
  the continuation raises `e` at the call site; if `c` the middleware
  catches the raised error and returns `undefined`, otherwise the error
  propagates out of the middleware's synchronous body.
* `asyncAwait c` -- asynchronous middleware that invokes the continuation
  with no error and awaits the returned handle; when the handle fulfils it
  performs its post-work and its own promise fulfils; when the handle
  rejects it observes the rejection, and if `c` it catches it (its own
  promise then fulfils), otherwise the rejection propagates (its own
  promise rejects with the same error).
* `asyncOwn d r` -- asynchronous middleware that never invokes the
  continuation; its returned promise settles to `s` after `d` await-ticks
  when `r = some s` (with `d = 0` the returned promise is already settled
  when `run` inspects it), and never settles when `r = none`. -/
inductive MW
  | sync (callsNext : Bool)
  | syncThrow (e : Err)
  | nextErr (e : Err) (catches : Bool)
  | asyncAwait (catches : Bool)
  | asyncOwn (d : Nat) (r : Option Sett)
deriving DecidableEq

/-- Terminal (API route) handler behaviours: `hsync none` returns
`undefined`; `hsync (some e)` throws `e` synchronously; `hasync d r`
returns a promise that settles to `s` after `d` await-ticks when
`r = some s` and never settles when `r = none`. -/
inductive Handler
  | hsync (r : Option Err)
  | hasync (d : Nat) (r : Option Sett)
deriving DecidableEq

/-- Ghost log events.  `enter k` -- the middleware at position `k` of the
original list is invoked; `terminalEnter q r` -- the terminal handler is
invoked with the two context values; `remSettled k` -- frame `k` has
observed its remainder settle (`finish` was entered); `teardownRel k` --
frame `k` releases its teardown signal; `post k` -- the post-work of the
asynchronous middleware at position `k`, run after its awaited handle
fulfilled; `tearErr k e` -- the asynchronous middleware at position `k`
resumed and observed rejection `e` of its awaited handle. -/
inductive Ev
  | enter (k : Nat)
  | terminalEnter (q r : Nat)
  | remSettled (k : Nat)
  | teardownRel (k : Nat)
  | post (k : Nat)
  | tearErr (k : Nat) (e : Err)
deriving DecidableEq

/-- One `Executor` instance (a chain frame), source lines 18-57.
`current` is `currentFn` (`none` models the `undefined` obtained by
destructuring an empty middleware list); `remaining` is the queue tail;
`depth` is the position of `current` in the original list (ghost, used for
logging); `result` is the return value of `currentFn` (`none` =
`undefined`, `some p` = a returned promise); `internal` and `teardown` are
the two controlled promises allocated by the field initializers;
`flag` is the captured local `asyncMiddlewareFailed`. -/
structure Frame where
  current : Option MW
  remaining : List MW
  depth : Nat
  result : Option Nat
  internal : Nat
  teardown : Nat
  flag : Bool
deriving DecidableEq

/-- The machine state: frames and promises in allocation order, the FIFO
microtask queue, the ghost log, the terminal handler, and the two opaque
context values threaded to every middleware and the handler. -/
structure St where
  frames : List Frame
  promises : List PState
  queue : List Task
  log : List Ev
  handler : Handler
  reqCtx : Nat
  resCtx : Nat
deriving DecidableEq

/-- Look up a promise. -/
def getP (st : St) (p : Nat) : Option PState := st.promises[p]?

/-- Look up a frame. -/
def getF (st : St) (f : Nat) : Option Frame := st.frames[f]?

/-- Append microtasks to the back of the queue. -/
def enqueue (ts : List Task) (st : St) : St := { st with queue := st.queue ++ ts }

/-- Append a ghost log event. -/
def pushLog (e : Ev) (st : St) : St := { st with log := st.log ++ [e] }

/-- Overwrite a promise cell. -/
def setP (p : Nat) (ps : PState) (st : St) : St :=
  { st with promises := st.promises.set p ps }

/-- Overwrite a frame cell. -/
def setF (f : Nat) (fr : Frame) (st : St) : St :=
  { st with frames := st.frames.set f fr }

/-- Allocate a fresh promise, returning its id. -/
def allocP (ps : PState) (st : St) : Nat × St :=
  (st.promises.length, { st with promises := st.promises ++ [ps] })

/-- Settle a promise: if it is pending, record the settlement and enqueue
each stored reaction as a microtask carrying the settlement (JavaScript
fires promise reactions on the microtask queue in subscription order); if
it is already settled this is a no-op (first-fire-wins). -/
def settle (p : Nat) (s : Sett) (st : St) : St :=
  match getP st p with
  | some (PState.pending rs) =>
      enqueue (rs.map (fun rc => Task.react rc s)) (setP p (PState.settled s) st)
  | _ => st

/-- Subscribe a reaction to a promise (`.then` / `await`): stored if the
promise is pending, enqueued immediately with the recorded settlement if the
promise is already settled. -/
def subscribe (p : Nat) (rc : Reaction) (st : St) : St :=
  match getP st p with
  | some (PState.pending rs) => setP p (PState.pending (rs ++ [rc])) st
  | some (PState.settled s) => enqueue [Task.react rc s] st
  | none => st

/-- Resolve frame `f`'s internal promise: `this.succeed` (source line 39). -/
def succeedF (f : Nat) (st : St) : St :=
  match getF st f with
  | some fr => settle fr.internal Sett.ok st
  | none => st

/-- Reject frame `f`'s internal promise: `this.fail` (source line 40). -/
def failF (f : Nat) (e : Err) (st : St) : St :=
  match getF st f with
  | some fr => settle fr.internal (Sett.er e) st
  | none => st

/-- The continuation closure built inside `run` (source lines 71-80): when
invoked with an error it throws that error at the call site; when invoked
with no error it returns the frame's teardown promise. -/
def contCall (fr : Frame) (errArg : Option Err) : Except Err Nat :=
  match errArg with
  | some e => Except.error e
  | none => Except.ok fr.teardown

/-- Invoke the current middleware `mw` of frame `f`
(`this.currentFn(this.req, this.res, cont)`, source line 71), returning
either the error it threw synchronously or its return value (`none` =
`undefined`, `some p` = a returned promise), together with the updated
state (subscriptions and task enqueues performed by an asynchronous body
before its first suspension). -/
def callMw (f : Nat) (fr : Frame) (mw : MW) (st : St) :
    Except Err (Option Nat) × St :=
  let st := pushLog (Ev.enter fr.depth) st
  match mw with
  | MW.sync _ =>
      -- invoking the continuation with no error just returns the teardown
      -- handle, which a synchronous middleware ignores
      (Except.ok none, st)
  | MW.syncThrow e => (Except.error e, st)
  | MW.nextErr e c =>
      match contCall fr (some e) with
      | Except.error e' =>
          if c then (Except.ok none, st) else (Except.error e', st)
      | Except.ok _ => (Except.ok none, st)
  | MW.asyncAwait _ =>
      match contCall fr none with
      | Except.ok h =>
          let st := subscribe h (Reaction.mwResume f) st
          let (rp, st) := allocP (PState.pending []) st
          (Except.ok (some rp), st)
      | Except.error e => (Except.error e, st)
  | MW.asyncOwn d r =>
      match d, r with
      | 0, some s =>
          let (rp, st) := allocP (PState.settled s) st
          (Except.ok (some rp), st)
      | Nat.succ d', some s =>
          let (rp, st) := allocP (PState.pending []) st
          (Except.ok (some rp), enqueue [Task.tick rp d' s] st)
      | _, none =>
          let (rp, st) := allocP (PState.pending []) st
          (Except.ok (some rp), st)

/-- `Executor.run` (source lines 68-110).  Calls the current middleware
inside try/catch; a synchronous throw rejects the internal promise (lines
104-107) and nothing further happens for this frame.  Otherwise the result
is stored, the two `.then` handlers are attached when it is a promise
(lines 85-95), and the `queueMicrotask` callback is enqueued (lines
97-103).  Calling an `undefined` middleware (empty list) throws a
TypeError that the catch block turns into a failure. -/
def run (f : Nat) (st : St) : St :=
  match getF st f with
  | none => st
  | some fr =>
    match fr.current with
    | none => failF f Err.tyNotFn st
    | some mw =>
      match callMw f fr mw st with
      | (Except.error e, st) => failF f e st
      | (Except.ok resOpt, st) =>
        let st := setF f { fr with result := resOpt } st
        let st :=
          match resOpt with
          | some rp => subscribe rp (Reaction.reactResult f) st
          | none => st
        enqueue [Task.check f] st

/-- `Executor.finish` (source lines 146-168).  `finish` runs exactly when
frame `f`'s remainder has settled, so a `remSettled` ghost event is logged
on entry; if the current middleware is asynchronous the teardown promise is
released (rejected with the remainder's error, resolved otherwise) and a
`teardownRel` ghost event marks the release; if it is synchronous the
internal promise is settled directly from the remainder's outcome. -/
def finishF (f : Nat) (err : Option Err) (st : St) : St :=
  match getF st f with
  | none => st
  | some fr =>
    let st := pushLog (Ev.remSettled fr.depth) st
    match fr.result with
    | some _ =>
        let st := pushLog (Ev.teardownRel fr.depth) st
        match err with
        | some e => settle fr.teardown (Sett.er e) st
        | none => settle fr.teardown Sett.ok st
    | none =>
        match err with
        | some e => failF f e st
        | none => succeedF f st

/-- Modelled from the spec in part: `isPromise` lives in src/lib/promises.ts
which is not part of the sources; it classifies the middleware's return
value as a pending unit of work or not, which in this embedding is exactly
whether `result` is `some` promise -- already expressed by the `Option` in
`Frame.result`, so no separate definition is needed.  Invoking the terminal
handler (`await this.apiRouteFn(this.req, this.res)`, source line 120,
inside `runRemaining`'s try/catch): a synchronous return of `undefined`
makes the `await` resume one tick later; a synchronous throw is caught by
the try/catch which calls `finish` with the error in the same task; a
returned promise is awaited. -/
def callHandler (f : Nat) (st : St) : St :=
  let st := pushLog (Ev.terminalEnter st.reqCtx st.resCtx) st
  match st.handler with
  | Handler.hsync none =>
      enqueue [Task.react (Reaction.resumeRemaining f) Sett.ok] st
  | Handler.hsync (some e) => finishF f (some e) st
  | Handler.hasync d r =>
      match d, r with
      | 0, some s =>
          let (hp, st) := allocP (PState.settled s) st
          subscribe hp (Reaction.resumeRemaining f) st
      | Nat.succ d', some s =>
          let (hp, st) := allocP (PState.pending []) st
          subscribe hp (Reaction.resumeRemaining f) (enqueue [Task.tick hp d' s] st)
      | _, none =>
          let (hp, st) := allocP (PState.pending []) st
          subscribe hp (Reaction.resumeRemaining f) st

/-- The `Executor` constructor (source lines 49-57) together with the field
initializers (lines 38-47): destructure the middleware list into
`currentFn` and `remaining` (an empty list leaves `currentFn` as
`undefined`), and allocate the internal and teardown controlled promises. -/
def newFrame (ms : List MW) (depth : Nat) (st : St) : Nat × St :=
  let (ip, st) := allocP (PState.pending []) st
  let (tp, st) := allocP (PState.pending []) st
  (st.frames.length,
    { st with
        frames := st.frames ++
          [{ current := ms.head?, remaining := ms.tail, depth := depth,
             result := none, internal := ip, teardown := tp, flag := false }] })

/-- `Executor.runRemaining` (source lines 116-138).  With an empty queue it
invokes the terminal handler; otherwise it constructs the child `Executor`
for the remaining middleware, calls the child's `run` (which executes
synchronously up to its own `queueMicrotask`), and awaits the promise `run`
returned -- the child's internal promise, whose id is the promise-heap
length just before the child is constructed, since the child's constructor
allocates it first. -/
def runRemaining (f : Nat) (st : St) : St :=
  match getF st f with
  | none => st
  | some fr =>
    match fr.remaining with
    | [] => callHandler f st
    | m :: rest =>
        let childInternal := st.promises.length
        let (cf, st) := newFrame (m :: rest) (fr.depth + 1) st
        let st := run cf st
        subscribe childInternal (Reaction.resumeRemaining f) st

/-- Fire a stored reaction with settlement `s`.
`reactResult f`: the handlers attached to an asynchronous middleware's
returned promise (source lines 86-94) -- fulfilment calls `succeed`,
rejection records `asyncMiddlewareFailed` and calls `fail`.
`resumeRemaining f`: the resumption of the `await` in `runRemaining` --
fulfilment reaches `this.finish()` (line 134), rejection is caught and
reaches `this.finish(err)` (line 136).
`mwResume f`: an asynchronous middleware resuming from its `await` of the
continuation's handle -- on fulfilment it runs its post-work and its own
promise fulfils; on rejection it observes the error, and either catches it
(its promise fulfils) or rethrows (its promise rejects). -/
def procReact (rc : Reaction) (s : Sett) (st : St) : St :=
  match rc with
  | Reaction.reactResult f =>
      match s with
      | Sett.ok => succeedF f st
      | Sett.er e =>
          let st :=
            match getF st f with
            | some fr => setF f { fr with flag := true } st
            | none => st
          failF f e st
  | Reaction.resumeRemaining f =>
      match s with
      | Sett.ok => finishF f none st
      | Sett.er e => finishF f (some e) st
  | Reaction.mwResume f =>
      match getF st f with
      | none => st
      | some fr =>
        match fr.current, fr.result with
        | some (MW.asyncAwait c), some rp =>
            match s with
            | Sett.ok => settle rp Sett.ok (pushLog (Ev.post fr.depth) st)
            | Sett.er e =>
                let st := pushLog (Ev.tearErr fr.depth e) st
                if c then settle rp Sett.ok st else settle rp (Sett.er e) st
        | _, _ => st

/-- Execute one microtask.  `check f` is the `queueMicrotask` callback of
`run` (lines 98-103): if `asyncMiddlewareFailed` has not been set, call
`runRemaining`.  `tick` counts down an asynchronous body's remaining awaits
and then settles its promise. -/
def procTask (t : Task) (st : St) : St :=
  match t with
  | Task.check f =>
      match getF st f with
      | some fr => if fr.flag then st else runRemaining f st
      | none => st
  | Task.react rc s => procReact rc s st
  | Task.tick p n s =>
      match n with
      | 0 => settle p s st
      | Nat.succ m => enqueue [Task.tick p m s] st

/-- One step of the event loop: dequeue and execute the front microtask;
`none` when the queue is empty (the loop is quiescent). -/
def step (st : St) : Option St :=
  match st.queue with
  | [] => none
  | t :: ts => some (procTask t { st with queue := ts })

/-- Run the event loop for at most `n` microtasks. -/
def drive : Nat → St → St
  | 0, st => st
  | Nat.succ n, st =>
      match step st with
      | none => st
      | some st' => drive n st'

/-- The empty initial state, holding the terminal handler and the two
opaque context values. -/
def initSt (h : Handler) (q r : Nat) : St :=
  { frames := [], promises := [], queue := [], log := [],
    handler := h, reqCtx := q, resCtx := r }

/-- `makeMiddlewareExecutor` (source lines 6-16): the curried factory whose
final handler constructs the top-level `Executor` for the whole middleware
list and calls `run`.  The returned state is the machine state after the
synchronous part of that call; the event loop (`drive`) then runs the
microtasks.  The chain's outcome is promise 0, the top frame's internal
promise, which the final route handler awaits. -/
def execSt (ms : List MW) (h : Handler) (q r : Nat) : St :=
  let (f0, st) := newFrame ms 0 (initSt h q r)
  run f0 st

/-- The chain run on middleware list `ms` with terminal handler `h` and
contexts `q`, `r` quiesces with ghost log `L` and chain outcome `oc` (the
state of the top frame's internal promise: `settled` success or failure, or
still `pending` when the chain stalls). -/
def Runs (ms : List MW) (h : Handler) (q r : Nat) (L : List Ev) (oc : PState) : Prop :=
  ∃ n, (drive n (execSt ms h q r)).queue = [] ∧
       (drive n (execSt ms h q r)).log = L ∧
       getP (drive n (execSt ms h q r)) 0 = some oc

/-! ## The reachability relation of the event loop -/

/-- Reflexive-transitive closure of `step`: the machine can go from `s` to
`t` by executing zero or more microtasks. -/
inductive Steps : St → St → Prop
  | refl (s : St) : Steps s s
  | tail {s t u : St} : Steps s t → step t = some u → Steps s u

lemma Steps.single {s u : St} (h : step s = some u) : Steps s u :=
  Steps.tail (Steps.refl s) h

lemma Steps.trans {s t u : St} (h₁ : Steps s t) (h₂ : Steps t u) : Steps s u := by
  induction h₂ with
  | refl => exact h₁
  | tail _ hstep ih => exact Steps.tail ih hstep

lemma drive_add (a b : Nat) (s : St) : drive (a + b) s = drive b (drive a s) := by
  induction a generalizing s with
  | zero => simp [drive]
  | succ a ih =>
      have : a + 1 + b = (a + b) + 1 := by omega
      rw [this]
      cases hs : step s with
      | none =>
          have hstop : ∀ m, drive m s = s := by
            intro m; cases m with
            | zero => rfl
            | succ m => simp [drive, hs]
          simp [drive, hs, hstop]
      | some s' => simp [drive, hs, ih]

lemma drive_of_steps {s t : St} (h : Steps s t) : ∃ n, drive n s = t := by
  induction h with
  | refl => exact ⟨0, rfl⟩
  | tail _ hstep ih =>
      obtain ⟨n, hn⟩ := ih
      refine ⟨n + 1, ?_⟩
      rw [drive_add, hn]
      simp [drive, hstep]

/-! ## Effect lemmas for the state operations -/

lemma frames_enqueue (ts : List Task) (st : St) : (enqueue ts st).frames = st.frames := rfl
lemma promises_enqueue (ts : List Task) (st : St) : (enqueue ts st).promises = st.promises := rfl
lemma queue_enqueue (ts : List Task) (st : St) : (enqueue ts st).queue = st.queue ++ ts := rfl
lemma log_enqueue (ts : List Task) (st : St) : (enqueue ts st).log = st.log := rfl
lemma handler_enqueue (ts : List Task) (st : St) : (enqueue ts st).handler = st.handler := rfl
lemma handler_pushLog (e : Ev) (st : St) : (pushLog e st).handler = st.handler := rfl
lemma handler_setP (p : Nat) (ps : PState) (st : St) : (setP p ps st).handler = st.handler := rfl
lemma handler_setF (f : Nat) (fr : Frame) (st : St) : (setF f fr st).handler = st.handler := rfl
lemma getF_enqueue (ts : List Task) (st : St) (f : Nat) : getF (enqueue ts st) f = getF st f := rfl
lemma getP_enqueue (ts : List Task) (st : St) (p : Nat) : getP (enqueue ts st) p = getP st p := rfl

lemma frames_pushLog (e : Ev) (st : St) : (pushLog e st).frames = st.frames := rfl
lemma promises_pushLog (e : Ev) (st : St) : (pushLog e st).promises = st.promises := rfl
lemma queue_pushLog (e : Ev) (st : St) : (pushLog e st).queue = st.queue := rfl
lemma log_pushLog (e : Ev) (st : St) : (pushLog e st).log = st.log ++ [e] := rfl
lemma getF_pushLog (e : Ev) (st : St) (f : Nat) : getF (pushLog e st) f = getF st f := rfl
lemma getP_pushLog (e : Ev) (st : St) (p : Nat) : getP (pushLog e st) p = getP st p := rfl

lemma frames_setP (p : Nat) (ps : PState) (st : St) : (setP p ps st).frames = st.frames := rfl
lemma queue_setP (p : Nat) (ps : PState) (st : St) : (setP p ps st).queue = st.queue := rfl
lemma log_setP (p : Nat) (ps : PState) (st : St) : (setP p ps st).log = st.log := rfl
lemma getF_setP (p : Nat) (ps : PState) (st : St) (f : Nat) : getF (setP p ps st) f = getF st f := rfl
lemma promisesLength_setP (p : Nat) (ps : PState) (st : St) :
    (setP p ps st).promises.length = st.promises.length := by
  simp [setP]

lemma getP_setP_self {st : St} {p : Nat} (ps : PState) (h : p < st.promises.length) :
    getP (setP p ps st) p = some ps := by
  simp [getP, setP, List.getElem?_set_self', List.getElem?_eq_getElem, h]

lemma getP_setP_ne {p p' : Nat} (ps : PState) (st : St) (h : p ≠ p') :
    getP (setP p ps st) p' = getP st p' := by
  simp [getP, setP, List.getElem?_set_ne h]

lemma promises_setF (f : Nat) (fr : Frame) (st : St) : (setF f fr st).promises = st.promises := rfl
lemma queue_setF (f : Nat) (fr : Frame) (st : St) : (setF f fr st).queue = st.queue := rfl
lemma log_setF (f : Nat) (fr : Frame) (st : St) : (setF f fr st).log = st.log := rfl
lemma getP_setF (f : Nat) (fr : Frame) (st : St) (p : Nat) : getP (setF f fr st) p = getP st p := rfl
lemma framesLength_setF (f : Nat) (fr : Frame) (st : St) :
    (setF f fr st).frames.length = st.frames.length := by
  simp [setF]

lemma getF_setF_self {st : St} {f : Nat} (fr : Frame) (h : f < st.frames.length) :
    getF (setF f fr st) f = some fr := by
  simp [getF, setF, List.getElem?_set_self', List.getElem?_eq_getElem, h]

lemma getF_setF_ne {f f' : Nat} (fr : Frame) (st : St) (h : f ≠ f') :
    getF (setF f fr st) f' = getF st f' := by
  simp [getF, setF, List.getElem?_set_ne h]

lemma getP_lt_length {st : St} {p : Nat} {ps : PState} (h : getP st p = some ps) :
    p < st.promises.length := by
  have := List.getElem?_eq_some.mp h
  exact this.choose

lemma getF_lt_length {st : St} {f : Nat} {fr : Frame} (h : getF st f = some fr) :
    f < st.frames.length := by
  have := List.getElem?_eq_some.mp h
  exact this.choose

/-! ## Conditional unfolding lemmas for the executor's functions -/

lemma settle_of_pending {st : St} {p : Nat} {rs : List Reaction}
    (h : getP st p = some (PState.pending rs)) (s : Sett) :
    settle p s st = enqueue (rs.map (fun rc => Task.react rc s)) (setP p (PState.settled s) st) := by
  simp [settle, h]

lemma settle_of_settled {st : St} {p : Nat} {s₀ : Sett}
    (h : getP st p = some (PState.settled s₀)) (s : Sett) : settle p s st = st := by
  simp [settle, h]

lemma subscribe_of_pending {st : St} {p : Nat} {rs : List Reaction}
    (h : getP st p = some (PState.pending rs)) (rc : Reaction) :
    subscribe p rc st = setP p (PState.pending (rs ++ [rc])) st := by
  simp [subscribe, h]

lemma subscribe_of_settled {st : St} {p : Nat} {s : Sett}
    (h : getP st p = some (PState.settled s)) (rc : Reaction) :
    subscribe p rc st = enqueue [Task.react rc s] st := by
  simp [subscribe, h]

/-- Settlement outcome corresponding to `finish`'s optional error argument. -/
def settOf : Option Err → Sett
  | none => Sett.ok
  | some e => Sett.er e

/-- Optional error corresponding to a settlement, as delivered by the
try/catch around the `await` in `runRemaining`. -/
def errOf : Sett → Option Err
  | Sett.ok => none
  | Sett.er e => some e

lemma settOf_errOf (s : Sett) : settOf (errOf s) = s := by cases s <;> rfl

lemma succeedF_eq {st : St} {f : Nat} {fr : Frame} (h : getF st f = some fr) :
    succeedF f st = settle fr.internal Sett.ok st := by
  simp [succeedF, h]

lemma failF_eq {st : St} {f : Nat} {fr : Frame} (h : getF st f = some fr) (e : Err) :
    failF f e st = settle fr.internal (Sett.er e) st := by
  simp [failF, h]

lemma finishF_sync {st : St} {f : Nat} {fr : Frame}
    (h : getF st f = some fr) (hres : fr.result = none) (e? : Option Err) :
    finishF f e? st = settle fr.internal (settOf e?) (pushLog (Ev.remSettled fr.depth) st) := by
  have h' : getF (pushLog (Ev.remSettled fr.depth) st) f = some fr := h
  cases e? with
  | none => simp [finishF, h, hres, settOf, succeedF_eq h']
  | some e => simp [finishF, h, hres, settOf, failF_eq h']

lemma finishF_async {st : St} {f : Nat} {fr : Frame} {rp : Nat}
    (h : getF st f = some fr) (hres : fr.result = some rp) (e? : Option Err) :
    finishF f e? st =
      settle fr.teardown (settOf e?)
        (pushLog (Ev.teardownRel fr.depth) (pushLog (Ev.remSettled fr.depth) st)) := by
  cases e? with
  | none => simp [finishF, h, hres, settOf]
  | some e => simp [finishF, h, hres, settOf]

lemma procReact_rr (f : Nat) (s : Sett) (st : St) :
    procReact (Reaction.resumeRemaining f) s st = finishF f (errOf s) st := by
  cases s <;> rfl

lemma procReact_result_ok (f : Nat) (st : St) :
    procReact (Reaction.reactResult f) Sett.ok st = succeedF f st := rfl

lemma procReact_result_er {st : St} {f : Nat} {fr : Frame}
    (h : getF st f = some fr) (e : Err) :
    procReact (Reaction.reactResult f) (Sett.er e) st =
      failF f e (setF f { fr with flag := true } st) := by
  simp [procReact, h]

lemma procReact_mwResume_ok {st : St} {f : Nat} {fr : Frame} {c : Bool} {rp : Nat}
    (h : getF st f = some fr) (hcur : fr.current = some (MW.asyncAwait c))
    (hres : fr.result = some rp) :
    procReact (Reaction.mwResume f) Sett.ok st = settle rp Sett.ok (pushLog (Ev.post fr.depth) st) := by
  simp [procReact, h, hcur, hres]

lemma procReact_mwResume_er {st : St} {f : Nat} {fr : Frame} {c : Bool} {rp : Nat}
    (h : getF st f = some fr) (hcur : fr.current = some (MW.asyncAwait c))
    (hres : fr.result = some rp) (e : Err) :
    procReact (Reaction.mwResume f) (Sett.er e) st =
      settle rp (if c then Sett.ok else Sett.er e) (pushLog (Ev.tearErr fr.depth e) st) := by
  cases c <;> simp [procReact, h, hcur, hres]

lemma step_cons {st : St} {t : Task} {ts : List Task} (h : st.queue = t :: ts) :
    step st = some (procTask t { st with queue := ts }) := by
  simp [step, h]

lemma step_nil {st : St} (h : st.queue = []) : step st = none := by
  simp [step, h]

lemma procTask_check_go {st : St} {f : Nat} {fr : Frame}
    (h : getF st f = some fr) (hflag : fr.flag = false) :
    procTask (Task.check f) st = runRemaining f st := by
  simp [procTask, h, hflag]

lemma procTask_check_stop {st : St} {f : Nat} {fr : Frame}
    (h : getF st f = some fr) (hflag : fr.flag = true) :
    procTask (Task.check f) st = st := by
  simp [procTask, h, hflag]

lemma runRemaining_nil {st : St} {f : Nat} {fr : Frame}
    (h : getF st f = some fr) (hrem : fr.remaining = []) :
    runRemaining f st = callHandler f st := by
  simp [runRemaining, h, hrem]

lemma runRemaining_cons {st : St} {f : Nat} {fr : Frame} {m : MW} {rest : List MW}
    (h : getF st f = some fr) (hrem : fr.remaining = m :: rest) :
    runRemaining f st =
      subscribe st.promises.length (Reaction.resumeRemaining f)
        (run st.frames.length ((newFrame (m :: rest) (fr.depth + 1) st).2)) := by
  simp [runRemaining, h, hrem, newFrame, allocP]

lemma procTask_react (rc : Reaction) (s : Sett) (st : St) :
    procTask (Task.react rc s) st = procReact rc s st := rfl

/-! ## Trace segments -/

/-- Ghost log of a descending finish cascade: frame `f`'s remainder settles,
then frame `f - 1`'s, and so on, `b` frames in all. -/
def downLog : Nat → Nat → List Ev
  | _, 0 => []
  | f, Nat.succ b => Ev.remSettled f :: downLog (f - 1) b

/-- Ghost log of entering `a` consecutive middleware starting at position `f`. -/
def entersFrom : Nat → Nat → List Ev
  | _, 0 => []
  | f, Nat.succ a => Ev.enter f :: entersFrom (f + 1) a

lemma entersFrom_eq_map (a : Nat) : ∀ f : Nat,
    entersFrom f a = (List.range a).map (fun j => Ev.enter (f + j)) := by
  induction a with
  | zero => intro f; rfl
  | succ a ih =>
      intro f
      rw [List.range_succ_eq_map]
      simp [entersFrom, ih (f + 1), List.map_map]
      intro j _
      omega

lemma entersFrom_zero (a : Nat) : entersFrom 0 a = (List.range a).map Ev.enter := by
  rw [entersFrom_eq_map]
  simp

/-- Running a pure countdown: a queue holding only a `tick` task counts down
and settles its promise. -/
lemma tickRun (m : Nat) : ∀ (st : St) (p : Nat) (s : Sett),
    st.queue = [Task.tick p m s] →
    Steps st (settle p s { st with queue := [] }) := by
  induction m with
  | zero =>
      intro st p s hq
      have hstep : step st = some (procTask (Task.tick p 0 s) { st with queue := [] }) :=
        step_cons hq
      have : procTask (Task.tick p 0 s) { st with queue := [] } = settle p s { st with queue := [] } := rfl
      rw [this] at hstep
      exact Steps.single hstep
  | succ m ih =>
      intro st p s hq
      have hstep : step st = some (procTask (Task.tick p (m + 1) s) { st with queue := [] }) :=
        step_cons hq
      have heq : procTask (Task.tick p (m + 1) s) { st with queue := [] } =
          enqueue [Task.tick p m s] { st with queue := [] } := rfl
      rw [heq] at hstep
      have htail := ih (enqueue [Task.tick p m s] { st with queue := [] }) p s (by rfl)
      have hsettle : settle p s { enqueue [Task.tick p m s] { st with queue := [] } with queue := [] } =
          settle p s { st with queue := [] } := rfl
      rw [hsettle] at htail
      exact Steps.trans (Steps.single hstep) htail

/-- Ascending finish cascade along a spine of synchronous frames: starting
from the resumption of frame `f`'s `await` with settlement `s`, each of the
`b` frames `f, f-1, ..., f-b+1` (all with a synchronous current middleware,
`result = none`) runs `finish`, settles its internal promise to `s`, and
wakes its parent's `await`; the queue ends holding the resumption for frame
`f - b`.  `pid i` is frame `f - i`'s internal promise. -/
lemma ascend (b : Nat) : ∀ (st : St) (f : Nat) (s : Sett) (pid : Nat → Nat),
    st.queue = [Task.react (Reaction.resumeRemaining f) s] →
    b ≤ f →
    (∀ i, i < b → ∃ fr, getF st (f - i) = some fr ∧ fr.result = none ∧
        fr.depth = f - i ∧ fr.internal = pid i ∧
        getP st (pid i) = some (PState.pending [Reaction.resumeRemaining (f - i - 1)])) →
    (∀ i j, i < b → j < b → i ≠ j → pid i ≠ pid j) →
    ∃ st', Steps st st' ∧
      st'.queue = [Task.react (Reaction.resumeRemaining (f - b)) s] ∧
      st'.frames = st.frames ∧
      st'.promises.length = st.promises.length ∧
      st'.log = st.log ++ downLog f b ∧
      st'.handler = st.handler ∧ st'.reqCtx = st.reqCtx ∧ st'.resCtx = st.resCtx ∧
      (∀ p, (∀ i, i < b → p ≠ pid i) → getP st' p = getP st p) ∧
      (∀ i, i < b → getP st' (pid i) = some (PState.settled s)) := by
  induction b with
  | zero =>
      intro st f s pid hq _ _ _
      exact ⟨st, Steps.refl st, by simpa using hq, rfl, rfl, by simp [downLog], rfl, rfl, rfl,
        fun p _ => rfl, fun i hi => absurd hi (by omega)⟩
  | succ b ih =>
      intro st f s pid hq hbf spine inj
      obtain ⟨fr0, hfr0, hres0, hd0, hint0, hp0⟩ := spine 0 (by omega)
      simp only [Nat.sub_zero] at hfr0 hd0 hp0
      -- one step: fire the resumption of frame f, which runs finish
      have hstep : step st =
          some (procTask (Task.react (Reaction.resumeRemaining f) s) { st with queue := [] }) :=
        step_cons hq
      have hfr0' : getF { st with queue := ([] : List Task) } f = some fr0 := hfr0
      have hp1 : getP (pushLog (Ev.remSettled f) { st with queue := ([] : List Task) }) (pid 0) =
          some (PState.pending [Reaction.resumeRemaining (f - 1)]) := by
        simpa [getP_pushLog] using hp0
      have hproc : procTask (Task.react (Reaction.resumeRemaining f) s) { st with queue := [] } =
          enqueue [Task.react (Reaction.resumeRemaining (f - 1)) s]
            (setP (pid 0) (PState.settled s)
              (pushLog (Ev.remSettled f) { st with queue := [] })) := by
        rw [procTask_react, procReact_rr, finishF_sync hfr0' hres0, settOf_errOf, hd0, hint0,
          settle_of_pending hp1 s]
        rfl
      rw [hproc] at hstep
      set st1 := enqueue [Task.react (Reaction.resumeRemaining (f - 1)) s]
        (setP (pid 0) (PState.settled s) (pushLog (Ev.remSettled f) { st with queue := [] })) with hst1
      have hlen1 : st1.promises.length = st.promises.length := by
        simp [hst1, enqueue, setP, pushLog]
      have hframes1 : st1.frames = st.frames := rfl
      have hq1 : st1.queue = [Task.react (Reaction.resumeRemaining (f - 1)) s] := rfl
      have hlog1 : st1.log = st.log ++ [Ev.remSettled f] := rfl
      have hgetP1_ne : ∀ p, p ≠ pid 0 → getP st1 p = getP st p := by
        intro p hp
        show getP (setP (pid 0) (PState.settled s) (pushLog (Ev.remSettled f) { st with queue := [] })) p
          = getP st p
        rw [getP_setP_ne _ _ (fun h => hp h.symm)]
        rfl
      have hgetP1_self : getP st1 (pid 0) = some (PState.settled s) := by
        show getP (setP (pid 0) (PState.settled s) (pushLog (Ev.remSettled f) { st with queue := [] }))
          (pid 0) = some (PState.settled s)
        exact getP_setP_self _ (getP_lt_length hp1)
      -- inductive hypothesis on the remaining spine
      obtain ⟨st', hsteps', hq', hframes', hlen', hlog', hhand', hreq', hres', hpres', hsett'⟩ :=
        ih st1 (f - 1) s (fun i => pid (i + 1)) hq1 (by omega)
          (by
            intro i hi
            obtain ⟨fr, hfr, h1, h2, h3, h4⟩ := spine (i + 1) (by omega)
            have harith : f - 1 - i = f - (i + 1) := by omega
            refine ⟨fr, ?_, h1, ?_, h3, ?_⟩
            · rw [harith]; exact hfr
            · rw [harith]; exact h2
            · rw [hgetP1_ne _ (inj (i + 1) 0 (by omega) (by omega) (by omega))]
              have harith2 : f - 1 - i - 1 = f - (i + 1) - 1 := by omega
              rw [harith2]; exact h4)
          (by intro i j hi hj hij; exact inj (i + 1) (j + 1) (by omega) (by omega) (by omega))
      refine ⟨st', Steps.trans (Steps.single hstep) hsteps', ?_, ?_, ?_, ?_, ?_, ?_, ?_, ?_, ?_⟩
      · have harith : f - 1 - b = f - (b + 1) := by omega
        rw [hq', harith]
      · rw [hframes', hframes1]
      · rw [hlen', hlen1]
      · rw [hlog', hlog1, downLog, List.append_assoc]; rfl
      · rw [hhand']; rfl
      · rw [hreq']; rfl
      · rw [hres']; rfl
      · intro p hp
        rw [hpres' p (fun i hi => hp (i + 1) (by omega)), hgetP1_ne p (hp 0 (by omega))]
      · intro i hi
        cases i with
        | zero =>
            rw [hpres' (pid 0) (fun j hj => inj 0 (j + 1) (by omega) (by omega) (by omega))]
            exact hgetP1_self
        | succ i => exact hsett' i (by omega)

/-- The last step of an ascending cascade: frame `f` (synchronous current
middleware) runs `finish`; its internal promise has no subscribers (the top
frame), so after settling it the queue is empty. -/
lemma ascendLast (st : St) (f : Nat) (s : Sett) (fr : Frame)
    (hq : st.queue = [Task.react (Reaction.resumeRemaining f) s])
    (hfr : getF st f = some fr) (hres : fr.result = none) (hd : fr.depth = f)
    (hp : getP st fr.internal = some (PState.pending [])) :
    ∃ st', Steps st st' ∧ st'.queue = [] ∧ st'.frames = st.frames ∧
      st'.promises.length = st.promises.length ∧
      st'.log = st.log ++ [Ev.remSettled f] ∧
      st'.handler = st.handler ∧ st'.reqCtx = st.reqCtx ∧ st'.resCtx = st.resCtx ∧
      (∀ p, p ≠ fr.internal → getP st' p = getP st p) ∧
      getP st' fr.internal = some (PState.settled s) := by
  have hstep : step st =
      some (procTask (Task.react (Reaction.resumeRemaining f) s) { st with queue := [] }) :=
    step_cons hq
  have hfr' : getF { st with queue := ([] : List Task) } f = some fr := hfr
  have hp1 : getP (pushLog (Ev.remSettled f) { st with queue := ([] : List Task) }) fr.internal =
      some (PState.pending []) := by simpa [getP_pushLog] using hp
  have hproc : procTask (Task.react (Reaction.resumeRemaining f) s) { st with queue := [] } =
      enqueue []
        (setP fr.internal (PState.settled s)
          (pushLog (Ev.remSettled f) { st with queue := [] })) := by
    rw [procTask_react, procReact_rr, finishF_sync hfr' hres, settOf_errOf, hd,
      settle_of_pending hp1 s]
    rfl
  rw [hproc] at hstep
  refine ⟨_, Steps.single hstep, rfl, rfl, by simp [enqueue, setP, pushLog], rfl, rfl, rfl, rfl,
    ?_, ?_⟩
  · intro p hp'
    show getP (setP fr.internal (PState.settled s) (pushLog (Ev.remSettled f) { st with queue := [] })) p
      = getP st p
    rw [getP_setP_ne _ _ (fun h => hp' h.symm)]
    rfl
  · show getP (setP fr.internal (PState.settled s) (pushLog (Ev.remSettled f) { st with queue := [] }))
      fr.internal = some (PState.settled s)
    exact getP_setP_self _ (getP_lt_length hp1)

/-- Descending spawn cascade along a run of synchronous middleware: starting
from the `queueMicrotask` check of frame `f` whose remaining queue begins
with `a` copies of `MW.sync true`, the machine spawns frames
`f+1, ..., f+a` one per microtask (each entered, returning `undefined`,
enqueueing its own check, and its parent awaiting its internal promise);
the queue ends holding the check of the frontier frame `f + a`, whose
remaining queue is `rest`.  Frame `f+1+j`'s internal and teardown promises
are `P + 2j` and `P + 2j + 1` where `P` is the promise count on entry. -/
lemma descend (a : Nat) : ∀ (st : St) (f : Nat) (fr : Frame) (rest : List MW),
    st.queue = [Task.check f] →
    st.frames.length = f + 1 →
    getF st f = some fr →
    fr.remaining = List.replicate a (MW.sync true) ++ rest →
    fr.flag = false →
    fr.depth = f →
    ∃ st', Steps st st' ∧
      st'.queue = [Task.check (f + a)] ∧
      st'.frames.length = f + a + 1 ∧
      st'.promises.length = st.promises.length + 2 * a ∧
      st'.log = st.log ++ entersFrom (f + 1) a ∧
      st'.handler = st.handler ∧ st'.reqCtx = st.reqCtx ∧ st'.resCtx = st.resCtx ∧
      (∀ g, g < f + 1 → getF st' g = getF st g) ∧
      (∀ p, p < st.promises.length → getP st' p = getP st p) ∧
      (∀ j, j < a → getF st' (f + 1 + j) = some
        { current := some (MW.sync true),
          remaining := List.replicate (a - 1 - j) (MW.sync true) ++ rest,
          depth := f + 1 + j, result := none,
          internal := st.promises.length + 2 * j,
          teardown := st.promises.length + 2 * j + 1, flag := false }) ∧
      (∀ j, j < a → getP st' (st.promises.length + 2 * j) =
        some (PState.pending [Reaction.resumeRemaining (f + j)])) := by
  induction a with
  | zero =>
      intro st f fr rest hq hlen hfr hrem hflag hd
      refine ⟨st, Steps.refl st, by simpa using hq, by omega, by simp, by simp [entersFrom],
        rfl, rfl, rfl, fun g _ => rfl, fun p _ => rfl,
        fun j hj => absurd hj (by omega), fun j hj => absurd hj (by omega)⟩
  | succ a ih =>
      intro st f fr rest hq hlen hfr hrem hflag hd
      have hrem' : fr.remaining = MW.sync true :: (List.replicate a (MW.sync true) ++ rest) := by
        rw [hrem, List.replicate_succ]
        rfl
      -- the one step that spawns frame f+1
      set st0 : St := { st with queue := [] } with hst0
      have hfr0 : getF st0 f = some fr := hfr
      have hstep0 : step st = some (procTask (Task.check f) st0) := step_cons hq
      have h1 : procTask (Task.check f) st0 = runRemaining f st0 := procTask_check_go hfr0 hflag
      set nf : Frame :=
        { current := some (MW.sync true),
          remaining := List.replicate a (MW.sync true) ++ rest,
          depth := f + 1, result := none,
          internal := st.promises.length,
          teardown := st.promises.length + 1, flag := false } with hnf
      set stA : St := { st0 with
        promises := st0.promises ++ [PState.pending [], PState.pending []],
        frames := st0.frames ++ [nf] } with hstA
      have hnewF : (newFrame (MW.sync true :: (List.replicate a (MW.sync true) ++ rest))
          (f + 1) st0).2 = stA := by
        simp [newFrame, allocP, hstA, hnf]
      have h2 : runRemaining f st0 =
          subscribe st.promises.length (Reaction.resumeRemaining f) (run (f + 1) stA) := by
        rw [runRemaining_cons hfr0 hrem']
        have hfl : st0.frames.length = f + 1 := hlen
        have hpl : st0.promises.length = st.promises.length := rfl
        rw [hfl, hpl, hd, hnewF]
      have hgetnf : getF stA (f + 1) = some nf := by
        show (st0.frames ++ [nf])[f + 1]? = some nf
        have : st0.frames.length = f + 1 := hlen
        rw [← this]
        exact List.getElem?_concat_length _ _
      have h3 : run (f + 1) stA =
          enqueue [Task.check (f + 1)] (setF (f + 1) nf (pushLog (Ev.enter (f + 1)) stA)) := by
        simp only [run, hgetnf, callMw, hnf]
      have hgetPA : getP (enqueue [Task.check (f + 1)] (setF (f + 1) nf (pushLog (Ev.enter (f + 1)) stA)))
          (st.promises.length) = some (PState.pending []) := by
        show (st0.promises ++ [PState.pending [], PState.pending []])[st.promises.length]? =
          some (PState.pending [])
        have hpl : st0.promises.length = st.promises.length := rfl
        rw [List.getElem?_append_right (by omega)]
        simp [hpl]
      have h4 : subscribe st.promises.length (Reaction.resumeRemaining f)
          (enqueue [Task.check (f + 1)] (setF (f + 1) nf (pushLog (Ev.enter (f + 1)) stA))) =
          setP st.promises.length (PState.pending [Reaction.resumeRemaining f])
            (enqueue [Task.check (f + 1)] (setF (f + 1) nf (pushLog (Ev.enter (f + 1)) stA))) := by
        rw [subscribe_of_pending hgetPA]
        rfl
      set st1 : St := setP st.promises.length (PState.pending [Reaction.resumeRemaining f])
        (enqueue [Task.check (f + 1)] (setF (f + 1) nf (pushLog (Ev.enter (f + 1)) stA))) with hst1
      have hstep : step st = some st1 := by
        rw [hstep0, h1, h2, h3, h4]
      -- facts about st1
      have hq1 : st1.queue = [Task.check (f + 1)] := rfl
      have hflen1 : st1.frames.length = f + 2 := by
        show ((st0.frames ++ [nf]).set (f + 1) nf).length = f + 2
        simp [hlen]
      have hplen1 : st1.promises.length = st.promises.length + 2 := by
        show ((st0.promises ++ [PState.pending [], PState.pending []]).set
          st.promises.length (PState.pending [Reaction.resumeRemaining f])).length =
          st.promises.length + 2
        simp
      have hlog1 : st1.log = st.log ++ [Ev.enter (f + 1)] := rfl
      have hfr1 : getF st1 (f + 1) = some nf := by
        show getF (setF (f + 1) nf (pushLog (Ev.enter (f + 1)) stA)) (f + 1) = some nf
        refine getF_setF_self nf ?_
        show f + 1 < (st0.frames ++ [nf]).length
        simp [hlen]
      have hframes1_old : ∀ g, g < f + 1 → getF st1 g = getF st g := by
        intro g hg
        show getF (setF (f + 1) nf (pushLog (Ev.enter (f + 1)) stA)) g = getF st g
        rw [@getF_setF_ne (f + 1) g nf _ (by omega)]
        show (st0.frames ++ [nf])[g]? = st.frames[g]?
        have hgl : g < st0.frames.length := by
          show g < st.frames.length
          omega
        exact List.getElem?_append_left hgl
      have hprom1_old : ∀ p, p < st.promises.length → getP st1 p = getP st p := by
        intro p hp
        show getP (setP st.promises.length (PState.pending [Reaction.resumeRemaining f])
          (enqueue [Task.check (f + 1)] (setF (f + 1) nf (pushLog (Ev.enter (f + 1)) stA)))) p
          = getP st p
        rw [@getP_setP_ne st.promises.length p _ _ (by omega)]
        show (st0.promises ++ [PState.pending [], PState.pending []])[p]? = st.promises[p]?
        have hpl : p < st0.promises.length := by
          show p < st.promises.length
          omega
        exact List.getElem?_append_left hpl
      have hprom1_new : getP st1 st.promises.length =
          some (PState.pending [Reaction.resumeRemaining f]) := by
        refine getP_setP_self _ ?_
        show st.promises.length <
          (enqueue [Task.check (f + 1)] (setF (f + 1) nf (pushLog (Ev.enter (f + 1)) stA))).promises.length
        show st.promises.length < (st0.promises ++ [PState.pending [], PState.pending []]).length
        simp
      -- apply the inductive hypothesis from frame f+1
      obtain ⟨st', hsteps', hq', hflen', hplen', hlog', hhand', hreq', hres',
          holdF', holdP', hspineF', hspineP'⟩ :=
        ih st1 (f + 1) nf rest hq1 hflen1 hfr1 rfl rfl rfl
      refine ⟨st', Steps.trans (Steps.single hstep) hsteps', ?_, ?_, ?_, ?_, ?_, ?_, ?_,
        ?_, ?_, ?_, ?_⟩
      · have harith : f + 1 + a = f + (a + 1) := by omega
        rw [hq', harith]
      · omega
      · rw [hplen', hplen1]
        omega
      · rw [hlog', hlog1, entersFrom, List.append_assoc]
        rfl
      · rw [hhand']
        rfl
      · rw [hreq']
        rfl
      · rw [hres']
        rfl
      · intro g hg
        have hg2 : g < f + 1 + 1 := by omega
        rw [holdF' g hg2, hframes1_old g hg]
      · intro p hp
        have hp2 : p < st1.promises.length := by omega
        rw [holdP' p hp2, hprom1_old p hp]
      · intro j hj
        cases j with
        | zero =>
            have hlt : f + 1 < f + 1 + 1 := by omega
            have heq := holdF' (f + 1) hlt
            have harith : f + 1 + 0 = f + 1 := by omega
            rw [harith, heq, hfr1, hnf]
            have h5 : a + 1 - 1 - 0 = a := by omega
            have h6 : st.promises.length + 2 * 0 = st.promises.length := by omega
            rw [h5, h6]
        | succ j =>
            have hja : j < a := by omega
            have heq := hspineF' j hja
            have harith : f + 1 + 1 + j = f + 1 + (j + 1) := by omega
            rw [harith] at heq
            rw [heq, hplen1]
            have h5 : st.promises.length + 2 + 2 * j = st.promises.length + 2 * (j + 1) := by omega
            have h6 : a - 1 - j = a + 1 - 1 - (j + 1) := by omega
            rw [h5, h6]
      · intro j hj
        cases j with
        | zero =>
            have hlt : st.promises.length < st1.promises.length := by omega
            have heq := holdP' st.promises.length hlt
            have h5 : st.promises.length + 2 * 0 = st.promises.length := by omega
            have h6 : f + 0 = f := by omega
            rw [h5, h6, heq, hprom1_new]
        | succ j =>
            have hja : j < a := by omega
            have heq := hspineP' j hja
            rw [hplen1] at heq
            have h5 : st.promises.length + 2 + 2 * j = st.promises.length + 2 * (j + 1) := by omega
            have h6 : f + 1 + j = f + (j + 1) := by omega
            rw [h5, h6] at heq
            exact heq

/-! ## Explicit initial states -/

/-- Running the chain on a list headed by a synchronous middleware: the
synchronous part of the top-level `run` enters the middleware (which calls
the continuation and returns `undefined`) and enqueues the check. -/
lemma execSt_sync (rest : List MW) (h : Handler) (q r : Nat) :
    execSt (MW.sync true :: rest) h q r =
      { frames := [{ current := some (MW.sync true), remaining := rest, depth := 0,
                     result := none, internal := 0, teardown := 1, flag := false }],
        promises := [PState.pending [], PState.pending []],
        queue := [Task.check 0], log := [Ev.enter 0],
        handler := h, reqCtx := q, resCtx := r } := rfl

/-- Running the chain on a list headed by an asynchronous middleware that
awaits the continuation: the middleware is entered, subscribes to the
teardown handle (promise 1), returns its own pending promise (promise 2) to
which `run` attaches the result handlers, and the check is enqueued. -/
lemma execSt_asyncAwait (c : Bool) (rest : List MW) (h : Handler) (q r : Nat) :
    execSt (MW.asyncAwait c :: rest) h q r =
      { frames := [{ current := some (MW.asyncAwait c), remaining := rest, depth := 0,
                     result := some 2, internal := 0, teardown := 1, flag := false }],
        promises := [PState.pending [], PState.pending [Reaction.mwResume 0],
                     PState.pending [Reaction.reactResult 0]],
        queue := [Task.check 0], log := [Ev.enter 0],
        handler := h, reqCtx := q, resCtx := r } := rfl

/-! ## Unfolding the terminal-handler invocation -/

lemma callHandler_hsync_ok {st : St} (f : Nat) (hh : st.handler = Handler.hsync none) :
    callHandler f st = enqueue [Task.react (Reaction.resumeRemaining f) Sett.ok]
      (pushLog (Ev.terminalEnter st.reqCtx st.resCtx) st) := by
  simp [callHandler, handler_pushLog, hh]

lemma callHandler_hsync_throw {st : St} (f : Nat) {e : Err}
    (hh : st.handler = Handler.hsync (some e)) :
    callHandler f st = finishF f (some e) (pushLog (Ev.terminalEnter st.reqCtx st.resCtx) st) := by
  simp [callHandler, handler_pushLog, hh]

lemma callHandler_hasync_settled {st : St} (f : Nat) {s : Sett}
    (hh : st.handler = Handler.hasync 0 (some s)) :
    callHandler f st = subscribe st.promises.length (Reaction.resumeRemaining f)
      { pushLog (Ev.terminalEnter st.reqCtx st.resCtx) st with
          promises := st.promises ++ [PState.settled s] } := by
  simp [callHandler, handler_pushLog, hh, allocP]
  rfl

lemma callHandler_hasync_later {st : St} (f : Nat) {d : Nat} {s : Sett}
    (hh : st.handler = Handler.hasync (d + 1) (some s)) :
    callHandler f st = subscribe st.promises.length (Reaction.resumeRemaining f)
      (enqueue [Task.tick st.promises.length d s]
        { pushLog (Ev.terminalEnter st.reqCtx st.resCtx) st with
            promises := st.promises ++ [PState.pending []] }) := by
  simp [callHandler, handler_pushLog, hh, allocP]
  rfl

lemma callHandler_hasync_none {st : St} (f : Nat) {d : Nat}
    (hh : st.handler = Handler.hasync d none) :
    callHandler f st = subscribe st.promises.length (Reaction.resumeRemaining f)
      { pushLog (Ev.terminalEnter st.reqCtx st.resCtx) st with
          promises := st.promises ++ [PState.pending []] } := by
  cases d with
  | zero =>
      simp [callHandler, handler_pushLog, hh, allocP]
      rfl
  | succ d =>
      simp [callHandler, handler_pushLog, hh, allocP]
      rfl

/-! ## Bottom steps: invoking the terminal handler at the frontier frame -/

/-- Frontier check with an empty remaining queue and a succeeding
synchronous terminal handler: the handler is invoked and the frame's
`await` resumption (fulfilled) is enqueued. -/
lemma terminalOkStep (st : St) (f : Nat) (fr : Frame)
    (hq : st.queue = [Task.check f]) (hfr : getF st f = some fr)
    (hrem : fr.remaining = []) (hflag : fr.flag = false)
    (hh : st.handler = Handler.hsync none) :
    ∃ st', Steps st st' ∧
      st'.queue = [Task.react (Reaction.resumeRemaining f) Sett.ok] ∧
      st'.frames = st.frames ∧ st'.promises = st.promises ∧
      st'.log = st.log ++ [Ev.terminalEnter st.reqCtx st.resCtx] ∧
      st'.handler = st.handler ∧ st'.reqCtx = st.reqCtx ∧ st'.resCtx = st.resCtx := by
  have hstep : step st = some (procTask (Task.check f) { st with queue := [] }) := step_cons hq
  have hfr' : getF { st with queue := ([] : List Task) } f = some fr := hfr
  have hh' : ({ st with queue := ([] : List Task) } : St).handler = Handler.hsync none := hh
  rw [procTask_check_go hfr' hflag, runRemaining_nil hfr' hrem, callHandler_hsync_ok f hh']
    at hstep
  exact ⟨_, Steps.single hstep, rfl, rfl, rfl, rfl, rfl, rfl, rfl⟩

/-- Frontier check with an empty remaining queue and a synchronous terminal
handler that throws, where the frontier frame's current middleware was
synchronous: the handler is invoked, the throw is caught by `runRemaining`
which calls `finish(err)` in the same task, and since the frame has no
pending result the frame's internal promise is rejected, waking its
subscribed reactions. -/
lemma terminalThrowSyncStep (st : St) (f : Nat) (fr : Frame) (e : Err) (R : List Reaction)
    (hq : st.queue = [Task.check f]) (hfr : getF st f = some fr)
    (hrem : fr.remaining = []) (hflag : fr.flag = false) (hres : fr.result = none)
    (hd : fr.depth = f)
    (hint : getP st fr.internal = some (PState.pending R))
    (hh : st.handler = Handler.hsync (some e)) :
    ∃ st', Steps st st' ∧
      st'.queue = R.map (fun rc => Task.react rc (Sett.er e)) ∧
      st'.frames = st.frames ∧ st'.promises.length = st.promises.length ∧
      st'.log = st.log ++ [Ev.terminalEnter st.reqCtx st.resCtx, Ev.remSettled f] ∧
      st'.handler = st.handler ∧ st'.reqCtx = st.reqCtx ∧ st'.resCtx = st.resCtx ∧
      (∀ p, p ≠ fr.internal → getP st' p = getP st p) ∧
      getP st' fr.internal = some (PState.settled (Sett.er e)) := by
  have hstep : step st = some (procTask (Task.check f) { st with queue := [] }) := step_cons hq
  have hfr' : getF { st with queue := ([] : List Task) } f = some fr := hfr
  have hh' : ({ st with queue := ([] : List Task) } : St).handler = Handler.hsync (some e) := hh
  have hfrL : getF (pushLog (Ev.terminalEnter st.reqCtx st.resCtx) { st with queue := [] }) f =
      some fr := hfr
  have hintL : getP (pushLog (Ev.remSettled fr.depth)
      (pushLog (Ev.terminalEnter st.reqCtx st.resCtx) { st with queue := [] }))
      fr.internal = some (PState.pending R) := hint
  have hproc : procTask (Task.check f) { st with queue := [] } =
      enqueue (R.map (fun rc => Task.react rc (Sett.er e)))
        (setP fr.internal (PState.settled (Sett.er e))
          (pushLog (Ev.remSettled fr.depth)
            (pushLog (Ev.terminalEnter st.reqCtx st.resCtx) { st with queue := [] }))) := by
    rw [procTask_check_go hfr' hflag, runRemaining_nil hfr' hrem, callHandler_hsync_throw f hh',
      finishF_sync hfrL hres, settle_of_pending hintL]
    rfl
  rw [hproc] at hstep
  refine ⟨_, Steps.single hstep, rfl, rfl, by simp [enqueue, setP, pushLog],
    by simp [enqueue, setP, pushLog, hd], rfl, rfl, rfl, ?_, ?_⟩
  · intro p hp
    show getP (setP fr.internal (PState.settled (Sett.er e))
      (pushLog (Ev.remSettled fr.depth)
        (pushLog (Ev.terminalEnter st.reqCtx st.resCtx) { st with queue := [] }))) p = getP st p
    rw [@getP_setP_ne fr.internal p _ _ (fun hc => hp hc.symm)]
    rfl
  · show getP (setP fr.internal (PState.settled (Sett.er e))
      (pushLog (Ev.remSettled fr.depth)
        (pushLog (Ev.terminalEnter st.reqCtx st.resCtx) { st with queue := [] })))
      fr.internal = some (PState.settled (Sett.er e))
    exact getP_setP_self _ (getP_lt_length hintL)

/-- Frontier check whose remaining queue begins with an `asyncAwait`
middleware: the child `Executor` is constructed (internal promise `P`,
teardown promise `P+1` where `P` is the promise count on entry), the
middleware is entered, subscribes its resumption to the teardown handle and
returns its own pending promise `P+2`, to which `run` attaches the result
handlers before enqueueing the child's check; the parent awaits the child's
internal promise. -/
lemma asyncSpawnStep (st : St) (f : Nat) (fr : Frame) (c : Bool) (rest2 : List MW)
    (hq : st.queue = [Task.check f])
    (hlen : st.frames.length = f + 1)
    (hfr : getF st f = some fr)
    (hrem : fr.remaining = MW.asyncAwait c :: rest2)
    (hflag : fr.flag = false)
    (hd : fr.depth = f) :
    ∃ st', Steps st st' ∧
      st'.queue = [Task.check (f + 1)] ∧
      st'.frames.length = f + 2 ∧
      st'.promises.length = st.promises.length + 3 ∧
      st'.log = st.log ++ [Ev.enter (f + 1)] ∧
      st'.handler = st.handler ∧ st'.reqCtx = st.reqCtx ∧ st'.resCtx = st.resCtx ∧
      (∀ g, g < f + 1 → getF st' g = getF st g) ∧
      (∀ p, p < st.promises.length → getP st' p = getP st p) ∧
      getF st' (f + 1) = some
        { current := some (MW.asyncAwait c), remaining := rest2, depth := f + 1,
          result := some (st.promises.length + 2), internal := st.promises.length,
          teardown := st.promises.length + 1, flag := false } ∧
      getP st' st.promises.length = some (PState.pending [Reaction.resumeRemaining f]) ∧
      getP st' (st.promises.length + 1) = some (PState.pending [Reaction.mwResume (f + 1)]) ∧
      getP st' (st.promises.length + 2) = some (PState.pending [Reaction.reactResult (f + 1)]) := by
  have hrem' : fr.remaining = MW.asyncAwait c :: rest2 := hrem
  set st0 : St := { st with queue := [] } with hst0
  have hfr0 : getF st0 f = some fr := hfr
  have hstep0 : step st = some (procTask (Task.check f) st0) := step_cons hq
  have h1 : procTask (Task.check f) st0 = runRemaining f st0 := procTask_check_go hfr0 hflag
  set nf0 : Frame :=
    { current := some (MW.asyncAwait c), remaining := rest2, depth := f + 1,
      result := none, internal := st.promises.length,
      teardown := st.promises.length + 1, flag := false } with hnf0
  set stA : St := { st0 with
    promises := st0.promises ++ [PState.pending [], PState.pending []],
    frames := st0.frames ++ [nf0] } with hstA
  have hnewF : (newFrame (MW.asyncAwait c :: rest2) (f + 1) st0).2 = stA := by
    simp [newFrame, allocP, hstA, hnf0]
  have h2 : runRemaining f st0 =
      subscribe st.promises.length (Reaction.resumeRemaining f) (run (f + 1) stA) := by
    rw [runRemaining_cons hfr0 hrem']
    have hfl : st0.frames.length = f + 1 := hlen
    have hpl : st0.promises.length = st.promises.length := rfl
    rw [hfl, hpl, hd, hnewF]
  have hgetnf : getF stA (f + 1) = some nf0 := by
    show (st0.frames ++ [nf0])[f + 1]? = some nf0
    have : st0.frames.length = f + 1 := hlen
    rw [← this]
    exact List.getElem?_concat_length _ _
  -- the middleware call: enter, subscribe to teardown, allocate own promise
  set st2 : St := setP (st.promises.length + 1) (PState.pending [Reaction.mwResume (f + 1)])
    (pushLog (Ev.enter (f + 1)) stA) with hst2
  set st3 : St := { st2 with promises := st2.promises ++ [PState.pending []] } with hst3
  have hsubp : getP (pushLog (Ev.enter (f + 1)) stA) (st.promises.length + 1) =
      some (PState.pending []) := by
    show (st0.promises ++ [PState.pending [], PState.pending []])[st.promises.length + 1]? =
      some (PState.pending [])
    have hpl : st0.promises.length = st.promises.length := rfl
    rw [List.getElem?_append_right (by omega)]
    simp [hpl]
  have hlen2 : st2.promises.length = st.promises.length + 2 := by
    show ((st0.promises ++ [PState.pending [], PState.pending []]).set
      (st.promises.length + 1) (PState.pending [Reaction.mwResume (f + 1)])).length =
      st.promises.length + 2
    simp
  have hcall : callMw (f + 1)
      ({ current := some (MW.asyncAwait c), remaining := rest2, depth := f + 1,
         result := none, internal := st.promises.length,
         teardown := st.promises.length + 1, flag := false } : Frame)
      (MW.asyncAwait c) stA =
      (Except.ok (some (st.promises.length + 2)), st3) := by
    simp only [callMw, contCall]
    rw [subscribe_of_pending hsubp]
    simp only [allocP, List.nil_append]
    rw [← hst2, hlen2]
  set nfR : Frame :=
    { current := some (MW.asyncAwait c), remaining := rest2, depth := f + 1,
      result := some (st.promises.length + 2), internal := st.promises.length,
      teardown := st.promises.length + 1, flag := false } with hnfR
  have hrp : getP (setF (f + 1) nfR st3) (st.promises.length + 2) =
      some (PState.pending []) := by
    show (st2.promises ++ [PState.pending []])[st.promises.length + 2]? =
      some (PState.pending [])
    rw [← hlen2]
    exact List.getElem?_concat_length _ _
  have h3 : run (f + 1) stA =
      enqueue [Task.check (f + 1)]
        (setP (st.promises.length + 2) (PState.pending [Reaction.reactResult (f + 1)])
          (setF (f + 1) nfR st3)) := by
    simp only [run, hgetnf, hnf0]
    rw [hcall]
    show enqueue [Task.check (f + 1)]
        (subscribe (st.promises.length + 2) (Reaction.reactResult (f + 1))
          (setF (f + 1) nfR st3)) = _
    rw [subscribe_of_pending hrp]
    rfl
  set stFin : St := setP st.promises.length (PState.pending [Reaction.resumeRemaining f])
    (enqueue [Task.check (f + 1)]
      (setP (st.promises.length + 2) (PState.pending [Reaction.reactResult (f + 1)])
        (setF (f + 1) nfR st3))) with hstFin
  have hsubP : getP (enqueue [Task.check (f + 1)]
      (setP (st.promises.length + 2) (PState.pending [Reaction.reactResult (f + 1)])
        (setF (f + 1) nfR st3))) st.promises.length = some (PState.pending []) := by
    show (((st0.promises ++ [PState.pending [], PState.pending []]).set
      (st.promises.length + 1) (PState.pending [Reaction.mwResume (f + 1)]) ++
        [PState.pending []]).set (st.promises.length + 2)
          (PState.pending [Reaction.reactResult (f + 1)]))[st.promises.length]? =
      some (PState.pending [])
    rw [List.getElem?_set_ne (by omega)]
    rw [List.getElem?_append_left (by
      show st.promises.length <
        ((st0.promises ++ [PState.pending [], PState.pending []]).set
          (st.promises.length + 1) (PState.pending [Reaction.mwResume (f + 1)])).length
      have hpl : st0.promises.length = st.promises.length := rfl
      simp [hpl])]
    rw [List.getElem?_set_ne (by omega)]
    have hpl : st0.promises.length = st.promises.length := rfl
    rw [List.getElem?_append_right (by omega)]
    simp [hpl]
  have h4 : subscribe st.promises.length (Reaction.resumeRemaining f)
      (enqueue [Task.check (f + 1)]
        (setP (st.promises.length + 2) (PState.pending [Reaction.reactResult (f + 1)])
          (setF (f + 1) nfR st3))) = stFin := by
    rw [subscribe_of_pending hsubP]
    rfl
  have hstep : step st = some stFin := by
    rw [hstep0, h1, h2, h3, h4]
  have hlenFin : stFin.promises.length = st.promises.length + 3 := by
    show ((((st0.promises ++ [PState.pending [], PState.pending []]).set
      (st.promises.length + 1) (PState.pending [Reaction.mwResume (f + 1)]) ++
        [PState.pending []]).set (st.promises.length + 2)
          (PState.pending [Reaction.reactResult (f + 1)])).set st.promises.length
            (PState.pending [Reaction.resumeRemaining f])).length = st.promises.length + 3
    have hpl : st0.promises.length = st.promises.length := rfl
    simp [hpl]
  refine ⟨stFin, Steps.single hstep, rfl, ?_, hlenFin, rfl, rfl, rfl, rfl, ?_, ?_, ?_, ?_, ?_, ?_⟩
  · show ((st0.frames ++ [nf0]).set (f + 1) nfR).length = f + 2
    have hfl : st0.frames.length = f + 1 := hlen
    simp [hfl]
  · intro g hg
    show getF (setF (f + 1) nfR st3) g = getF st g
    rw [@getF_setF_ne (f + 1) g nfR _ (by omega)]
    show (st0.frames ++ [nf0])[g]? = st.frames[g]?
    have hgl : g < st0.frames.length := by
      show g < st.frames.length
      omega
    exact List.getElem?_append_left hgl
  · intro p hp
    show ((((st0.promises ++ [PState.pending [], PState.pending []]).set
      (st.promises.length + 1) (PState.pending [Reaction.mwResume (f + 1)]) ++
        [PState.pending []]).set (st.promises.length + 2)
          (PState.pending [Reaction.reactResult (f + 1)])).set st.promises.length
            (PState.pending [Reaction.resumeRemaining f]))[p]? = st.promises[p]?
    rw [List.getElem?_set_ne (by omega), List.getElem?_set_ne (by omega)]
    rw [List.getElem?_append_left (by
      show p < ((st0.promises ++ [PState.pending [], PState.pending []]).set
        (st.promises.length + 1) (PState.pending [Reaction.mwResume (f + 1)])).length
      have hpl : st0.promises.length = st.promises.length := rfl
      simp [hpl]
      omega)]
    rw [List.getElem?_set_ne (by omega)]
    have hpl2 : p < st0.promises.length := by
      show p < st.promises.length
      omega
    exact List.getElem?_append_left hpl2
  · show getF (setF (f + 1) nfR st3) (f + 1) = some nfR
    refine getF_setF_self nfR ?_
    show f + 1 < (st0.frames ++ [nf0]).length
    have hfl : st0.frames.length = f + 1 := hlen
    simp [hfl]
  · show getP stFin st.promises.length = some (PState.pending [Reaction.resumeRemaining f])
    refine getP_setP_self _ ?_
    show st.promises.length < (enqueue [Task.check (f + 1)]
      (setP (st.promises.length + 2) (PState.pending [Reaction.reactResult (f + 1)])
        (setF (f + 1) nfR st3))).promises.length
    rw [show (enqueue [Task.check (f + 1)]
      (setP (st.promises.length + 2) (PState.pending [Reaction.reactResult (f + 1)])
        (setF (f + 1) nfR st3))).promises.length =
          (((st0.promises ++ [PState.pending [], PState.pending []]).set
            (st.promises.length + 1) (PState.pending [Reaction.mwResume (f + 1)]) ++
              [PState.pending []]).set (st.promises.length + 2)
                (PState.pending [Reaction.reactResult (f + 1)])).length from rfl]
    have hpl : st0.promises.length = st.promises.length := rfl
    simp [hpl]
  · show ((((st0.promises ++ [PState.pending [], PState.pending []]).set
      (st.promises.length + 1) (PState.pending [Reaction.mwResume (f + 1)]) ++
        [PState.pending []]).set (st.promises.length + 2)
          (PState.pending [Reaction.reactResult (f + 1)])).set st.promises.length
            (PState.pending [Reaction.resumeRemaining f]))[st.promises.length + 1]? =
      some (PState.pending [Reaction.mwResume (f + 1)])
    rw [List.getElem?_set_ne (by omega), List.getElem?_set_ne (by omega)]
    rw [List.getElem?_append_left (by
      show st.promises.length + 1 <
        ((st0.promises ++ [PState.pending [], PState.pending []]).set
          (st.promises.length + 1) (PState.pending [Reaction.mwResume (f + 1)])).length
      have hpl : st0.promises.length = st.promises.length := rfl
      simp [hpl])]
    rw [List.getElem?_set_self']
    have hpl : st0.promises.length = st.promises.length := rfl
    rw [List.getElem?_eq_getElem (by simp [hpl])]
    simp
  · show ((((st0.promises ++ [PState.pending [], PState.pending []]).set
      (st.promises.length + 1) (PState.pending [Reaction.mwResume (f + 1)]) ++
        [PState.pending []]).set (st.promises.length + 2)
          (PState.pending [Reaction.reactResult (f + 1)])).set st.promises.length
            (PState.pending [Reaction.resumeRemaining f]))[st.promises.length + 2]? =
      some (PState.pending [Reaction.reactResult (f + 1)])
    rw [List.getElem?_set_ne (by omega)]
    rw [List.getElem?_set_self']
    have hpl : st0.promises.length = st.promises.length := rfl
    rw [List.getElem?_eq_getElem (by simp [hpl])]
    simp

/-- Frontier check whose remaining queue begins with a synchronously
throwing middleware: the child `Executor` is constructed and run; the
middleware throws during its own call, so `run`'s catch block rejects the
child's internal promise and no check microtask is ever enqueued for the
child -- the middleware after it are never reached.  The parent's `await`
of the child's (already rejected) internal promise enqueues the parent's
rejected resumption. -/
lemma throwSpawnStep (st : St) (f : Nat) (fr : Frame) (e : Err) (rest2 : List MW)
    (hq : st.queue = [Task.check f])
    (hlen : st.frames.length = f + 1)
    (hfr : getF st f = some fr)
    (hrem : fr.remaining = MW.syncThrow e :: rest2)
    (hflag : fr.flag = false)
    (hd : fr.depth = f) :
    ∃ st', Steps st st' ∧
      st'.queue = [Task.react (Reaction.resumeRemaining f) (Sett.er e)] ∧
      st'.frames.length = f + 2 ∧
      st'.promises.length = st.promises.length + 2 ∧
      st'.log = st.log ++ [Ev.enter (f + 1)] ∧
      st'.handler = st.handler ∧ st'.reqCtx = st.reqCtx ∧ st'.resCtx = st.resCtx ∧
      (∀ g, g < f + 1 → getF st' g = getF st g) ∧
      (∀ p, p < st.promises.length → getP st' p = getP st p) := by
  set st0 : St := { st with queue := [] } with hst0
  have hfr0 : getF st0 f = some fr := hfr
  have hstep0 : step st = some (procTask (Task.check f) st0) := step_cons hq
  have h1 : procTask (Task.check f) st0 = runRemaining f st0 := procTask_check_go hfr0 hflag
  set nt : Frame :=
    { current := some (MW.syncThrow e), remaining := rest2, depth := f + 1,
      result := none, internal := st.promises.length,
      teardown := st.promises.length + 1, flag := false } with hnt
  set stT : St := { st0 with
    promises := st0.promises ++ [PState.pending [], PState.pending []],
    frames := st0.frames ++ [nt] } with hstT
  have hnewF : (newFrame (MW.syncThrow e :: rest2) (f + 1) st0).2 = stT := by
    simp [newFrame, allocP, hstT, hnt]
  have h2 : runRemaining f st0 =
      subscribe st.promises.length (Reaction.resumeRemaining f) (run (f + 1) stT) := by
    rw [runRemaining_cons hfr0 hrem]
    have hfl : st0.frames.length = f + 1 := hlen
    have hpl : st0.promises.length = st.promises.length := rfl
    rw [hfl, hpl, hd, hnewF]
  have hgetnt : getF stT (f + 1) = some nt := by
    show (st0.frames ++ [nt])[f + 1]? = some nt
    have : st0.frames.length = f + 1 := hlen
    rw [← this]
    exact List.getElem?_concat_length _ _
  have hgetnt' : getF (pushLog (Ev.enter (f + 1)) stT) (f + 1) = some nt := hgetnt
  have hgp : getP (pushLog (Ev.enter (f + 1)) stT) (st.promises.length) =
      some (PState.pending []) := by
    show (st0.promises ++ [PState.pending [], PState.pending []])[st.promises.length]? =
      some (PState.pending [])
    have hpl : st0.promises.length = st.promises.length := rfl
    rw [List.getElem?_append_right (by omega)]
    simp [hpl]
  have h3 : run (f + 1) stT =
      setP st.promises.length (PState.settled (Sett.er e))
        (pushLog (Ev.enter (f + 1)) stT) := by
    simp only [run, hgetnt, hnt]
    show failF (f + 1) e (pushLog (Ev.enter (f + 1)) stT) = _
    rw [failF_eq hgetnt' e]
    show settle st.promises.length (Sett.er e) (pushLog (Ev.enter (f + 1)) stT) = _
    rw [settle_of_pending hgp]
    rfl
  have hgp2 : getP (setP st.promises.length (PState.settled (Sett.er e))
      (pushLog (Ev.enter (f + 1)) stT)) st.promises.length =
      some (PState.settled (Sett.er e)) :=
    getP_setP_self _ (getP_lt_length hgp)
  have h4 : subscribe st.promises.length (Reaction.resumeRemaining f)
      (setP st.promises.length (PState.settled (Sett.er e))
        (pushLog (Ev.enter (f + 1)) stT)) =
      enqueue [Task.react (Reaction.resumeRemaining f) (Sett.er e)]
        (setP st.promises.length (PState.settled (Sett.er e))
          (pushLog (Ev.enter (f + 1)) stT)) := by
    rw [subscribe_of_settled hgp2]
  have hstep : step st = some (enqueue [Task.react (Reaction.resumeRemaining f) (Sett.er e)]
      (setP st.promises.length (PState.settled (Sett.er e))
        (pushLog (Ev.enter (f + 1)) stT))) := by
    rw [hstep0, h1, h2, h3, h4]
  refine ⟨_, Steps.single hstep, rfl, ?_, ?_, rfl, rfl, rfl, rfl, ?_, ?_⟩
  · show (st0.frames ++ [nt]).length = f + 2
    have hfl : st0.frames.length = f + 1 := hlen
    simp [hfl]
  · show ((st0.promises ++ [PState.pending [], PState.pending []]).set
      st.promises.length (PState.settled (Sett.er e))).length = st.promises.length + 2
    have hpl : st0.promises.length = st.promises.length := rfl
    simp [hpl]
  · intro g hg
    show (st0.frames ++ [nt])[g]? = st.frames[g]?
    have hgl : g < st0.frames.length := by
      show g < st.frames.length
      omega
    exact List.getElem?_append_left hgl
  · intro p hp
    show ((st0.promises ++ [PState.pending [], PState.pending []]).set
      st.promises.length (PState.settled (Sett.er e)))[p]? = st.promises[p]?
    rw [List.getElem?_set_ne (by omega)]
    have hpl2 : p < st0.promises.length := by
      show p < st.promises.length
      omega
    exact List.getElem?_append_left hpl2

/-- Frontier check at an asynchronous frame with an empty remaining queue
and a synchronous terminal handler that throws: the handler is invoked and
throws, `runRemaining` catches and calls `finish(err)` in the same task;
the frame's current middleware is asynchronous (`result` is a promise), so
the teardown promise is rejected with the handler's error, waking the
middleware's awaited resumption. -/
lemma terminalThrowAsyncStep (st : St) (f : Nat) (fr : Frame) (e : Err) (rp : Nat)
    (hq : st.queue = [Task.check f]) (hfr : getF st f = some fr)
    (hrem : fr.remaining = []) (hflag : fr.flag = false) (hres : fr.result = some rp)
    (hd : fr.depth = f)
    (htd : getP st fr.teardown = some (PState.pending [Reaction.mwResume f]))
    (hh : st.handler = Handler.hsync (some e)) :
    ∃ st', Steps st st' ∧
      st'.queue = [Task.react (Reaction.mwResume f) (Sett.er e)] ∧
      st'.frames = st.frames ∧ st'.promises.length = st.promises.length ∧
      st'.log = st.log ++
        [Ev.terminalEnter st.reqCtx st.resCtx, Ev.remSettled f, Ev.teardownRel f] ∧
      st'.handler = st.handler ∧ st'.reqCtx = st.reqCtx ∧ st'.resCtx = st.resCtx ∧
      (∀ p, p ≠ fr.teardown → getP st' p = getP st p) ∧
      getP st' fr.teardown = some (PState.settled (Sett.er e)) := by
  have hstep0 : step st = some (procTask (Task.check f) { st with queue := [] }) := step_cons hq
  have hfr' : getF { st with queue := ([] : List Task) } f = some fr := hfr
  have hh' : ({ st with queue := ([] : List Task) } : St).handler = Handler.hsync (some e) := hh
  have hfrL : getF (pushLog (Ev.terminalEnter st.reqCtx st.resCtx) { st with queue := [] }) f =
      some fr := hfr
  have htdL : getP (pushLog (Ev.teardownRel fr.depth) (pushLog (Ev.remSettled fr.depth)
      (pushLog (Ev.terminalEnter st.reqCtx st.resCtx) { st with queue := [] })))
      fr.teardown = some (PState.pending [Reaction.mwResume f]) := htd
  have hproc : procTask (Task.check f) { st with queue := [] } =
      enqueue [Task.react (Reaction.mwResume f) (Sett.er e)]
        (setP fr.teardown (PState.settled (Sett.er e))
          (pushLog (Ev.teardownRel fr.depth) (pushLog (Ev.remSettled fr.depth)
            (pushLog (Ev.terminalEnter st.reqCtx st.resCtx) { st with queue := [] })))) := by
    rw [procTask_check_go hfr' hflag, runRemaining_nil hfr' hrem, callHandler_hsync_throw f hh',
      finishF_async hfrL hres, settle_of_pending htdL]
    rfl
  rw [hproc] at hstep0
  refine ⟨_, Steps.single hstep0, rfl, rfl, by simp [enqueue, setP, pushLog],
    by simp [enqueue, setP, pushLog, hd], rfl, rfl, rfl, ?_, ?_⟩
  · intro p hp
    show getP (setP fr.teardown (PState.settled (Sett.er e))
      (pushLog (Ev.teardownRel fr.depth) (pushLog (Ev.remSettled fr.depth)
        (pushLog (Ev.terminalEnter st.reqCtx st.resCtx) { st with queue := [] })))) p = getP st p
    rw [@getP_setP_ne fr.teardown p _ _ (fun hc => hp hc.symm)]
    rfl
  · show getP (setP fr.teardown (PState.settled (Sett.er e))
      (pushLog (Ev.teardownRel fr.depth) (pushLog (Ev.remSettled fr.depth)
        (pushLog (Ev.terminalEnter st.reqCtx st.resCtx) { st with queue := [] }))))
      fr.teardown = some (PState.settled (Sett.er e))
    exact getP_setP_self _ (getP_lt_length htdL)

/-- Resumption of an asynchronous frame's `await` in `runRemaining`:
`finish` runs, and since the frame's middleware is asynchronous the
teardown promise is released with the remainder's settlement, waking the
middleware's awaited resumption. -/
lemma hop1 (st : St) (k : Nat) (fr : Frame) (s : Sett) (rp : Nat)
    (hq : st.queue = [Task.react (Reaction.resumeRemaining k) s])
    (hfr : getF st k = some fr) (hres : fr.result = some rp) (hd : fr.depth = k)
    (htd : getP st fr.teardown = some (PState.pending [Reaction.mwResume k])) :
    ∃ st', Steps st st' ∧
      st'.queue = [Task.react (Reaction.mwResume k) s] ∧
      st'.frames = st.frames ∧ st'.promises.length = st.promises.length ∧
      st'.log = st.log ++ [Ev.remSettled k, Ev.teardownRel k] ∧
      st'.handler = st.handler ∧ st'.reqCtx = st.reqCtx ∧ st'.resCtx = st.resCtx ∧
      (∀ p, p ≠ fr.teardown → getP st' p = getP st p) ∧
      getP st' fr.teardown = some (PState.settled s) := by
  have hstep0 : step st =
      some (procTask (Task.react (Reaction.resumeRemaining k) s) { st with queue := [] }) :=
    step_cons hq
  have hfr' : getF { st with queue := ([] : List Task) } k = some fr := hfr
  have htdL : getP (pushLog (Ev.teardownRel fr.depth) (pushLog (Ev.remSettled fr.depth)
      { st with queue := [] })) fr.teardown =
      some (PState.pending [Reaction.mwResume k]) := htd
  have hproc : procTask (Task.react (Reaction.resumeRemaining k) s) { st with queue := [] } =
      enqueue [Task.react (Reaction.mwResume k) s]
        (setP fr.teardown (PState.settled s)
          (pushLog (Ev.teardownRel fr.depth) (pushLog (Ev.remSettled fr.depth)
            { st with queue := [] }))) := by
    rw [procTask_react, procReact_rr, finishF_async hfr' hres, settOf_errOf,
      settle_of_pending htdL]
    rfl
  rw [hproc] at hstep0
  refine ⟨_, Steps.single hstep0, rfl, rfl, by simp [enqueue, setP, pushLog],
    by simp [enqueue, setP, pushLog, hd], rfl, rfl, rfl, ?_, ?_⟩
  · intro p hp
    show getP (setP fr.teardown (PState.settled s)
      (pushLog (Ev.teardownRel fr.depth) (pushLog (Ev.remSettled fr.depth)
        { st with queue := [] }))) p = getP st p
    rw [@getP_setP_ne fr.teardown p _ _ (fun hc => hp hc.symm)]
    rfl
  · show getP (setP fr.teardown (PState.settled s)
      (pushLog (Ev.teardownRel fr.depth) (pushLog (Ev.remSettled fr.depth)
        { st with queue := [] }))) fr.teardown = some (PState.settled s)
    exact getP_setP_self _ (getP_lt_length htdL)

/-- The settlement an asynchronous `asyncAwait` middleware's own promise
receives after its awaited handle settles to `s`: fulfilment passes
through; rejection is caught (fulfilling) when the middleware catches, and
rethrown otherwise. -/
def mwSett (c : Bool) : Sett → Sett
  | Sett.ok => Sett.ok
  | Sett.er e => if c then Sett.ok else Sett.er e

/-- The ghost log the middleware's resumption writes: post-work after
fulfilment, or the observation of the rejection. -/
def mwLogEv (k : Nat) : Sett → List Ev
  | Sett.ok => [Ev.post k]
  | Sett.er e => [Ev.tearErr k e]

/-- Resumption of an `asyncAwait` middleware whose awaited handle settled
to `s`, followed by the result handlers attached in `run`: the middleware's
own promise settles to `mwSett c s`, the result handlers fire (setting the
failure flag on rejection) and settle the frame's internal promise the same
way, waking its stored reactions. -/
lemma hopTail (st : St) (k : Nat) (fr : Frame) (c : Bool) (s : Sett) (rp : Nat)
    (R : List Reaction)
    (hq : st.queue = [Task.react (Reaction.mwResume k) s])
    (hfr : getF st k = some fr) (hcur : fr.current = some (MW.asyncAwait c))
    (hres : fr.result = some rp) (hd : fr.depth = k)
    (hrp : getP st rp = some (PState.pending [Reaction.reactResult k]))
    (hint : getP st fr.internal = some (PState.pending R))
    (hne : rp ≠ fr.internal) (hklen : k < st.frames.length) :
    ∃ st', Steps st st' ∧
      st'.queue = R.map (fun rc => Task.react rc (mwSett c s)) ∧
      st'.frames.length = st.frames.length ∧
      st'.promises.length = st.promises.length ∧
      st'.log = st.log ++ mwLogEv k s ∧
      st'.handler = st.handler ∧ st'.reqCtx = st.reqCtx ∧ st'.resCtx = st.resCtx ∧
      (∀ g, g ≠ k → getF st' g = getF st g) ∧
      (∀ p, p ≠ rp → p ≠ fr.internal → getP st' p = getP st p) ∧
      getP st' fr.internal = some (PState.settled (mwSett c s)) := by
  -- first microtask: the middleware resumes and its own promise settles
  have hstep0 : step st =
      some (procTask (Task.react (Reaction.mwResume k) s) { st with queue := [] }) :=
    step_cons hq
  have hfr' : getF { st with queue := ([] : List Task) } k = some fr := hfr
  set ev : Ev := (mwLogEv k s).headD (Ev.post k) with hev
  have hrpL : getP (pushLog ev { st with queue := [] }) rp =
      some (PState.pending [Reaction.reactResult k]) := hrp
  have hproc1 : procTask (Task.react (Reaction.mwResume k) s) { st with queue := [] } =
      enqueue [Task.react (Reaction.reactResult k) (mwSett c s)]
        (setP rp (PState.settled (mwSett c s)) (pushLog ev { st with queue := [] })) := by
    cases s with
    | ok =>
        rw [procTask_react, procReact_mwResume_ok hfr' hcur hres, hd]
        have hrpL' : getP (pushLog (Ev.post k) { st with queue := [] }) rp =
            some (PState.pending [Reaction.reactResult k]) := hrp
        rw [settle_of_pending hrpL']
        rfl
    | er e =>
        rw [procTask_react, procReact_mwResume_er hfr' hcur hres, hd]
        have hrpL' : getP (pushLog (Ev.tearErr k e) { st with queue := [] }) rp =
            some (PState.pending [Reaction.reactResult k]) := hrp
        rw [settle_of_pending hrpL']
        rfl
  rw [hproc1] at hstep0
  set st1 : St := enqueue [Task.react (Reaction.reactResult k) (mwSett c s)]
    (setP rp (PState.settled (mwSett c s)) (pushLog ev { st with queue := [] })) with hst1
  -- second microtask: the result handlers settle the internal promise
  have hq1 : st1.queue = [Task.react (Reaction.reactResult k) (mwSett c s)] := rfl
  have hstep1 : step st1 =
      some (procTask (Task.react (Reaction.reactResult k) (mwSett c s))
        { st1 with queue := [] }) := step_cons hq1
  have hfr1 : getF ({ st1 with queue := [] } : St) k = some fr := hfr
  have hint1 : getP ({ st1 with queue := [] } : St) fr.internal = some (PState.pending R) := by
    show getP (setP rp (PState.settled (mwSett c s)) (pushLog ev { st with queue := [] }))
      fr.internal = some (PState.pending R)
    rw [getP_setP_ne _ _ hne]
    exact hint
  have hevlog : st.log ++ [ev] = st.log ++ mwLogEv k s := by
    cases s <;> simp [hev, mwLogEv]
  have hfin : ∃ st2, procTask (Task.react (Reaction.reactResult k) (mwSett c s))
      { st1 with queue := [] } = st2 ∧
      st2.queue = R.map (fun rc => Task.react rc (mwSett c s)) ∧
      st2.frames.length = st.frames.length ∧
      st2.promises.length = st.promises.length ∧
      st2.log = st.log ++ mwLogEv k s ∧
      st2.handler = st.handler ∧ st2.reqCtx = st.reqCtx ∧ st2.resCtx = st.resCtx ∧
      (∀ g, g ≠ k → getF st2 g = getF st g) ∧
      (∀ p, p ≠ rp → p ≠ fr.internal → getP st2 p = getP st p) ∧
      getP st2 fr.internal = some (PState.settled (mwSett c s)) := by
    cases hms : mwSett c s with
    | ok =>
        refine ⟨enqueue (R.map (fun rc => Task.react rc Sett.ok))
            (setP fr.internal (PState.settled Sett.ok) { st1 with queue := [] }),
          ?_, ?_, rfl, ?_, ?_, rfl, rfl, rfl, ?_, ?_, ?_⟩
        · rw [procTask_react, procReact_result_ok, succeedF_eq hfr1,
            settle_of_pending hint1]
        · show [] ++ R.map (fun rc => Task.react rc Sett.ok) =
            R.map (fun rc => Task.react rc Sett.ok)
          rfl
        · show ((setP rp (PState.settled (mwSett c s))
            (pushLog ev { st with queue := [] })).promises.set fr.internal
              (PState.settled Sett.ok)).length = st.promises.length
          simp [setP, pushLog]
        · show st.log ++ [ev] = st.log ++ mwLogEv k s
          exact hevlog
        · intro g _
          rfl
        · intro p hp1 hp2
          show getP (setP fr.internal (PState.settled Sett.ok)
            (setP rp (PState.settled (mwSett c s)) (pushLog ev { st with queue := [] }))) p
            = getP st p
          rw [@getP_setP_ne fr.internal p _ _ (fun hc => hp2 hc.symm),
            @getP_setP_ne rp p _ _ (fun hc => hp1 hc.symm)]
          rfl
        · show getP (setP fr.internal (PState.settled Sett.ok)
            (setP rp (PState.settled (mwSett c s)) (pushLog ev { st with queue := [] })))
            fr.internal = some (PState.settled Sett.ok)
          exact getP_setP_self _ (getP_lt_length hint1)
    | er e' =>
        have hfrFlag : getF (setF k { fr with flag := true } { st1 with queue := [] }) k =
            some { fr with flag := true } := by
          refine getF_setF_self _ ?_
          show k < st.frames.length
          exact hklen
        have hintFlag : getP (setF k { fr with flag := true } { st1 with queue := [] })
            fr.internal = some (PState.pending R) := hint1
        refine ⟨enqueue (R.map (fun rc => Task.react rc (Sett.er e')))
            (setP fr.internal (PState.settled (Sett.er e'))
              (setF k { fr with flag := true } { st1 with queue := [] })),
          ?_, ?_, ?_, ?_, ?_, rfl, rfl, rfl, ?_, ?_, ?_⟩
        · rw [procTask_react, procReact_result_er hfr1 e', failF_eq hfrFlag e']
          show settle fr.internal (Sett.er e')
            (setF k { fr with flag := true } { st1 with queue := [] }) = _
          rw [settle_of_pending hintFlag]
        · show [] ++ R.map (fun rc => Task.react rc (Sett.er e')) =
            R.map (fun rc => Task.react rc (Sett.er e'))
          rfl
        · show (({ st1 with queue := ([] : List Task) } : St).frames.set k
            ({ fr with flag := true } : Frame)).length = st.frames.length
          simp [hst1, enqueue, setP, pushLog]
        · show ((setF k { fr with flag := true }
            ({ st1 with queue := [] } : St)).promises.set fr.internal
              (PState.settled (Sett.er e'))).length = st.promises.length
          simp [setF, setP, pushLog, hst1, enqueue]
        · show st.log ++ [ev] = st.log ++ mwLogEv k s
          exact hevlog
        · intro g hg
          show getF (setF k { fr with flag := true } ({ st1 with queue := [] } : St)) g
            = getF st g
          rw [@getF_setF_ne k g _ _ (fun hc => hg hc.symm)]
          rfl
        · intro p hp1 hp2
          show getP (setP fr.internal (PState.settled (Sett.er e'))
            (setF k { fr with flag := true } ({ st1 with queue := [] } : St))) p = getP st p
          rw [@getP_setP_ne fr.internal p _ _ (fun hc => hp2 hc.symm)]
          show getP (setP rp (PState.settled (mwSett c s)) (pushLog ev { st with queue := [] })) p
            = getP st p
          rw [@getP_setP_ne rp p _ _ (fun hc => hp1 hc.symm)]
          rfl
        · show getP (setP fr.internal (PState.settled (Sett.er e'))
            (setF k { fr with flag := true } ({ st1 with queue := [] } : St)))
            fr.internal = some (PState.settled (Sett.er e'))
          exact getP_setP_self _ (getP_lt_length hintFlag)
  obtain ⟨st2, hproc2, hrest⟩ := hfin
  refine ⟨st2, ?_, hrest.1, hrest.2.1, hrest.2.2.1, hrest.2.2.2.1, hrest.2.2.2.2.1,
    hrest.2.2.2.2.2.1, hrest.2.2.2.2.2.2.1, hrest.2.2.2.2.2.2.2.1,
    hrest.2.2.2.2.2.2.2.2.1, hrest.2.2.2.2.2.2.2.2.2⟩
  have hstep1' : step st1 = some st2 := by
    rw [hstep1, hproc2]
  exact Steps.tail (Steps.single hstep0) hstep1'

/-- Frontier check with an asynchronous terminal handler whose returned
promise is already settled: the handler is invoked, allocates its settled
promise, and the frame's `await` resumption is enqueued immediately. -/
lemma terminalAsyncSettledStep (st : St) (f : Nat) (fr : Frame) (s : Sett)
    (hq : st.queue = [Task.check f]) (hfr : getF st f = some fr)
    (hrem : fr.remaining = []) (hflag : fr.flag = false)
    (hh : st.handler = Handler.hasync 0 (some s)) :
    ∃ st', Steps st st' ∧
      st'.queue = [Task.react (Reaction.resumeRemaining f) s] ∧
      st'.frames = st.frames ∧ st'.promises.length = st.promises.length + 1 ∧
      st'.log = st.log ++ [Ev.terminalEnter st.reqCtx st.resCtx] ∧
      st'.handler = st.handler ∧ st'.reqCtx = st.reqCtx ∧ st'.resCtx = st.resCtx ∧
      (∀ p, p < st.promises.length → getP st' p = getP st p) := by
  have hstep0 : step st = some (procTask (Task.check f) { st with queue := [] }) := step_cons hq
  have hfr' : getF { st with queue := ([] : List Task) } f = some fr := hfr
  have hh' : ({ st with queue := ([] : List Task) } : St).handler = Handler.hasync 0 (some s) := hh
  have hhp : getP ({ pushLog (Ev.terminalEnter st.reqCtx st.resCtx) { st with queue := [] } with
      promises := st.promises ++ [PState.settled s] } : St) st.promises.length =
      some (PState.settled s) := by
    show (st.promises ++ [PState.settled s])[st.promises.length]? = some (PState.settled s)
    exact List.getElem?_concat_length _ _
  have hproc : procTask (Task.check f) { st with queue := [] } =
      enqueue [Task.react (Reaction.resumeRemaining f) s]
        ({ pushLog (Ev.terminalEnter st.reqCtx st.resCtx) { st with queue := [] } with
            promises := st.promises ++ [PState.settled s] } : St) := by
    rw [procTask_check_go hfr' hflag, runRemaining_nil hfr' hrem,
      callHandler_hasync_settled f hh', subscribe_of_settled hhp]
  rw [hproc] at hstep0
  refine ⟨_, Steps.single hstep0, rfl, rfl, by simp [enqueue, pushLog], rfl, rfl, rfl, rfl, ?_⟩
  · intro p hp
    show (st.promises ++ [PState.settled s])[p]? = st.promises[p]?
    exact List.getElem?_append_left hp

/-- Frontier check with an asynchronous terminal handler that settles after
a positive number of await-ticks: the handler is invoked, its countdown is
enqueued, and the frame's `await` subscribes to the handler's pending
promise. -/
lemma terminalAsyncLaterStep (st : St) (f : Nat) (fr : Frame) (d : Nat) (s : Sett)
    (hq : st.queue = [Task.check f]) (hfr : getF st f = some fr)
    (hrem : fr.remaining = []) (hflag : fr.flag = false)
    (hh : st.handler = Handler.hasync (d + 1) (some s)) :
    ∃ st', Steps st st' ∧
      st'.queue = [Task.tick st.promises.length d s] ∧
      st'.frames = st.frames ∧ st'.promises.length = st.promises.length + 1 ∧
      st'.log = st.log ++ [Ev.terminalEnter st.reqCtx st.resCtx] ∧
      st'.handler = st.handler ∧ st'.reqCtx = st.reqCtx ∧ st'.resCtx = st.resCtx ∧
      (∀ p, p < st.promises.length → getP st' p = getP st p) ∧
      getP st' st.promises.length = some (PState.pending [Reaction.resumeRemaining f]) := by
  have hstep0 : step st = some (procTask (Task.check f) { st with queue := [] }) := step_cons hq
  have hfr' : getF { st with queue := ([] : List Task) } f = some fr := hfr
  have hh' : ({ st with queue := ([] : List Task) } : St).handler =
      Handler.hasync (d + 1) (some s) := hh
  have hhp : getP (enqueue [Task.tick st.promises.length d s]
      ({ pushLog (Ev.terminalEnter st.reqCtx st.resCtx) { st with queue := [] } with
          promises := st.promises ++ [PState.pending []] } : St)) st.promises.length =
      some (PState.pending []) := by
    show (st.promises ++ [PState.pending []])[st.promises.length]? = some (PState.pending [])
    exact List.getElem?_concat_length _ _
  have hproc : procTask (Task.check f) { st with queue := [] } =
      setP st.promises.length (PState.pending [Reaction.resumeRemaining f])
        (enqueue [Task.tick st.promises.length d s]
          ({ pushLog (Ev.terminalEnter st.reqCtx st.resCtx) { st with queue := [] } with
              promises := st.promises ++ [PState.pending []] } : St)) := by
    rw [procTask_check_go hfr' hflag, runRemaining_nil hfr' hrem,
      callHandler_hasync_later f hh', subscribe_of_pending hhp]
    rfl
  rw [hproc] at hstep0
  refine ⟨_, Steps.single hstep0, rfl, rfl, by simp [setP, enqueue, pushLog], rfl, rfl, rfl,
    rfl, ?_, ?_⟩
  · intro p hp
    show ((st.promises ++ [PState.pending []]).set st.promises.length
      (PState.pending [Reaction.resumeRemaining f]))[p]? = st.promises[p]?
    rw [List.getElem?_set_ne (by omega)]
    exact List.getElem?_append_left hp
  · exact getP_setP_self _ (getP_lt_length hhp)

/-- Frontier check with an asynchronous terminal handler whose returned
promise never settles: the handler is invoked, the frame's `await`
subscribes to the forever-pending promise, and the queue drains -- the
chain stalls. -/
lemma terminalAsyncNoneStep (st : St) (f : Nat) (fr : Frame) (d : Nat)
    (hq : st.queue = [Task.check f]) (hfr : getF st f = some fr)
    (hrem : fr.remaining = []) (hflag : fr.flag = false)
    (hh : st.handler = Handler.hasync d none) :
    ∃ st', Steps st st' ∧
      st'.queue = [] ∧
      st'.frames = st.frames ∧ st'.promises.length = st.promises.length + 1 ∧
      st'.log = st.log ++ [Ev.terminalEnter st.reqCtx st.resCtx] ∧
      st'.handler = st.handler ∧ st'.reqCtx = st.reqCtx ∧ st'.resCtx = st.resCtx ∧
      (∀ p, p < st.promises.length → getP st' p = getP st p) := by
  have hstep0 : step st = some (procTask (Task.check f) { st with queue := [] }) := step_cons hq
  have hfr' : getF { st with queue := ([] : List Task) } f = some fr := hfr
  have hh' : ({ st with queue := ([] : List Task) } : St).handler = Handler.hasync d none := hh
  have hhp : getP ({ pushLog (Ev.terminalEnter st.reqCtx st.resCtx) { st with queue := [] } with
      promises := st.promises ++ [PState.pending []] } : St) st.promises.length =
      some (PState.pending []) := by
    show (st.promises ++ [PState.pending []])[st.promises.length]? = some (PState.pending [])
    exact List.getElem?_concat_length _ _
  have hproc : procTask (Task.check f) { st with queue := [] } =
      setP st.promises.length (PState.pending [Reaction.resumeRemaining f])
        ({ pushLog (Ev.terminalEnter st.reqCtx st.resCtx) { st with queue := [] } with
            promises := st.promises ++ [PState.pending []] } : St) := by
    rw [procTask_check_go hfr' hflag, runRemaining_nil hfr' hrem,
      callHandler_hasync_none f hh', subscribe_of_pending hhp]
    rfl
  rw [hproc] at hstep0
  refine ⟨_, Steps.single hstep0, rfl, rfl, by simp [setP, pushLog], rfl, rfl, rfl, rfl, ?_⟩
  · intro p hp
    show ((st.promises ++ [PState.pending []]).set st.promises.length
      (PState.pending [Reaction.resumeRemaining f]))[p]? = st.promises[p]?
    rw [List.getElem?_set_ne (by omega)]
    exact List.getElem?_append_left hp

/-! ## Log helpers -/

/-- Events that are neither a middleware entry nor the terminal handler
invocation: teardown bookkeeping and post-work. -/
def passiveEv : Ev → Bool
  | Ev.enter _ => false
  | Ev.terminalEnter _ _ => false
  | _ => true

lemma downLog_snoc (b : Nat) : ∀ f : Nat,
    downLog f b ++ [Ev.remSettled (f - b)] = downLog f (b + 1) := by
  induction b with
  | zero => intro f; simp [downLog]
  | succ b ih =>
      intro f
      show Ev.remSettled f :: downLog (f - 1) b ++ [Ev.remSettled (f - (b + 1))] = _
      have harith : f - (b + 1) = f - 1 - b := by omega
      rw [List.cons_append, harith, ih (f - 1)]
      rfl

lemma downLog_passive (b : Nat) : ∀ f : Nat, (downLog f b).all passiveEv = true := by
  induction b with
  | zero => intro f; rfl
  | succ b ih => intro f; simp [downLog, passiveEv, ih (f - 1)]

lemma mem_downLog {ev : Ev} (b : Nat) : ∀ f : Nat, ev ∈ downLog f b → ∃ j, ev = Ev.remSettled j := by
  induction b with
  | zero => intro f hm; simp [downLog] at hm
  | succ b ih =>
      intro f hm
      simp only [downLog, List.mem_cons] at hm
      rcases hm with hm | hm
      · exact ⟨f, hm⟩
      · exact ih (f - 1) hm

lemma entersFrom_append (a : Nat) : ∀ (f b : Nat),
    entersFrom f a ++ entersFrom (f + a) b = entersFrom f (a + b) := by
  induction a with
  | zero => intro f b; simp [entersFrom]
  | succ a ih =>
      intro f b
      show Ev.enter f :: entersFrom (f + 1) a ++ entersFrom (f + (a + 1)) b = _
      have harith : f + (a + 1) = f + 1 + a := by omega
      rw [List.cons_append, harith, ih (f + 1) b]
      have harith2 : a + 1 + b = a + b + 1 := by omega
      rw [harith2]
      rfl

lemma mem_entersFrom {ev : Ev} (a : Nat) : ∀ f : Nat,
    ev ∈ entersFrom f a → ∃ j, ev = Ev.enter j ∧ f ≤ j ∧ j < f + a := by
  induction a with
  | zero => intro f hm; simp [entersFrom] at hm
  | succ a ih =>
      intro f hm
      simp only [entersFrom, List.mem_cons] at hm
      rcases hm with hm | hm
      · exact ⟨f, hm, by omega, by omega⟩
      · obtain ⟨j, h1, h2, h3⟩ := ih (f + 1) hm
        exact ⟨j, h1, by omega, by omega⟩

/-! ## The full ascending cascade over a synchronous spine down to frame 0 -/

/-- From the fulfilled (or rejected) resumption of frame `N`'s `await`,
`finish` cascades down the synchronous spine `N, N-1, ..., 1` and finally
frame 0, settling every internal promise to `s`; the machine quiesces with
the chain outcome `s`.  The spine frames are as built by `descend` from the
top frame (frame `1+j` has internal promise `2 + 2j`); frame 0 is the top
frame with internal promise 0. -/
lemma syncCascade (N : Nat) (st2 : St) (s : Sett) (fr0 : Frame)
    (hq : st2.queue = [Task.react (Reaction.resumeRemaining N) s])
    (hspineF : ∀ j, j < N → ∃ sfr, getF st2 (1 + j) = some sfr ∧ sfr.result = none ∧
        sfr.depth = 1 + j ∧ sfr.internal = 2 + 2 * j)
    (hspineP : ∀ j, j < N → getP st2 (2 + 2 * j) =
        some (PState.pending [Reaction.resumeRemaining j]))
    (hfr0 : getF st2 0 = some fr0) (hres0 : fr0.result = none) (hd0 : fr0.depth = 0)
    (hint0 : fr0.internal = 0)
    (hp0 : getP st2 0 = some (PState.pending [])) :
    ∃ st', Steps st2 st' ∧ st'.queue = [] ∧
      st'.log = st2.log ++ downLog N (N + 1) ∧
      getP st' 0 = some (PState.settled s) := by
  obtain ⟨st3, hsteps3, hq3, hframes3, _, hlog3, _, _, _, hpres3, _⟩ :=
    ascend N st2 N s (fun i => 2 + 2 * (N - i - 1)) hq (by omega)
      (by
        intro i hi
        obtain ⟨sfr, h1, h2, h3, h4⟩ := hspineF (N - 1 - i) (by omega)
        have harith : 1 + (N - 1 - i) = N - i := by omega
        have harith2 : N - 1 - i = N - i - 1 := by omega
        rw [harith] at h1 h3
        rw [harith2] at h4
        refine ⟨sfr, h1, h2, h3, h4, ?_⟩
        show getP st2 (2 + 2 * (N - i - 1)) =
          some (PState.pending [Reaction.resumeRemaining (N - i - 1)])
        have h5 := hspineP (N - 1 - i) (by omega)
        rw [harith2] at h5
        exact h5)
      (by
        intro i j hi hj hij
        show 2 + 2 * (N - i - 1) ≠ 2 + 2 * (N - j - 1)
        omega)
  have hq3' : st3.queue = [Task.react (Reaction.resumeRemaining 0) s] := by
    have h00 : N - N = 0 := by omega
    rw [hq3, h00]
  have hfr03 : getF st3 0 = some fr0 := by
    show st3.frames[0]? = some fr0
    rw [hframes3]
    exact hfr0
  have hp03 : getP st3 fr0.internal = some (PState.pending []) := by
    rw [hint0]
    rw [hpres3 0 (by
      intro i hi
      show (0 : Nat) ≠ 2 + 2 * (N - i - 1)
      omega)]
    exact hp0
  obtain ⟨st4, hsteps4, hq4, _, _, hlog4, _, _, _, _, hset4⟩ :=
    ascendLast st3 0 s fr0 hq3' hfr03 hres0 hd0 hp03
  refine ⟨st4, Steps.trans hsteps3 hsteps4, hq4, ?_, ?_⟩
  · rw [hlog4, hlog3, List.append_assoc]
    have : downLog N N ++ [Ev.remSettled 0] = downLog N (N + 1) := by
      have := downLog_snoc N N
      simpa using this
    rw [this]
  · rw [← hint0]
    exact hset4

/-! ## Claim theorems -/

/-- The explicit state reached by the synchronous part of running a chain
headed by `MW.sync true`, used as the starting point of the N-middleware
theorems. -/
def syncInit (N : Nat) (h : Handler) (q r : Nat) : St :=
  { frames := [{ current := some (MW.sync true), remaining := List.replicate N (MW.sync true),
                 depth := 0, result := none, internal := 0, teardown := 1, flag := false }],
    promises := [PState.pending [], PState.pending []],
    queue := [Task.check 0], log := [Ev.enter 0],
    handler := h, reqCtx := q, resCtx := r }

lemma execSt_replicate (N : Nat) (h : Handler) (q r : Nat) :
    execSt (List.replicate (N + 1) (MW.sync true)) h q r = syncInit N h q r := by
  rw [List.replicate_succ]
  rfl

/-- After descending the whole synchronous spine from `syncInit`, the state
is quiescent-ready: the frontier check of frame `N` is queued, the spine
frames and their promises are in place. -/
lemma syncDescent (N : Nat) (h : Handler) (q r : Nat) :
    ∃ st1, Steps (syncInit N h q r) st1 ∧
      st1.queue = [Task.check N] ∧
      st1.frames.length = N + 1 ∧
      st1.promises.length = 2 + 2 * N ∧
      st1.log = Ev.enter 0 :: entersFrom 1 N ∧
      st1.handler = h ∧ st1.reqCtx = q ∧ st1.resCtx = r ∧
      (∃ frN, getF st1 N = some frN ∧ frN.remaining = [] ∧ frN.flag = false ∧
        frN.result = none ∧ frN.depth = N ∧
        getP st1 frN.internal = some (PState.pending
          (if N = 0 then [] else [Reaction.resumeRemaining (N - 1)])) ∧
        frN.internal = (if N = 0 then 0 else 2 + 2 * (N - 1))) ∧
      (∀ j, j < N → ∃ sfr, getF st1 (1 + j) = some sfr ∧ sfr.result = none ∧
          sfr.depth = 1 + j ∧ sfr.internal = 2 + 2 * j) ∧
      (∀ j, j < N → getP st1 (2 + 2 * j) =
          some (PState.pending [Reaction.resumeRemaining j])) ∧
      (∃ fr0, getF st1 0 = some fr0 ∧ fr0.result = none ∧ fr0.depth = 0 ∧
        fr0.internal = 0) ∧
      getP st1 0 = some (PState.pending []) := by
  obtain ⟨st1, hsteps, hq1, hflen1, hplen1, hlog1, hhand1, hreq1, hres1, holdF1, holdP1,
      hspF1, hspP1⟩ :=
    descend N (syncInit N h q r) 0
      { current := some (MW.sync true), remaining := List.replicate N (MW.sync true),
        depth := 0, result := none, internal := 0, teardown := 1, flag := false }
      [] rfl rfl rfl (by simp) rfl rfl
  have hplenInit : (syncInit N h q r).promises.length = 2 := rfl
  rw [hplenInit] at hplen1 hspF1 hspP1 holdP1
  have h0N : 0 + N = N := by omega
  rw [h0N] at hq1 hflen1
  refine ⟨st1, hsteps, hq1, by omega, hplen1, ?_, hhand1, hreq1, hres1, ?_, ?_, ?_, ?_, ?_⟩
  · rw [hlog1]
    rfl
  · -- frontier frame
    cases N with
    | zero =>
        refine ⟨{ current := some (MW.sync true), remaining := List.replicate 0 (MW.sync true),
                  depth := 0, result := none, internal := 0, teardown := 1, flag := false },
          ?_, rfl, rfl, rfl, rfl, ?_, rfl⟩
        · rw [holdF1 0 (by omega)]
          rfl
        · show getP st1 0 = some (PState.pending [])
          rw [holdP1 0 (by omega)]
          rfl
    | succ N' =>
        have h1 := hspF1 N' (by omega)
        have harith : 0 + 1 + N' = N' + 1 := by omega
        rw [harith] at h1
        have hrepl : N' + 1 - 1 - N' = 0 := by omega
        rw [hrepl] at h1
        refine ⟨_, h1, by simp, rfl, rfl, rfl, ?_, ?_⟩
        · show getP st1 (2 + 2 * N') = some (PState.pending
            (if N' + 1 = 0 then [] else [Reaction.resumeRemaining (N' + 1 - 1)]))
          have h2 := hspP1 N' (by omega)
          have harith2 : 0 + N' = N' := by omega
          rw [harith2] at h2
          simp only [Nat.succ_ne_zero, reduceIte, Nat.add_sub_cancel]
          exact h2
        · show 2 + 2 * N' = if N' + 1 = 0 then 0 else 2 + 2 * (N' + 1 - 1)
          simp
  · intro j hj
    have h1 := hspF1 j hj
    have harith : 0 + 1 + j = 1 + j := by omega
    rw [harith] at h1
    exact ⟨_, h1, rfl, rfl, rfl⟩
  · intro j hj
    have h2 := hspP1 j hj
    have harith : 0 + j = j := by omega
    rw [harith] at h2
    exact h2
  · refine ⟨_, by rw [holdF1 0 (by omega)]; rfl, rfl, rfl, rfl⟩
  · rw [holdP1 0 (by omega)]
    rfl

/-- Claim C1 (ordering): for every list of `N ≥ 1` middleware that all call
the continuation synchronously and neither throw nor return a promise
(`MW.sync true`), and every terminal handler, running the chain reaches
quiescence with a log that enters the middleware exactly once each, in list
order, followed by exactly one invocation of the terminal handler with the
two context values, followed only by passive teardown events.  The theorem
is stated for lists `List.replicate (N+1) (MW.sync true)`; the empty list
(`N = 0` middleware) is excluded because the executor then crashes with a
TypeError before invoking the terminal handler -- see `claim_C7_empty`. -/
theorem claim_C1_ordering (N : Nat) (h : Handler) (q r : Nat) :
    ∃ n L', (drive n (execSt (List.replicate (N + 1) (MW.sync true)) h q r)).queue = [] ∧
      (drive n (execSt (List.replicate (N + 1) (MW.sync true)) h q r)).log =
        (List.range (N + 1)).map Ev.enter ++ [Ev.terminalEnter q r] ++ L' ∧
      L'.all passiveEv = true := by
  obtain ⟨st1, hsteps1, hq1, hflen1, hplen1, hlog1, hhand1, hreq1, hres1,
      ⟨frN, hfrN, hremN, hflagN, hresN, hdN, hintPN, hintN⟩, hspF, hspP,
      ⟨fr0, hfr0, hres0, hd0, hint0⟩, hp0⟩ := syncDescent N h q r
  have hhead : (List.range (N + 1)).map Ev.enter = Ev.enter 0 :: entersFrom 1 N := by
    rw [← entersFrom_zero]
    rfl
  have hfinish : ∀ (stF : St) (L' : List Ev), Steps (syncInit N h q r) stF → stF.queue = [] →
      stF.log = (Ev.enter 0 :: entersFrom 1 N) ++ [Ev.terminalEnter q r] ++ L' →
      L'.all passiveEv = true →
      ∃ n L', (drive n (execSt (List.replicate (N + 1) (MW.sync true)) h q r)).queue = [] ∧
        (drive n (execSt (List.replicate (N + 1) (MW.sync true)) h q r)).log =
          (List.range (N + 1)).map Ev.enter ++ [Ev.terminalEnter q r] ++ L' ∧
        L'.all passiveEv = true := by
    intro stF L' hS hqF hlogF hpass
    obtain ⟨n, hn⟩ := drive_of_steps hS
    refine ⟨n, L', ?_, ?_, hpass⟩
    · rw [execSt_replicate, hn]
      exact hqF
    · rw [execSt_replicate, hn, hlogF, hhead]
  -- transport of the cascade hypotheses across a bottom step
  have hcasc : ∀ st2 : St, st2.frames = st1.frames →
      (∀ j, j < N → getP st2 (2 + 2 * j) = getP st1 (2 + 2 * j)) →
      getP st2 0 = getP st1 0 →
      (∀ j, j < N → ∃ sfr, getF st2 (1 + j) = some sfr ∧ sfr.result = none ∧
          sfr.depth = 1 + j ∧ sfr.internal = 2 + 2 * j) ∧
      (∀ j, j < N → getP st2 (2 + 2 * j) =
          some (PState.pending [Reaction.resumeRemaining j])) ∧
      getF st2 0 = some fr0 ∧ getP st2 0 = some (PState.pending []) := by
    intro st2 hfr hpp hp00
    refine ⟨?_, ?_, ?_, ?_⟩
    · intro j hj
      obtain ⟨sfr, h1, h2, h3, h4⟩ := hspF j hj
      refine ⟨sfr, ?_, h2, h3, h4⟩
      show st2.frames[1 + j]? = some sfr
      rw [hfr]
      exact h1
    · intro j hj
      rw [hpp j hj]
      exact hspP j hj
    · show st2.frames[0]? = some fr0
      rw [hfr]
      exact hfr0
    · rw [hp00]
      exact hp0
  cases h with
  | hsync r' =>
      cases r' with
      | none =>
          obtain ⟨st2, hsteps2, hq2, hframes2, hproms2, hlog2, _, _, _⟩ :=
            terminalOkStep st1 N frN hq1 hfrN hremN hflagN hhand1
          obtain ⟨hcF, hcP, hcfr0, hcp0⟩ := hcasc st2 hframes2
            (fun j _ => by rw [show getP st2 (2 + 2 * j) = getP st1 (2 + 2 * j) from by
              show st2.promises[2 + 2 * j]? = st1.promises[2 + 2 * j]?
              rw [hproms2]])
            (by show st2.promises[0]? = st1.promises[0]?; rw [hproms2])
          obtain ⟨st3, hsteps3, hq3, hlog3, _⟩ :=
            syncCascade N st2 Sett.ok fr0 hq2 hcF hcP hcfr0 hres0 hd0 hint0 hcp0
          refine hfinish st3 (downLog N (N + 1))
            (Steps.trans hsteps1 (Steps.trans hsteps2 hsteps3)) hq3 ?_ (downLog_passive _ _)
          rw [hlog3, hlog2, hlog1, hreq1, hres1]
      | some e =>
          obtain ⟨st2, hsteps2, hq2, hframes2, hplen2, hlog2, _, _, _, hpres2, _⟩ :=
            terminalThrowSyncStep st1 N frN e _ hq1 hfrN hremN hflagN hresN hdN hintPN hhand1
          cases N with
          | zero =>
              have hq2' : st2.queue = [] := by
                rw [hq2]
                rfl
              refine hfinish st2 [Ev.remSettled 0]
                (Steps.trans hsteps1 hsteps2) hq2' ?_ (by rfl)
              rw [hlog2, hlog1, hreq1, hres1]
              simp [entersFrom, List.append_assoc]
          | succ N' =>
              have hq2' : st2.queue =
                  [Task.react (Reaction.resumeRemaining N') (Sett.er e)] := by
                rw [hq2]
                rfl
              have hintNe : frN.internal = 2 + 2 * N' := by
                rw [hintN]
                rfl
              obtain ⟨st3, hsteps3, hq3, hlog3, _⟩ :=
                syncCascade N' st2 (Sett.er e) fr0 hq2'
                  (fun j hj => by
                    obtain ⟨sfr, h1, h2, h3, h4⟩ := hspF j (by omega)
                    refine ⟨sfr, ?_, h2, h3, h4⟩
                    show st2.frames[1 + j]? = some sfr
                    rw [hframes2]
                    exact h1)
                  (fun j hj => by
                    rw [hpres2 (2 + 2 * j) (by rw [hintNe]; omega)]
                    exact hspP j (by omega))
                  (by
                    show st2.frames[0]? = some fr0
                    rw [hframes2]
                    exact hfr0)
                  hres0 hd0 hint0
                  (by
                    rw [hpres2 0 (by rw [hintNe]; omega)]
                    exact hp0)
              refine hfinish st3 (Ev.remSettled (N' + 1) :: downLog N' (N' + 1))
                (Steps.trans hsteps1 (Steps.trans hsteps2 hsteps3)) hq3 ?_
                (by simp [passiveEv, downLog_passive])
              rw [hlog3, hlog2, hlog1, hreq1, hres1]
              simp [List.append_assoc]
  | hasync d r' =>
      cases r' with
      | none =>
          obtain ⟨st2, hsteps2, hq2, hframes2, hplen2, hlog2, _, _, _, hpres2⟩ :=
            terminalAsyncNoneStep st1 N frN d hq1 hfrN hremN hflagN hhand1
          refine hfinish st2 [] (Steps.trans hsteps1 hsteps2) hq2 ?_ (by rfl)
          rw [hlog2, hlog1, hreq1, hres1]
          simp [List.append_assoc]
      | some s =>
          cases d with
          | zero =>
              obtain ⟨st2, hsteps2, hq2, hframes2, hplen2, hlog2, _, _, _, hpres2⟩ :=
                terminalAsyncSettledStep st1 N frN s hq1 hfrN hremN hflagN hhand1
              obtain ⟨hcF, hcP, hcfr0, hcp0⟩ := hcasc st2 hframes2
                (fun j hj => hpres2 (2 + 2 * j) (by omega))
                (hpres2 0 (by omega))
              obtain ⟨st3, hsteps3, hq3, hlog3, _⟩ :=
                syncCascade N st2 s fr0 hq2 hcF hcP hcfr0 hres0 hd0 hint0 hcp0
              refine hfinish st3 (downLog N (N + 1))
                (Steps.trans hsteps1 (Steps.trans hsteps2 hsteps3)) hq3 ?_
                (downLog_passive _ _)
              rw [hlog3, hlog2, hlog1, hreq1, hres1]
          | succ d' =>
              obtain ⟨st2, hsteps2, hq2, hframes2, hplen2, hlog2, _, _, _, hpres2, hnewp2⟩ :=
                terminalAsyncLaterStep st1 N frN d' s hq1 hfrN hremN hflagN hhand1
              -- countdown, then the handler's promise settles and wakes the await
              have htick := tickRun d' st2 st1.promises.length s hq2
              have hgp : getP ({ st2 with queue := [] } : St) st1.promises.length =
                  some (PState.pending [Reaction.resumeRemaining N]) := hnewp2
              rw [settle_of_pending hgp] at htick
              set st3 : St := enqueue
                [Task.react (Reaction.resumeRemaining N) s]
                (setP st1.promises.length (PState.settled s) { st2 with queue := [] }) with hst3
              have hq3 : st3.queue = [Task.react (Reaction.resumeRemaining N) s] := rfl
              have hframes3 : st3.frames = st2.frames := rfl
              have hlog3 : st3.log = st2.log := rfl
              have hpres3 : ∀ p, p < st1.promises.length → getP st3 p = getP st2 p := by
                intro p hp
                show getP (setP st1.promises.length (PState.settled s)
                  { st2 with queue := [] }) p = getP st2 p
                rw [@getP_setP_ne st1.promises.length p _ _ (by omega)]
                rfl
              obtain ⟨hcF, hcP, hcfr0, hcp0⟩ := hcasc st3
                (by rw [hframes3, hframes2])
                (fun j hj => by
                  rw [hpres3 (2 + 2 * j) (by rw [hplen1]; omega),
                    hpres2 (2 + 2 * j) (by omega)])
                (by rw [hpres3 0 (by rw [hplen1]; omega), hpres2 0 (by omega)])
              obtain ⟨st4, hsteps4, hq4, hlog4, _⟩ :=
                syncCascade N st3 s fr0 hq3 hcF hcP hcfr0 hres0 hd0 hint0 hcp0
              refine hfinish st4 (downLog N (N + 1))
                (Steps.trans hsteps1 (Steps.trans hsteps2 (Steps.trans htick hsteps4)))
                hq4 ?_ (downLog_passive _ _)
              rw [hlog4, hlog3, hlog2, hlog1, hreq1, hres1]

/-- Running the chain on a list headed by a synchronously-throwing
middleware: the throw is caught by `run`'s catch block, the internal
promise is rejected, and no microtask is ever enqueued -- the machine is
already quiescent. -/
lemma execSt_syncThrow (e : Err) (rest : List MW) (h : Handler) (q r : Nat) :
    execSt (MW.syncThrow e :: rest) h q r =
      { frames := [{ current := some (MW.syncThrow e), remaining := rest, depth := 0,
                     result := none, internal := 0, teardown := 1, flag := false }],
        promises := [PState.settled (Sett.er e), PState.pending []],
        queue := [], log := [Ev.enter 0],
        handler := h, reqCtx := q, resCtx := r } := rfl

/-- Descending a synchronous prefix of length `a` from the start of the
chain, with an arbitrary remaining queue `rest` at the frontier. -/
lemma syncDescentGen (a : Nat) (rest : List MW) (h : Handler) (q r : Nat) :
    ∃ st1, Steps (execSt (MW.sync true :: (List.replicate a (MW.sync true) ++ rest)) h q r) st1 ∧
      st1.queue = [Task.check a] ∧
      st1.frames.length = a + 1 ∧
      st1.promises.length = 2 + 2 * a ∧
      st1.log = Ev.enter 0 :: entersFrom 1 a ∧
      st1.handler = h ∧ st1.reqCtx = q ∧ st1.resCtx = r ∧
      (∃ fra, getF st1 a = some fra ∧ fra.remaining = rest ∧ fra.flag = false ∧
        fra.depth = a) ∧
      (∀ j, j < a → ∃ sfr, getF st1 (1 + j) = some sfr ∧ sfr.result = none ∧
          sfr.depth = 1 + j ∧ sfr.internal = 2 + 2 * j) ∧
      (∀ j, j < a → getP st1 (2 + 2 * j) =
          some (PState.pending [Reaction.resumeRemaining j])) ∧
      (∃ fr0, getF st1 0 = some fr0 ∧ fr0.result = none ∧ fr0.depth = 0 ∧
        fr0.internal = 0) ∧
      getP st1 0 = some (PState.pending []) := by
  obtain ⟨st1, hsteps, hq1, hflen1, hplen1, hlog1, hhand1, hreq1, hres1, holdF1, holdP1,
      hspF1, hspP1⟩ :=
    descend a (execSt (MW.sync true :: (List.replicate a (MW.sync true) ++ rest)) h q r) 0
      { current := some (MW.sync true),
        remaining := List.replicate a (MW.sync true) ++ rest,
        depth := 0, result := none, internal := 0, teardown := 1, flag := false }
      rest (by rw [execSt_sync]) (by rw [execSt_sync]; rfl) (by rw [execSt_sync]; rfl) rfl rfl rfl
  have hplenInit :
      (execSt (MW.sync true :: (List.replicate a (MW.sync true) ++ rest)) h q r).promises.length
      = 2 := by
    rw [execSt_sync]
    rfl
  rw [hplenInit] at hplen1 hspF1 hspP1 holdP1
  have h0a : 0 + a = a := by omega
  rw [h0a] at hq1 hflen1
  refine ⟨st1, hsteps, hq1, by omega, hplen1, ?_, ?_, ?_, ?_, ?_, ?_, ?_, ?_, ?_⟩
  · rw [hlog1, execSt_sync]
    rfl
  · rw [hhand1, execSt_sync]
  · rw [hreq1, execSt_sync]
  · rw [hres1, execSt_sync]
  · -- frontier frame
    cases a with
    | zero =>
        refine ⟨{ current := some (MW.sync true),
                  remaining := List.replicate 0 (MW.sync true) ++ rest,
                  depth := 0, result := none, internal := 0, teardown := 1, flag := false },
          ?_, by simp, rfl, rfl⟩
        rw [holdF1 0 (by omega), execSt_sync]
        rfl
    | succ a' =>
        have h1 := hspF1 a' (by omega)
        have harith : 0 + 1 + a' = a' + 1 := by omega
        rw [harith] at h1
        have hrepl : a' + 1 - 1 - a' = 0 := by omega
        rw [hrepl] at h1
        exact ⟨_, h1, by simp, rfl, rfl⟩
  · intro j hj
    have h1 := hspF1 j hj
    have harith : 0 + 1 + j = 1 + j := by omega
    rw [harith] at h1
    exact ⟨_, h1, rfl, rfl, rfl⟩
  · intro j hj
    have h2 := hspP1 j hj
    have harith : 0 + j = j := by omega
    rw [harith] at h2
    exact h2
  · refine ⟨{ current := some (MW.sync true),
              remaining := List.replicate a (MW.sync true) ++ rest,
              depth := 0, result := none, internal := 0, teardown := 1, flag := false },
      ?_, rfl, rfl, rfl⟩
    rw [holdF1 0 (by omega), execSt_sync]
    rfl
  · rw [holdP1 0 (by omega), execSt_sync]
    rfl

/-- Claim C2, amended (short-circuit on synchronous throw): for every `k`,
error `e`, and arbitrary middleware tail `rest`, if the first `k`
middleware are synchronous continuation-callers and the middleware at
position `k` throws `e` synchronously, then the middleware after position
`k` and the terminal handler are never invoked (the log contains no entry
past position `k` and no terminal invocation), and the chain's outcome is
failure carrying `e`.  The restriction of the first `k` middleware to
synchronous ones is forced by `claim_C2_counterexample`: an earlier
asynchronous middleware that catches the teardown rejection swallows the
failure. -/
theorem claim_C2_amended (k : Nat) (e : Err) (rest : List MW) (h : Handler) (q r : Nat) :
    Runs (List.replicate k (MW.sync true) ++ MW.syncThrow e :: rest) h q r
      ((List.range (k + 1)).map Ev.enter ++ downLog (k - 1) k)
      (PState.settled (Sett.er e)) ∧
    (∀ j, k < j → Ev.enter j ∉
      (List.range (k + 1)).map Ev.enter ++ downLog (k - 1) k) ∧
    (∀ q' r', Ev.terminalEnter q' r' ∉
      (List.range (k + 1)).map Ev.enter ++ downLog (k - 1) k) := by
  refine ⟨?_, ?_, ?_⟩
  · -- the run itself
    cases k with
    | zero =>
        refine ⟨0, ?_, ?_, ?_⟩
        · show (execSt (MW.syncThrow e :: rest) h q r).queue = []
          rw [execSt_syncThrow]
        · show (execSt (MW.syncThrow e :: rest) h q r).log = _
          rw [execSt_syncThrow]
          simp [downLog, List.range_succ_eq_map]
        · show getP (execSt (MW.syncThrow e :: rest) h q r) 0 = _
          rw [execSt_syncThrow]
          rfl
    | succ k' =>
        have hms : List.replicate (k' + 1) (MW.sync true) ++ MW.syncThrow e :: rest =
            MW.sync true :: (List.replicate k' (MW.sync true) ++ MW.syncThrow e :: rest) := by
          rw [List.replicate_succ]
          rfl
        rw [hms]
        obtain ⟨st1, hsteps1, hq1, hflen1, hplen1, hlog1, hhand1, hreq1, hres1,
            ⟨fra, hfra, hrema, hflaga, hda⟩, hspF, hspP,
            ⟨fr0, hfr0, hres0, hd0, hint0⟩, hp0⟩ :=
          syncDescentGen k' (MW.syncThrow e :: rest) h q r
        obtain ⟨st2, hsteps2, hq2, hflen2, hplen2, hlog2, _, _, _, holdF2, holdP2⟩ :=
          throwSpawnStep st1 k' fra e rest hq1 hflen1 hfra hrema hflaga hda
        obtain ⟨st3, hsteps3, hq3, hlog3, hout3⟩ :=
          syncCascade k' st2 (Sett.er e) fr0 hq2
            (fun j hj => by
              obtain ⟨sfr, h1, h2, h3, h4⟩ := hspF j hj
              refine ⟨sfr, ?_, h2, h3, h4⟩
              rw [holdF2 (1 + j) (by omega)]
              exact h1)
            (fun j hj => by
              rw [holdP2 (2 + 2 * j) (by omega)]
              exact hspP j hj)
            (by rw [holdF2 0 (by omega)]; exact hfr0)
            hres0 hd0 hint0
            (by rw [holdP2 0 (by omega)]; exact hp0)
        obtain ⟨n, hn⟩ := drive_of_steps
          (Steps.trans hsteps1 (Steps.trans hsteps2 hsteps3))
        refine ⟨n, ?_, ?_, ?_⟩
        · rw [hn]
          exact hq3
        · rw [hn, hlog3, hlog2, hlog1]
          have hhead : (List.range (k' + 1 + 1)).map Ev.enter =
              Ev.enter 0 :: entersFrom 1 (k' + 1) := by
            rw [← entersFrom_zero]
            rfl
          rw [hhead]
          have htail : entersFrom 1 k' ++ [Ev.enter (k' + 1)] = entersFrom 1 (k' + 1) := by
            have hap := entersFrom_append k' 1 1
            have harith : 1 + k' = k' + 1 := by omega
            rw [harith] at hap
            simpa [entersFrom] using hap
          have harith : k' + 1 - 1 = k' := by omega
          rw [harith]
          simp only [← htail, List.append_assoc, List.cons_append]
        · rw [hn]
          exact hout3
  · intro j hj hmem
    rcases List.mem_append.mp hmem with hm | hm
    · obtain ⟨i, hi, hie⟩ := List.mem_map.mp hm
      have : i = j := by
        cases hie
        rfl
      rw [this] at hi
      have := List.mem_range.mp hi
      omega
    · obtain ⟨i, hi⟩ := mem_downLog k (k - 1) hm
      cases hi
  · intro q' r' hmem
    rcases List.mem_append.mp hmem with hm | hm
    · obtain ⟨i, _, hie⟩ := List.mem_map.mp hm
      cases hie
    · obtain ⟨i, hi⟩ := mem_downLog k (k - 1) hm
      cases hi

/-- Claim C2, counterexample to the original statement: in the chain
`[asyncAwait true, syncThrow (user 5)]` the middleware at position 1 is
entered and throws synchronously (the log records its entry and the
teardown rejection carrying its error), yet the chain's outcome is success,
not failure carrying that error: the asynchronous middleware at position 0
catches the rejection of its awaited continuation handle and resolves
normally, so the thrown error never reaches the chain outcome. -/
theorem claim_C2_counterexample :
    Runs [MW.asyncAwait true, MW.syncThrow (Err.user 5)] (Handler.hsync none) 0 0
      [Ev.enter 0, Ev.enter 1, Ev.remSettled 0, Ev.teardownRel 0,
       Ev.tearErr 0 (Err.user 5)] (PState.settled Sett.ok) ∧
    Ev.enter 1 ∈ [Ev.enter 0, Ev.enter 1, Ev.remSettled 0, Ev.teardownRel 0,
       Ev.tearErr 0 (Err.user 5)] ∧
    PState.settled Sett.ok ≠ PState.settled (Sett.er (Err.user 5)) := by
  refine ⟨⟨20, ?_, ?_, ?_⟩, ?_, ?_⟩
  · decide
  · decide
  · decide
  · decide
  · decide

/-- From the queued check of an `asyncAwait` frame at position `A` (with
`B` synchronous middleware after it and a succeeding synchronous terminal
handler): the remainder runs to completion, the teardown handle is
released as fulfilled, the middleware's post-work runs, and its own promise
and the frame's internal promise fulfil, waking the internal promise's
stored reactions `RA`. -/
lemma asyncMidOk (A B : Nat) (c : Bool) (stX : St) (RA : List Reaction)
    (hq : stX.queue = [Task.check A])
    (hflen : stX.frames.length = A + 1)
    (hplen : stX.promises.length = 2 * A + 3)
    (hafr : getF stX A = some
      { current := some (MW.asyncAwait c), remaining := List.replicate B (MW.sync true),
        depth := A, result := some (2 * A + 2), internal := 2 * A,
        teardown := 2 * A + 1, flag := false })
    (htp : getP stX (2 * A + 1) = some (PState.pending [Reaction.mwResume A]))
    (hrp : getP stX (2 * A + 2) = some (PState.pending [Reaction.reactResult A]))
    (hip : getP stX (2 * A) = some (PState.pending RA))
    (hh : stX.handler = Handler.hsync none) :
    ∃ st', Steps stX st' ∧
      st'.queue = RA.map (fun rc => Task.react rc Sett.ok) ∧
      st'.log = stX.log ++ entersFrom (A + 1) B ++ [Ev.terminalEnter stX.reqCtx stX.resCtx] ++
        downLog (A + B) B ++ [Ev.remSettled A, Ev.teardownRel A, Ev.post A] ∧
      getP st' (2 * A) = some (PState.settled Sett.ok) ∧
      (∀ g, g < A → getF st' g = getF stX g) ∧
      (∀ p, p < 2 * A → getP st' p = getP stX p) := by
  -- descend the B synchronous middleware below the async frame
  obtain ⟨stD, hstepsD, hqD, hflenD, hplenD, hlogD, hhandD, hreqD, hresD, holdFD, holdPD,
      hspFD, hspPD⟩ :=
    descend B stX A
      { current := some (MW.asyncAwait c), remaining := List.replicate B (MW.sync true),
        depth := A, result := some (2 * A + 2), internal := 2 * A,
        teardown := 2 * A + 1, flag := false }
      [] hq hflen hafr (by simp) rfl rfl
  rw [hplen] at hplenD hspFD hspPD holdPD
  have hafrD : getF stD A = some
      { current := some (MW.asyncAwait c), remaining := List.replicate B (MW.sync true),
        depth := A, result := some (2 * A + 2), internal := 2 * A,
        teardown := 2 * A + 1, flag := false } := by
    rw [holdFD A (by omega)]
    exact hafr
  -- frontier facts
  have hfront : ∃ frF, getF stD (A + B) = some frF ∧ frF.remaining = [] ∧ frF.flag = false := by
    cases B with
    | zero => exact ⟨_, hafrD, by simp, rfl⟩
    | succ B' =>
        have h1 := hspFD B' (by omega)
        have harith : A + 1 + B' = A + (B' + 1) := by omega
        have hrepl : B' + 1 - 1 - B' = 0 := by omega
        rw [harith, hrepl] at h1
        exact ⟨_, h1, by simp, rfl⟩
  obtain ⟨frF, hfrF, hremF, hflagF⟩ := hfront
  -- terminal handler succeeds, waking the frontier's await
  obtain ⟨stT, hstepsT, hqT, hframesT, hpromsT, hlogT, hhandT, hreqT, hresT⟩ :=
    terminalOkStep stD (A + B) frF hqD hfrF hremF hflagF (by rw [hhandD]; exact hh)
  -- ascend the B synchronous frames back to the async frame
  obtain ⟨stA2, hstepsA, hqA, hframesA, hplenA, hlogA, _, _, _, hpresA, _⟩ :=
    ascend B stT (A + B) Sett.ok (fun i => 2 * A + 3 + 2 * (B - 1 - i)) hqT (by omega)
      (by
        intro i hi
        have h1 := hspFD (B - 1 - i) (by omega)
        have h2 := hspPD (B - 1 - i) (by omega)
        have harith : A + 1 + (B - 1 - i) = A + B - i := by omega
        have harith2 : A + (B - 1 - i) = A + B - i - 1 := by omega
        rw [harith] at h1
        rw [harith2] at h2
        refine
          ⟨{ current := some (MW.sync true),
             remaining := List.replicate (B - 1 - (B - 1 - i)) (MW.sync true) ++ [],
             depth := A + B - i, result := none,
             internal := 2 * A + 3 + 2 * (B - 1 - i),
             teardown := 2 * A + 3 + 2 * (B - 1 - i) + 1, flag := false },
           ?_, rfl, rfl, rfl, ?_⟩
        · show stT.frames[A + B - i]? = _
          rw [hframesT]
          exact h1
        · show stT.promises[2 * A + 3 + 2 * (B - 1 - i)]? = _
          rw [hpromsT]
          exact h2
      )
      (by
        intro i j hi hj hij
        show 2 * A + 3 + 2 * (B - 1 - i) ≠ 2 * A + 3 + 2 * (B - 1 - j)
        omega)
  have hqA' : stA2.queue = [Task.react (Reaction.resumeRemaining A) Sett.ok] := by
    have harith : A + B - B = A := by omega
    rw [hqA, harith]
  -- promise transport down to the async frame's promises
  have hpres3 : ∀ p, p < 2 * A + 3 → getP stA2 p = getP stD p := by
    intro p hp
    rw [hpresA p (by
      intro i hi
      show p ≠ 2 * A + 3 + 2 * (B - 1 - i)
      omega)]
    show stT.promises[p]? = stD.promises[p]?
    rw [hpromsT]
  have hafrA : getF stA2 A = some
      { current := some (MW.asyncAwait c), remaining := List.replicate B (MW.sync true),
        depth := A, result := some (2 * A + 2), internal := 2 * A,
        teardown := 2 * A + 1, flag := false } := by
    show stA2.frames[A]? = _
    rw [hframesA, hframesT]
    exact hafrD
  -- the async frame finishes: teardown released as fulfilled
  obtain ⟨stH, hstepsH, hqH, hframesH, hplenH, hlogH, _, _, _, hpresH, _⟩ :=
    hop1 stA2 A _ Sett.ok (2 * A + 2) hqA' hafrA rfl rfl
      (by
        show getP stA2 (2 * A + 1) = some (PState.pending [Reaction.mwResume A])
        rw [hpres3 (2 * A + 1) (by omega), holdPD (2 * A + 1) (by omega)]
        exact htp)
  -- the middleware resumes, does its post-work, and the frame settles
  obtain ⟨stF, hstepsF, hqF, hflenF, hplenF, hlogF, _, _, _, hframesF, hpresF, hintF⟩ :=
    hopTail stH A
      { current := some (MW.asyncAwait c), remaining := List.replicate B (MW.sync true),
        depth := A, result := some (2 * A + 2), internal := 2 * A,
        teardown := 2 * A + 1, flag := false }
      c Sett.ok (2 * A + 2) RA hqH
      (by
        show stH.frames[A]? = _
        rw [hframesH]
        exact hafrA)
      rfl rfl rfl
      (by
        show getP stH (2 * A + 2) = some (PState.pending [Reaction.reactResult A])
        rw [hpresH (2 * A + 2) (by
          show (2 * A + 2 : Nat) ≠
            ({ current := some (MW.asyncAwait c),
               remaining := List.replicate B (MW.sync true), depth := A,
               result := some (2 * A + 2), internal := 2 * A,
               teardown := 2 * A + 1, flag := false } : Frame).teardown
          show (2 * A + 2 : Nat) ≠ 2 * A + 1
          omega)]
        rw [hpres3 (2 * A + 2) (by omega), holdPD (2 * A + 2) (by omega)]
        exact hrp)
      (by
        show getP stH (2 * A) = some (PState.pending RA)
        rw [hpresH (2 * A) (by
          show (2 * A : Nat) ≠
            ({ current := some (MW.asyncAwait c),
               remaining := List.replicate B (MW.sync true), depth := A,
               result := some (2 * A + 2), internal := 2 * A,
               teardown := 2 * A + 1, flag := false } : Frame).teardown
          show (2 * A : Nat) ≠ 2 * A + 1
          omega)]
        rw [hpres3 (2 * A) (by omega), holdPD (2 * A) (by omega)]
        exact hip)
      (by show (2 * A + 2 : Nat) ≠ 2 * A; omega)
      (by
        rw [hframesH, hframesA, hframesT]
        omega)
  refine ⟨stF, Steps.trans hstepsD (Steps.trans hstepsT (Steps.trans hstepsA
    (Steps.trans hstepsH hstepsF))), ?_, ?_, ?_, ?_, ?_⟩
  · rw [hqF]
    rfl
  · rw [hlogF, hlogH, hlogA, hlogT, hlogD, hreqD, hresD]
    show _ = stX.log ++ entersFrom (A + 1) B ++ [Ev.terminalEnter stX.reqCtx stX.resCtx] ++
      downLog (A + B) B ++ ([Ev.remSettled A, Ev.teardownRel A] ++ [Ev.post A])
    simp only [List.append_assoc]
    rfl
  · exact hintF
  · intro g hg
    rw [hframesF g (by omega)]
    show stH.frames[g]? = getF stX g
    rw [hframesH, hframesA, hframesT]
    exact holdFD g (by omega)
  · intro p hp
    rw [hpresF p (by omega) (by show p ≠ 2 * A; omega)]
    have htdne : p ≠
        ({ current := some (MW.asyncAwait c),
           remaining := List.replicate B (MW.sync true), depth := A,
           result := some (2 * A + 2), internal := 2 * A,
           teardown := 2 * A + 1, flag := false } : Frame).teardown := by
      show p ≠ 2 * A + 1
      omega
    rw [hpresH p htdne]
    rw [hpres3 p (by omega), holdPD p (by omega)]

/-- From the queued check of an `asyncAwait` frame at position `A` (with
`B` synchronous middleware after it and a synchronous terminal handler that
throws `e`): the remainder runs, the failure travels back up the spine, the
teardown handle is rejected with `e`, and the middleware observes the
rejection on resume; its own promise and the frame's internal promise
settle to `mwSett c (Sett.er e)` (caught or rethrown), waking the internal
promise's stored reactions `RA`. -/
lemma asyncMidThrow (A B : Nat) (c : Bool) (e : Err) (stX : St) (RA : List Reaction)
    (hq : stX.queue = [Task.check A])
    (hflen : stX.frames.length = A + 1)
    (hplen : stX.promises.length = 2 * A + 3)
    (hafr : getF stX A = some
      { current := some (MW.asyncAwait c), remaining := List.replicate B (MW.sync true),
        depth := A, result := some (2 * A + 2), internal := 2 * A,
        teardown := 2 * A + 1, flag := false })
    (htp : getP stX (2 * A + 1) = some (PState.pending [Reaction.mwResume A]))
    (hrp : getP stX (2 * A + 2) = some (PState.pending [Reaction.reactResult A]))
    (hip : getP stX (2 * A) = some (PState.pending RA))
    (hh : stX.handler = Handler.hsync (some e)) :
    ∃ st', Steps stX st' ∧
      st'.queue = RA.map (fun rc => Task.react rc (mwSett c (Sett.er e))) ∧
      st'.log = stX.log ++ entersFrom (A + 1) B ++ [Ev.terminalEnter stX.reqCtx stX.resCtx] ++
        downLog (A + B) B ++ [Ev.remSettled A, Ev.teardownRel A] ++ mwLogEv A (Sett.er e) ∧
      getP st' (2 * A) = some (PState.settled (mwSett c (Sett.er e))) ∧
      (∀ g, g < A → getF st' g = getF stX g) ∧
      (∀ p, p < 2 * A → getP st' p = getP stX p) := by
  -- descend the B synchronous middleware below the async frame
  obtain ⟨stD, hstepsD, hqD, hflenD, hplenD, hlogD, hhandD, hreqD, hresD, holdFD, holdPD,
      hspFD, hspPD⟩ :=
    descend B stX A
      { current := some (MW.asyncAwait c), remaining := List.replicate B (MW.sync true),
        depth := A, result := some (2 * A + 2), internal := 2 * A,
        teardown := 2 * A + 1, flag := false }
      [] hq hflen hafr (by simp) rfl rfl
  rw [hplen] at hplenD hspFD hspPD holdPD
  have hafrD : getF stD A = some
      { current := some (MW.asyncAwait c), remaining := List.replicate B (MW.sync true),
        depth := A, result := some (2 * A + 2), internal := 2 * A,
        teardown := 2 * A + 1, flag := false } := by
    rw [holdFD A (by omega)]
    exact hafr
  cases B with
  | zero =>
      -- the frontier is the async frame itself: the handler's throw is
      -- caught and rejects the teardown handle in the same task
      obtain ⟨stT, hstepsT, hqT, hframesT, hplenT, hlogT, hhandT, hreqT, hresT, hpresT, _⟩ :=
        terminalThrowAsyncStep stD A _ e (2 * A + 2) hqD hafrD (by simp) rfl rfl rfl
          (by
            show getP stD (2 * A + 1) = some (PState.pending [Reaction.mwResume A])
            rw [holdPD (2 * A + 1) (by omega)]
            exact htp)
          (by rw [hhandD]; exact hh)
      obtain ⟨stF, hstepsF, hqF, hflenF, hplenF, hlogF, _, _, _, hframesF, hpresF, hintF⟩ :=
        hopTail stT A
          { current := some (MW.asyncAwait c), remaining := List.replicate 0 (MW.sync true),
            depth := A, result := some (2 * A + 2), internal := 2 * A,
            teardown := 2 * A + 1, flag := false }
          c (Sett.er e) (2 * A + 2) RA hqT
          (by
            show stT.frames[A]? = _
            rw [hframesT]
            exact hafrD)
          rfl rfl rfl
          (by
            show getP stT (2 * A + 2) = some (PState.pending [Reaction.reactResult A])
            have hne1 : (2 * A + 2 : Nat) ≠
                ({ current := some (MW.asyncAwait c),
                   remaining := List.replicate 0 (MW.sync true), depth := A,
                   result := some (2 * A + 2), internal := 2 * A,
                   teardown := 2 * A + 1, flag := false } : Frame).teardown := by
              show (2 * A + 2 : Nat) ≠ 2 * A + 1
              omega
            rw [hpresT (2 * A + 2) hne1, holdPD (2 * A + 2) (by omega)]
            exact hrp)
          (by
            show getP stT (2 * A) = some (PState.pending RA)
            have hne2 : (2 * A : Nat) ≠
                ({ current := some (MW.asyncAwait c),
                   remaining := List.replicate 0 (MW.sync true), depth := A,
                   result := some (2 * A + 2), internal := 2 * A,
                   teardown := 2 * A + 1, flag := false } : Frame).teardown := by
              show (2 * A : Nat) ≠ 2 * A + 1
              omega
            rw [hpresT (2 * A) hne2, holdPD (2 * A) (by omega)]
            exact hip)
          (by show (2 * A + 2 : Nat) ≠ 2 * A; omega)
          (by rw [hframesT]; omega)
      refine ⟨stF, Steps.trans hstepsD (Steps.trans hstepsT hstepsF), ?_, ?_, ?_, ?_, ?_⟩
      · exact hqF
      · rw [hlogF, hlogT, hlogD, hreqD, hresD]
        simp only [List.append_assoc]
        rfl
      · exact hintF
      · intro g hg
        rw [hframesF g (by omega)]
        show stT.frames[g]? = getF stX g
        rw [hframesT]
        exact holdFD g (by omega)
      · intro p hp
        rw [hpresF p (by omega) (by show p ≠ 2 * A; omega)]
        have htdne : p ≠
            ({ current := some (MW.asyncAwait c),
               remaining := List.replicate 0 (MW.sync true), depth := A,
               result := some (2 * A + 2), internal := 2 * A,
               teardown := 2 * A + 1, flag := false } : Frame).teardown := by
          show p ≠ 2 * A + 1
          omega
        rw [hpresT p htdne, holdPD p (by omega)]
  | succ B' =>
      -- the frontier is the top synchronous frame of the spine
      have h1 := hspFD B' (by omega)
      have h2 := hspPD B' (by omega)
      have harA : A + 1 + B' = A + (B' + 1) := by omega
      rw [harA] at h1
      obtain ⟨stT, hstepsT, hqT, hframesT, hplenT, hlogT, hhandT, hreqT, hresT, hpresT, _⟩ :=
        terminalThrowSyncStep stD (A + (B' + 1)) _ e [Reaction.resumeRemaining (A + B')]
          hqD h1 (by simp) rfl rfl rfl
          (by
            show getP stD (2 * A + 3 + 2 * B') =
              some (PState.pending [Reaction.resumeRemaining (A + B')])
            exact h2)
          (by rw [hhandD]; exact hh)
      have hqT' : stT.queue = [Task.react (Reaction.resumeRemaining (A + B')) (Sett.er e)] := by
        simpa using hqT
      -- ascend the B' remaining synchronous frames back to the async frame
      obtain ⟨stA2, hstepsA, hqA, hframesA, hplenA, hlogA, _, _, _, hpresA, _⟩ :=
        ascend B' stT (A + B') (Sett.er e) (fun i => 2 * A + 3 + 2 * (B' - 1 - i)) hqT'
          (by omega)
          (by
            intro i hi
            have h3 := hspFD (B' - 1 - i) (by omega)
            have h4 := hspPD (B' - 1 - i) (by omega)
            have harith : A + 1 + (B' - 1 - i) = A + B' - i := by omega
            have harith2 : A + (B' - 1 - i) = A + B' - i - 1 := by omega
            rw [harith] at h3
            rw [harith2] at h4
            refine
              ⟨{ current := some (MW.sync true),
                 remaining := List.replicate (B' + 1 - 1 - (B' - 1 - i)) (MW.sync true) ++ [],
                 depth := A + B' - i, result := none,
                 internal := 2 * A + 3 + 2 * (B' - 1 - i),
                 teardown := 2 * A + 3 + 2 * (B' - 1 - i) + 1, flag := false },
               ?_, rfl, rfl, rfl, ?_⟩
            · show stT.frames[A + B' - i]? = _
              rw [hframesT]
              exact h3
            · show getP stT (2 * A + 3 + 2 * (B' - 1 - i)) = _
              rw [hpresT (2 * A + 3 + 2 * (B' - 1 - i)) (by
                show 2 * A + 3 + 2 * (B' - 1 - i) ≠ 2 * A + 3 + 2 * B'
                omega)]
              exact h4
          )
          (by
            intro i j hi hj hij
            show 2 * A + 3 + 2 * (B' - 1 - i) ≠ 2 * A + 3 + 2 * (B' - 1 - j)
            omega)
      have hqA' : stA2.queue = [Task.react (Reaction.resumeRemaining A) (Sett.er e)] := by
        have harith : A + B' - B' = A := by omega
        rw [hqA, harith]
      have hpres3 : ∀ p, p < 2 * A + 3 → getP stA2 p = getP stD p := by
        intro p hp
        rw [hpresA p (by
          intro i hi
          show p ≠ 2 * A + 3 + 2 * (B' - 1 - i)
          omega)]
        rw [hpresT p (by
          show p ≠ 2 * A + 3 + 2 * B'
          omega)]
      have hafrA : getF stA2 A = some
          { current := some (MW.asyncAwait c),
            remaining := List.replicate (B' + 1) (MW.sync true),
            depth := A, result := some (2 * A + 2), internal := 2 * A,
            teardown := 2 * A + 1, flag := false } := by
        show stA2.frames[A]? = _
        rw [hframesA, hframesT]
        exact hafrD
      -- the async frame finishes: teardown rejected with the failure
      obtain ⟨stH, hstepsH, hqH, hframesH, hplenH, hlogH, _, _, _, hpresH, _⟩ :=
        hop1 stA2 A _ (Sett.er e) (2 * A + 2) hqA' hafrA rfl rfl
          (by
            show getP stA2 (2 * A + 1) = some (PState.pending [Reaction.mwResume A])
            rw [hpres3 (2 * A + 1) (by omega), holdPD (2 * A + 1) (by omega)]
            exact htp)
      -- the middleware resumes with the rejection and the frame settles
      obtain ⟨stF, hstepsF, hqF, hflenF, hplenF, hlogF, _, _, _, hframesF, hpresF, hintF⟩ :=
        hopTail stH A
          { current := some (MW.asyncAwait c),
            remaining := List.replicate (B' + 1) (MW.sync true),
            depth := A, result := some (2 * A + 2), internal := 2 * A,
            teardown := 2 * A + 1, flag := false }
          c (Sett.er e) (2 * A + 2) RA hqH
          (by
            show stH.frames[A]? = _
            rw [hframesH]
            exact hafrA)
          rfl rfl rfl
          (by
            show getP stH (2 * A + 2) = some (PState.pending [Reaction.reactResult A])
            have hne1 : (2 * A + 2 : Nat) ≠
                ({ current := some (MW.asyncAwait c),
                   remaining := List.replicate (B' + 1) (MW.sync true), depth := A,
                   result := some (2 * A + 2), internal := 2 * A,
                   teardown := 2 * A + 1, flag := false } : Frame).teardown := by
              show (2 * A + 2 : Nat) ≠ 2 * A + 1
              omega
            rw [hpresH (2 * A + 2) hne1]
            rw [hpres3 (2 * A + 2) (by omega), holdPD (2 * A + 2) (by omega)]
            exact hrp)
          (by
            show getP stH (2 * A) = some (PState.pending RA)
            have hne2 : (2 * A : Nat) ≠
                ({ current := some (MW.asyncAwait c),
                   remaining := List.replicate (B' + 1) (MW.sync true), depth := A,
                   result := some (2 * A + 2), internal := 2 * A,
                   teardown := 2 * A + 1, flag := false } : Frame).teardown := by
              show (2 * A : Nat) ≠ 2 * A + 1
              omega
            rw [hpresH (2 * A) hne2]
            rw [hpres3 (2 * A) (by omega), holdPD (2 * A) (by omega)]
            exact hip)
          (by show (2 * A + 2 : Nat) ≠ 2 * A; omega)
          (by
            rw [hframesH, hframesA, hframesT]
            omega)
      refine ⟨stF, Steps.trans hstepsD (Steps.trans hstepsT (Steps.trans hstepsA
        (Steps.trans hstepsH hstepsF))), ?_, ?_, ?_, ?_, ?_⟩
      · exact hqF
      · rw [hlogF, hlogH, hlogA, hlogT, hlogD, hreqD, hresD]
        simp only [List.append_assoc]
        rfl
      · exact hintF
      · intro g hg
        rw [hframesF g (by omega)]
        show stH.frames[g]? = getF stX g
        rw [hframesH, hframesA, hframesT]
        exact holdFD g (by omega)
      · intro p hp
        rw [hpresF p (by omega) (by show p ≠ 2 * A; omega)]
        have htdne : p ≠
            ({ current := some (MW.asyncAwait c),
               remaining := List.replicate (B' + 1) (MW.sync true), depth := A,
               result := some (2 * A + 2), internal := 2 * A,
               teardown := 2 * A + 1, flag := false } : Frame).teardown := by
          show p ≠ 2 * A + 1
          omega
        rw [hpresH p htdne]
        rw [hpres3 p (by omega), holdPD p (by omega)]

/-- Full run of a chain of `A` synchronous middleware, one `asyncAwait`
middleware, and `B` more synchronous middleware, with a succeeding
synchronous terminal handler: the whole chain is entered in order, the
terminal handler fires, the remainders settle back up to the async frame,
whose teardown is released as fulfilled; the middleware's post-work then
runs, and the chain fulfils. -/
lemma asyncRunOk (A B : Nat) (c : Bool) (q r : Nat) :
    Runs (List.replicate A (MW.sync true) ++ MW.asyncAwait c :: List.replicate B (MW.sync true))
      (Handler.hsync none) q r
      (entersFrom 0 (A + 1 + B) ++ [Ev.terminalEnter q r] ++ downLog (A + B) B ++
        [Ev.remSettled A, Ev.teardownRel A, Ev.post A] ++ downLog (A - 1) A)
      (PState.settled Sett.ok) := by
  cases A with
  | zero =>
      have hms : List.replicate 0 (MW.sync true) ++
          MW.asyncAwait c :: List.replicate B (MW.sync true) =
          MW.asyncAwait c :: List.replicate B (MW.sync true) := rfl
      rw [hms]
      obtain ⟨stF, hsteps, hqF, hlogF, hocF, _, _⟩ :=
        asyncMidOk 0 B c
          (execSt (MW.asyncAwait c :: List.replicate B (MW.sync true)) (Handler.hsync none) q r)
          [] rfl rfl rfl rfl rfl rfl rfl rfl
      obtain ⟨n, hn⟩ := drive_of_steps hsteps
      refine ⟨n, ?_, ?_, ?_⟩
      · rw [hn]
        exact hqF
      · rw [hn, hlogF]
        show [Ev.enter 0] ++ entersFrom (0 + 1) B ++ [Ev.terminalEnter q r] ++
          downLog (0 + B) B ++ [Ev.remSettled 0, Ev.teardownRel 0, Ev.post 0] = _
        have hpre0 : [Ev.enter 0] ++ entersFrom (0 + 1) B = entersFrom 0 (0 + 1 + B) :=
          entersFrom_append 1 0 B
        rw [hpre0]
        simp [downLog]
      · rw [hn]
        exact hocF
  | succ A' =>
      have hms : List.replicate (A' + 1) (MW.sync true) ++
          MW.asyncAwait c :: List.replicate B (MW.sync true) =
          MW.sync true :: (List.replicate A' (MW.sync true) ++
            (MW.asyncAwait c :: List.replicate B (MW.sync true))) := by
        rw [List.replicate_succ]
        rfl
      rw [hms]
      obtain ⟨st1, hsteps1, hq1, hflen1, hplen1, hlog1, hhand1, hreq1, hres1,
          ⟨fra, hfra, hrema, hflaga, hda⟩, hspF, hspP,
          ⟨fr0, hfr0, hres0, hd0, hint0⟩, hp0⟩ :=
        syncDescentGen A' (MW.asyncAwait c :: List.replicate B (MW.sync true))
          (Handler.hsync none) q r
      obtain ⟨stS, hstepsS, hqS, hflenS, hplenS, hlogS, hhandS, hreqS, hresS, holdFS, holdPS,
          hafrS, hP0S, hP1S, hP2S⟩ :=
        asyncSpawnStep st1 A' fra c (List.replicate B (MW.sync true)) hq1 hflen1 hfra
          (by rw [hrema]) hflaga hda
      have hPL : st1.promises.length = 2 * (A' + 1) := by omega
      rw [hPL] at hplenS holdPS hafrS hP0S hP1S hP2S
      obtain ⟨stM, hstepsM, hqM, hlogM, hocM, hFM, hPM⟩ :=
        asyncMidOk (A' + 1) B c stS [Reaction.resumeRemaining A']
          hqS (by omega) hplenS hafrS hP1S hP2S hP0S (by rw [hhandS, hhand1])
      have hqM' : stM.queue = [Task.react (Reaction.resumeRemaining A') Sett.ok] := by
        simpa using hqM
      obtain ⟨stC, hstepsC, hqC, hlogC, hocC⟩ :=
        syncCascade A' stM Sett.ok fr0 hqM'
          (by
            intro j hj
            obtain ⟨sfr, h1, h2, h3, h4⟩ := hspF j hj
            refine ⟨sfr, ?_, h2, h3, h4⟩
            rw [hFM (1 + j) (by omega), holdFS (1 + j) (by omega)]
            exact h1)
          (by
            intro j hj
            rw [hPM (2 + 2 * j) (by omega), holdPS (2 + 2 * j) (by omega)]
            exact hspP j hj)
          (by
            rw [hFM 0 (by omega), holdFS 0 (by omega)]
            exact hfr0)
          hres0 hd0 hint0
          (by
            rw [hPM 0 (by omega), holdPS 0 (by omega)]
            exact hp0)
      obtain ⟨n, hn⟩ := drive_of_steps (Steps.trans hsteps1 (Steps.trans hstepsS
        (Steps.trans hstepsM hstepsC)))
      refine ⟨n, ?_, ?_, ?_⟩
      · rw [hn]
        exact hqC
      · rw [hn, hlogC, hlogM, hlogS, hlog1, hreqS, hreq1, hresS, hres1]
        have e1 := entersFrom_append (A' + 1) 0 1
        have e2 := entersFrom_append (A' + 1 + 1) 0 B
        simp only [Nat.zero_add] at e1 e2
        have hpre : (Ev.enter 0 :: entersFrom 1 A') ++ [Ev.enter (A' + 1)] ++
            entersFrom (A' + 1 + 1) B = entersFrom 0 (A' + 1 + 1 + B) := by
          show (entersFrom 0 (A' + 1) ++ entersFrom (A' + 1) 1) ++ entersFrom (A' + 1 + 1) B = _
          rw [e1, e2]
        rw [hpre]
        have harith : A' + 1 - 1 = A' := by omega
        rw [harith]
      · rw [hn]
        exact hocC

/-- Full run of the same chain with a synchronous terminal handler that
throws `e`: the failure travels back up to the async frame, whose teardown
is rejected with `e`; the middleware observes the rejection when it
resumes, and the chain settles to `mwSett c (Sett.er e)` -- the same
failure if the middleware rethrows (`c = false`), success if it catches
(`c = true`). -/
lemma asyncRunThrow (A B : Nat) (c : Bool) (e : Err) (q r : Nat) :
    Runs (List.replicate A (MW.sync true) ++ MW.asyncAwait c :: List.replicate B (MW.sync true))
      (Handler.hsync (some e)) q r
      (entersFrom 0 (A + 1 + B) ++ [Ev.terminalEnter q r] ++ downLog (A + B) B ++
        [Ev.remSettled A, Ev.teardownRel A] ++ mwLogEv A (Sett.er e) ++ downLog (A - 1) A)
      (PState.settled (mwSett c (Sett.er e))) := by
  cases A with
  | zero =>
      have hms : List.replicate 0 (MW.sync true) ++
          MW.asyncAwait c :: List.replicate B (MW.sync true) =
          MW.asyncAwait c :: List.replicate B (MW.sync true) := rfl
      rw [hms]
      obtain ⟨stF, hsteps, hqF, hlogF, hocF, _, _⟩ :=
        asyncMidThrow 0 B c e
          (execSt (MW.asyncAwait c :: List.replicate B (MW.sync true))
            (Handler.hsync (some e)) q r)
          [] rfl rfl rfl rfl rfl rfl rfl rfl
      obtain ⟨n, hn⟩ := drive_of_steps hsteps
      refine ⟨n, ?_, ?_, ?_⟩
      · rw [hn]
        exact hqF
      · rw [hn, hlogF]
        show [Ev.enter 0] ++ entersFrom (0 + 1) B ++ [Ev.terminalEnter q r] ++
          downLog (0 + B) B ++ [Ev.remSettled 0, Ev.teardownRel 0] ++ mwLogEv 0 (Sett.er e) = _
        have hpre0 : [Ev.enter 0] ++ entersFrom (0 + 1) B = entersFrom 0 (0 + 1 + B) :=
          entersFrom_append 1 0 B
        rw [hpre0]
        simp [downLog]
      · rw [hn]
        exact hocF
  | succ A' =>
      have hms : List.replicate (A' + 1) (MW.sync true) ++
          MW.asyncAwait c :: List.replicate B (MW.sync true) =
          MW.sync true :: (List.replicate A' (MW.sync true) ++
            (MW.asyncAwait c :: List.replicate B (MW.sync true))) := by
        rw [List.replicate_succ]
        rfl
      rw [hms]
      obtain ⟨st1, hsteps1, hq1, hflen1, hplen1, hlog1, hhand1, hreq1, hres1,
          ⟨fra, hfra, hrema, hflaga, hda⟩, hspF, hspP,
          ⟨fr0, hfr0, hres0, hd0, hint0⟩, hp0⟩ :=
        syncDescentGen A' (MW.asyncAwait c :: List.replicate B (MW.sync true))
          (Handler.hsync (some e)) q r
      obtain ⟨stS, hstepsS, hqS, hflenS, hplenS, hlogS, hhandS, hreqS, hresS, holdFS, holdPS,
          hafrS, hP0S, hP1S, hP2S⟩ :=
        asyncSpawnStep st1 A' fra c (List.replicate B (MW.sync true)) hq1 hflen1 hfra
          (by rw [hrema]) hflaga hda
      have hPL : st1.promises.length = 2 * (A' + 1) := by omega
      rw [hPL] at hplenS holdPS hafrS hP0S hP1S hP2S
      obtain ⟨stM, hstepsM, hqM, hlogM, hocM, hFM, hPM⟩ :=
        asyncMidThrow (A' + 1) B c e stS [Reaction.resumeRemaining A']
          hqS (by omega) hplenS hafrS hP1S hP2S hP0S (by rw [hhandS, hhand1])
      have hqM' : stM.queue =
          [Task.react (Reaction.resumeRemaining A') (mwSett c (Sett.er e))] := by
        simpa using hqM
      obtain ⟨stC, hstepsC, hqC, hlogC, hocC⟩ :=
        syncCascade A' stM (mwSett c (Sett.er e)) fr0 hqM'
          (by
            intro j hj
            obtain ⟨sfr, h1, h2, h3, h4⟩ := hspF j hj
            refine ⟨sfr, ?_, h2, h3, h4⟩
            rw [hFM (1 + j) (by omega), holdFS (1 + j) (by omega)]
            exact h1)
          (by
            intro j hj
            rw [hPM (2 + 2 * j) (by omega), holdPS (2 + 2 * j) (by omega)]
            exact hspP j hj)
          (by
            rw [hFM 0 (by omega), holdFS 0 (by omega)]
            exact hfr0)
          hres0 hd0 hint0
          (by
            rw [hPM 0 (by omega), holdPS 0 (by omega)]
            exact hp0)
      obtain ⟨n, hn⟩ := drive_of_steps (Steps.trans hsteps1 (Steps.trans hstepsS
        (Steps.trans hstepsM hstepsC)))
      refine ⟨n, ?_, ?_, ?_⟩
      · rw [hn]
        exact hqC
      · rw [hn, hlogC, hlogM, hlogS, hlog1, hreqS, hreq1, hresS, hres1]
        have e1 := entersFrom_append (A' + 1) 0 1
        have e2 := entersFrom_append (A' + 1 + 1) 0 B
        simp only [Nat.zero_add] at e1 e2
        have hpre : (Ev.enter 0 :: entersFrom 1 A') ++ [Ev.enter (A' + 1)] ++
            entersFrom (A' + 1 + 1) B = entersFrom 0 (A' + 1 + 1 + B) := by
          show (entersFrom 0 (A' + 1) ++ entersFrom (A' + 1) 1) ++ entersFrom (A' + 1 + 1) B = _
          rw [e1, e2]
        rw [hpre]
        have harith : A' + 1 - 1 = A' := by omega
        rw [harith]
      · rw [hn]
        exact hocC

/-- Every event of `downLog f b` is a remainder-settlement event of one of
the `b` frames `f, f-1, ..., f-b+1`. -/
lemma mem_downLog_bound {ev : Ev} (b : Nat) : ∀ f : Nat, ev ∈ downLog f b →
    ∃ j, j < b ∧ ev = Ev.remSettled (f - j) := by
  induction b with
  | zero => intro f hm; simp [downLog] at hm
  | succ b ih =>
      intro f hm
      simp only [downLog, List.mem_cons] at hm
      cases hm with
      | inl h => exact ⟨0, by omega, by simpa using h⟩
      | inr h =>
          obtain ⟨j, hj, he⟩ := ih (f - 1) h
          refine ⟨j + 1, by omega, ?_⟩
          have harith : f - 1 - j = f - (j + 1) := by omega
          rw [he, harith]

/-- Claim C4 (async teardown ordering): for every chain of `A` synchronous
middleware, an `asyncAwait` middleware at position `A` that awaits the
continuation's returned handle before doing its post-work, and `B` more
synchronous middleware, with a succeeding synchronous terminal handler,
the quiescing log splits as `L1 ++ remSettled A :: teardownRel A ::
post A :: L2` where the terminal-handler invocation lies in `L1` and no
remainder-settlement, teardown-release or post-work event of frame `A`
occurs in `L1` (nor later in `L2`): the post-work executes strictly after
the whole remainder -- terminal handler included -- has settled, and the
frame's teardown signal is released only after that frame's remainder has
settled. -/
theorem claim_C4_teardown_after_remainder (A B : Nat) (c : Bool) (q r : Nat) :
    ∃ L1 L2,
      Runs (List.replicate A (MW.sync true) ++
          MW.asyncAwait c :: List.replicate B (MW.sync true))
        (Handler.hsync none) q r
        (L1 ++ Ev.remSettled A :: Ev.teardownRel A :: Ev.post A :: L2)
        (PState.settled Sett.ok) ∧
      Ev.terminalEnter q r ∈ L1 ∧
      Ev.remSettled A ∉ L1 ∧ Ev.teardownRel A ∉ L1 ∧ Ev.post A ∉ L1 ∧
      Ev.teardownRel A ∉ L2 ∧ Ev.post A ∉ L2 := by
  refine ⟨entersFrom 0 (A + 1 + B) ++ [Ev.terminalEnter q r] ++ downLog (A + B) B,
    downLog (A - 1) A, ?_, ?_, ?_, ?_, ?_, ?_, ?_⟩
  · have hL : entersFrom 0 (A + 1 + B) ++ [Ev.terminalEnter q r] ++ downLog (A + B) B ++
        [Ev.remSettled A, Ev.teardownRel A, Ev.post A] ++ downLog (A - 1) A
        = (entersFrom 0 (A + 1 + B) ++ [Ev.terminalEnter q r] ++ downLog (A + B) B) ++
          Ev.remSettled A :: Ev.teardownRel A :: Ev.post A :: downLog (A - 1) A := by
      simp only [List.append_assoc]
      rfl
    have hrun := asyncRunOk A B c q r
    rw [hL] at hrun
    exact hrun
  · simp
  · intro hm
    simp only [List.mem_append, List.mem_singleton] at hm
    rcases hm with (hm | hm) | hm
    · obtain ⟨j, he, _, _⟩ := mem_entersFrom _ _ hm
      exact absurd he (by simp)
    · exact absurd hm (by simp)
    · obtain ⟨j, hj, he⟩ := mem_downLog_bound B (A + B) hm
      injection he with he'
      omega
  · intro hm
    simp only [List.mem_append, List.mem_singleton] at hm
    rcases hm with (hm | hm) | hm
    · obtain ⟨j, he, _, _⟩ := mem_entersFrom _ _ hm
      exact absurd he (by simp)
    · exact absurd hm (by simp)
    · obtain ⟨j, he⟩ := mem_downLog _ _ hm
      exact absurd he (by simp)
  · intro hm
    simp only [List.mem_append, List.mem_singleton] at hm
    rcases hm with (hm | hm) | hm
    · obtain ⟨j, he, _, _⟩ := mem_entersFrom _ _ hm
      exact absurd he (by simp)
    · exact absurd hm (by simp)
    · obtain ⟨j, he⟩ := mem_downLog _ _ hm
      exact absurd he (by simp)
  · intro hm
    obtain ⟨j, he⟩ := mem_downLog _ _ hm
    exact absurd he (by simp)
  · intro hm
    obtain ⟨j, he⟩ := mem_downLog _ _ hm
    exact absurd he (by simp)

/-- Claim C5 (error rethrow through teardown): for every chain of `A`
synchronous middleware, an `asyncAwait` middleware at position `A` that is
awaiting the continuation's handle, and `B` more synchronous middleware,
if the terminal handler fails with `e` then the middleware observes the
rejection carrying `e` when it resumes (the `tearErr A e` observation event
is in the log, after the teardown release), and since this middleware does
not catch it (`c = false`, the rethrowing behaviour), the chain's outcome
is failure carrying that same `e`. -/
theorem claim_C5_error_rethrow_through_teardown (A B : Nat) (e : Err) (q r : Nat) :
    Runs (List.replicate A (MW.sync true) ++
        MW.asyncAwait false :: List.replicate B (MW.sync true))
      (Handler.hsync (some e)) q r
      (entersFrom 0 (A + 1 + B) ++ [Ev.terminalEnter q r] ++ downLog (A + B) B ++
        [Ev.remSettled A, Ev.teardownRel A] ++ [Ev.tearErr A e] ++ downLog (A - 1) A)
      (PState.settled (Sett.er e)) ∧
    Ev.tearErr A e ∈
      entersFrom 0 (A + 1 + B) ++ [Ev.terminalEnter q r] ++ downLog (A + B) B ++
        [Ev.remSettled A, Ev.teardownRel A] ++ [Ev.tearErr A e] ++ downLog (A - 1) A :=
  ⟨asyncRunThrow A B false e q r, by simp⟩

/-- Claim C10 (a catching middleware swallows the remainder's failure): in
the same family, when the terminal handler fails with `e` but the
`asyncAwait` middleware catches the teardown rejection and resolves
normally (`c = true`), the frame's outcome is determined solely by the
middleware's own returned promise: the chain settles as success, silently
discarding the remainder's failure `e` -- even though the rejection was
observed (`tearErr A e` is in the log). -/
theorem claim_C10_catch_discards_failure (A B : Nat) (e : Err) (q r : Nat) :
    Runs (List.replicate A (MW.sync true) ++
        MW.asyncAwait true :: List.replicate B (MW.sync true))
      (Handler.hsync (some e)) q r
      (entersFrom 0 (A + 1 + B) ++ [Ev.terminalEnter q r] ++ downLog (A + B) B ++
        [Ev.remSettled A, Ev.teardownRel A] ++ [Ev.tearErr A e] ++ downLog (A - 1) A)
      (PState.settled Sett.ok) ∧
    PState.settled Sett.ok ≠ PState.settled (Sett.er e) :=
  ⟨asyncRunThrow A B true e q r, by simp⟩

/-- Driving the event loop for any number of microtasks is a reachable
state. -/
lemma steps_drive (n : Nat) : ∀ a : St, Steps a (drive n a) := by
  induction n with
  | zero => intro a; exact Steps.refl a
  | succ n ih =>
      intro a
      cases hs : step a with
      | none =>
          have hd : drive (n + 1) a = a := by simp [drive, hs]
          rw [hd]
          exact Steps.refl a
      | some a' =>
          have hd : drive (n + 1) a = drive n a' := by simp [drive, hs]
          rw [hd]
          exact Steps.trans (Steps.single hs) (ih a')

/-- The state of a single-middleware `asyncOwn` chain right after the
`queueMicrotask` check has run the remainder (terminal handler entered,
its fulfilment queued behind the middleware's remaining countdown of `m`
ticks): the frame awaits nothing, its returned promise (promise 2) holds
the result reactions, and the teardown is still pending. -/
def ownSt (cur : Option MW) (s : Sett) (q r : Nat) (m : Nat) : St :=
  { frames := [{ current := cur, remaining := [], depth := 0, result := some 2,
                 internal := 0, teardown := 1, flag := false }],
    promises := [PState.pending [], PState.pending [],
                 PState.pending [Reaction.reactResult 0]],
    queue := [Task.tick 2 m s, Task.react (Reaction.resumeRemaining 0) Sett.ok],
    log := [Ev.enter 0, Ev.terminalEnter q r],
    handler := Handler.hsync none, reqCtx := q, resCtx := r }

/-- From `ownSt`: the remainder's fulfilment runs `finish` (releasing the
teardown), the countdown finishes and settles the middleware's returned
promise to `s`, and the attached result handlers settle the frame's
internal promise the same way. -/
lemma ownCountdown (cur : Option MW) (s : Sett) (q r : Nat) (m : Nat) :
    ∃ st', Steps (ownSt cur s q r m) st' ∧ st'.queue = [] ∧
      st'.log = [Ev.enter 0, Ev.terminalEnter q r, Ev.remSettled 0, Ev.teardownRel 0] ∧
      getP st' 0 = some (PState.settled s) := by
  cases m with
  | zero =>
      refine ⟨drive 4 (ownSt cur s q r 0), steps_drive 4 _, ?_, ?_, ?_⟩ <;> cases s <;> rfl
  | succ m' =>
      have h2 : drive 2 (ownSt cur s q r (m' + 1)) =
          { frames := [{ current := cur, remaining := [], depth := 0, result := some 2,
                         internal := 0, teardown := 1, flag := false }],
            promises := [PState.pending [], PState.settled Sett.ok,
                         PState.pending [Reaction.reactResult 0]],
            queue := [Task.tick 2 m' s],
            log := [Ev.enter 0, Ev.terminalEnter q r, Ev.remSettled 0, Ev.teardownRel 0],
            handler := Handler.hsync none, reqCtx := q, resCtx := r } := rfl
      have htick := tickRun m'
        { frames := [{ current := cur, remaining := [], depth := 0, result := some 2,
                       internal := 0, teardown := 1, flag := false }],
          promises := [PState.pending [], PState.settled Sett.ok,
                       PState.pending [Reaction.reactResult 0]],
          queue := [Task.tick 2 m' s],
          log := [Ev.enter 0, Ev.terminalEnter q r, Ev.remSettled 0, Ev.teardownRel 0],
          handler := Handler.hsync none, reqCtx := q, resCtx := r }
        2 s rfl
      have hC : settle 2 s
          { frames := [{ current := cur, remaining := ([] : List MW), depth := 0,
                         result := some 2, internal := 0, teardown := 1, flag := false }],
            promises := [PState.pending [], PState.settled Sett.ok,
                         PState.pending [Reaction.reactResult 0]],
            queue := ([] : List Task),
            log := [Ev.enter 0, Ev.terminalEnter q r, Ev.remSettled 0, Ev.teardownRel 0],
            handler := Handler.hsync none, reqCtx := q, resCtx := r } =
          { frames := [{ current := cur, remaining := [], depth := 0, result := some 2,
                         internal := 0, teardown := 1, flag := false }],
            promises := [PState.pending [], PState.settled Sett.ok, PState.settled s],
            queue := [Task.react (Reaction.reactResult 0) s],
            log := [Ev.enter 0, Ev.terminalEnter q r, Ev.remSettled 0, Ev.teardownRel 0],
            handler := Handler.hsync none, reqCtx := q, resCtx := r } := rfl
      refine ⟨drive 1
        { frames := [{ current := cur, remaining := [], depth := 0, result := some 2,
                       internal := 0, teardown := 1, flag := false }],
          promises := [PState.pending [], PState.settled Sett.ok, PState.settled s],
          queue := [Task.react (Reaction.reactResult 0) s],
          log := [Ev.enter 0, Ev.terminalEnter q r, Ev.remSettled 0, Ev.teardownRel 0],
          handler := Handler.hsync none, reqCtx := q, resCtx := r }, ?_, ?_, ?_, ?_⟩
      · refine Steps.trans (h2 ▸ steps_drive 2 (ownSt cur s q r (m' + 1))) ?_
        rw [hC] at htick
        exact Steps.trans htick (steps_drive 1 _)
      · cases s <;> rfl
      · cases s <;> rfl
      · cases s <;> rfl

/-- A single `asyncOwn` middleware whose own work settles to `s` strictly
after the one-tick failure-detection window (`d + 1` ticks): the remainder
runs (terminal handler entered, teardown released) and the chain's outcome
is the settlement of the middleware's own work. -/
lemma ownRunLater (d : Nat) (s : Sett) (q r : Nat) :
    Runs [MW.asyncOwn (d + 1) (some s)] (Handler.hsync none) q r
      [Ev.enter 0, Ev.terminalEnter q r, Ev.remSettled 0, Ev.teardownRel 0]
      (PState.settled s) := by
  cases d with
  | zero =>
      have e0 : execSt [MW.asyncOwn (0 + 1) (some s)] (Handler.hsync none) q r =
          { frames := [{ current := some (MW.asyncOwn 1 (some s)), remaining := [],
                         depth := 0, result := some 2, internal := 0, teardown := 1,
                         flag := false }],
            promises := [PState.pending [], PState.pending [],
                         PState.pending [Reaction.reactResult 0]],
            queue := [Task.tick 2 0 s, Task.check 0],
            log := [Ev.enter 0], handler := Handler.hsync none,
            reqCtx := q, resCtx := r } := rfl
      have e1 : drive 2
          { frames := [{ current := some (MW.asyncOwn 1 (some s)), remaining := [],
                         depth := 0, result := some 2, internal := 0, teardown := 1,
                         flag := false }],
            promises := [PState.pending [], PState.pending [],
                         PState.pending [Reaction.reactResult 0]],
            queue := [Task.tick 2 0 s, Task.check 0],
            log := [Ev.enter 0], handler := Handler.hsync none,
            reqCtx := q, resCtx := r } =
          { frames := [{ current := some (MW.asyncOwn 1 (some s)), remaining := [],
                         depth := 0, result := some 2, internal := 0, teardown := 1,
                         flag := false }],
            promises := [PState.pending [], PState.pending [], PState.settled s],
            queue := [Task.react (Reaction.reactResult 0) s,
                      Task.react (Reaction.resumeRemaining 0) Sett.ok],
            log := [Ev.enter 0, Ev.terminalEnter q r], handler := Handler.hsync none,
            reqCtx := q, resCtx := r } := rfl
      have e2 : ∀ st', drive 2
          { frames := [{ current := some (MW.asyncOwn 1 (some s)), remaining := [],
                         depth := 0, result := some 2, internal := 0, teardown := 1,
                         flag := false }],
            promises := [PState.pending [], PState.pending [], PState.settled s],
            queue := [Task.react (Reaction.reactResult 0) s,
                      Task.react (Reaction.resumeRemaining 0) Sett.ok],
            log := [Ev.enter 0, Ev.terminalEnter q r], handler := Handler.hsync none,
            reqCtx := q, resCtx := r } = st' →
          st'.queue = [] ∧
          st'.log = [Ev.enter 0, Ev.terminalEnter q r, Ev.remSettled 0, Ev.teardownRel 0] ∧
          getP st' 0 = some (PState.settled s) := by
        intro st' hst'
        rw [← hst']
        cases s <;> exact ⟨rfl, rfl, rfl⟩
      obtain ⟨hq', hlog', hoc'⟩ := e2 _ rfl
      refine ⟨4, ?_, ?_, ?_⟩
      · rw [show (4 : Nat) = 2 + 2 from rfl, drive_add, e0, e1]
        exact hq'
      · rw [show (4 : Nat) = 2 + 2 from rfl, drive_add, e0, e1]
        exact hlog'
      · rw [show (4 : Nat) = 2 + 2 from rfl, drive_add, e0, e1]
        exact hoc'
  | succ d'' =>
      have e0 : execSt [MW.asyncOwn (d'' + 1 + 1) (some s)] (Handler.hsync none) q r =
          { frames := [{ current := some (MW.asyncOwn (d'' + 1 + 1) (some s)),
                         remaining := [], depth := 0, result := some 2, internal := 0,
                         teardown := 1, flag := false }],
            promises := [PState.pending [], PState.pending [],
                         PState.pending [Reaction.reactResult 0]],
            queue := [Task.tick 2 (d'' + 1) s, Task.check 0],
            log := [Ev.enter 0], handler := Handler.hsync none,
            reqCtx := q, resCtx := r } := rfl
      have e1 : drive 2
          { frames := [{ current := some (MW.asyncOwn (d'' + 1 + 1) (some s)),
                         remaining := [], depth := 0, result := some 2, internal := 0,
                         teardown := 1, flag := false }],
            promises := [PState.pending [], PState.pending [],
                         PState.pending [Reaction.reactResult 0]],
            queue := [Task.tick 2 (d'' + 1) s, Task.check 0],
            log := [Ev.enter 0], handler := Handler.hsync none,
            reqCtx := q, resCtx := r } =
          ownSt (some (MW.asyncOwn (d'' + 1 + 1) (some s))) s q r d'' := rfl
      obtain ⟨st', hsteps, hq', hlog', hoc'⟩ :=
        ownCountdown (some (MW.asyncOwn (d'' + 1 + 1) (some s))) s q r d''
      have hall : Steps (execSt [MW.asyncOwn (d'' + 1 + 1) (some s)]
          (Handler.hsync none) q r) st' := by
        refine Steps.trans ?_ hsteps
        rw [e0, ← e1]
        exact steps_drive 2 _
      obtain ⟨n, hn⟩ := drive_of_steps hall
      exact ⟨n, by rw [hn]; exact hq', by rw [hn]; exact hlog', by rw [hn]; exact hoc'⟩

/-- Claim C6 (one-tick failure-detection window): (1) for every non-empty
middleware list headed by an asynchronous middleware whose returned promise
is rejected with `e` before the one-scheduling-tick window elapses (it is
already rejected when the failure handlers attach, so the rejection fires
ahead of the window's microtask), the remainder of the chain is never
started -- no later middleware and no terminal invocation appears in the
log -- and the chain's outcome is that rejection; (2) if instead the
middleware's own work settles only after the window (`d + 1` ticks), the
remainder does run: the terminal handler is entered and the chain
completes. -/
theorem claim_C6_failure_window (e : Err) (ms : List MW) (h : Handler) (q r : Nat)
    (d : Nat) (s : Sett) :
    (Runs (MW.asyncOwn 0 (some (Sett.er e)) :: ms) h q r [Ev.enter 0]
        (PState.settled (Sett.er e)) ∧
      (∀ j, Ev.enter (j + 1) ∉ [Ev.enter 0]) ∧
      (∀ q' r', Ev.terminalEnter q' r' ∉ [Ev.enter 0])) ∧
    Runs [MW.asyncOwn (d + 1) (some s)] (Handler.hsync none) q r
      [Ev.enter 0, Ev.terminalEnter q r, Ev.remSettled 0, Ev.teardownRel 0]
      (PState.settled s) := by
  have e0 : execSt (MW.asyncOwn 0 (some (Sett.er e)) :: ms) h q r =
      { frames := [{ current := some (MW.asyncOwn 0 (some (Sett.er e))), remaining := ms,
                     depth := 0, result := some 2, internal := 0, teardown := 1,
                     flag := false }],
        promises := [PState.pending [], PState.pending [], PState.settled (Sett.er e)],
        queue := [Task.react (Reaction.reactResult 0) (Sett.er e), Task.check 0],
        log := [Ev.enter 0], handler := h, reqCtx := q, resCtx := r } := rfl
  have e1 : drive 2
      { frames := [{ current := some (MW.asyncOwn 0 (some (Sett.er e))), remaining := ms,
                     depth := 0, result := some 2, internal := 0, teardown := 1,
                     flag := false }],
        promises := [PState.pending [], PState.pending [], PState.settled (Sett.er e)],
        queue := [Task.react (Reaction.reactResult 0) (Sett.er e), Task.check 0],
        log := [Ev.enter 0], handler := h, reqCtx := q, resCtx := r } =
      { frames := [{ current := some (MW.asyncOwn 0 (some (Sett.er e))), remaining := ms,
                     depth := 0, result := some 2, internal := 0, teardown := 1,
                     flag := true }],
        promises := [PState.settled (Sett.er e), PState.pending [],
                     PState.settled (Sett.er e)],
        queue := [], log := [Ev.enter 0], handler := h, reqCtx := q, resCtx := r } := rfl
  refine ⟨⟨⟨2, ?_, ?_, ?_⟩, by simp, by simp⟩, ownRunLater d s q r⟩
  · rw [e0, e1]
  · rw [e0, e1]
  · rw [e0, e1]
    rfl

/-- Claim C7 (empty chain): the spec says the terminal handler alone is
invoked and the outcome mirrors it; in the code, destructuring the empty
middleware list leaves `currentFn` undefined, so `run`'s call of
`this.currentFn(...)` throws a TypeError that the catch block turns into a
rejection of the chain's outcome -- for every terminal handler the log is
empty (the handler is never invoked) and the outcome is the TypeError
failure, not the handler's own success or failure. -/
theorem claim_C7_empty (h : Handler) (q r : Nat) :
    Runs ([] : List MW) h q r [] (PState.settled (Sett.er Err.tyNotFn)) ∧
    (∀ q' r', Ev.terminalEnter q' r' ∉ ([] : List Ev)) :=
  ⟨⟨0, rfl, rfl, rfl⟩, by simp⟩

/-- Claim C9 (continuation invoked with an error argument): (1) the error
is raised immediately at the call site; a middleware that does not catch it
has its synchronous body aborted, the chain settles as a failure carrying
that error, and the remainder -- for an arbitrary tail and handler -- is
never started (no later middleware and no terminal invocation in the log);
(2) the raise is at the call site, so a middleware that catches it there
returns normally and the chain proceeds through the remainder to success. -/
theorem claim_C9_next_error_raise (e : Err) (ms : List MW) (h : Handler) (q r : Nat) :
    (Runs (MW.nextErr e false :: ms) h q r [Ev.enter 0] (PState.settled (Sett.er e)) ∧
      (∀ j, Ev.enter (j + 1) ∉ [Ev.enter 0]) ∧
      (∀ q' r', Ev.terminalEnter q' r' ∉ [Ev.enter 0])) ∧
    Runs [MW.nextErr e true] (Handler.hsync none) q r
      [Ev.enter 0, Ev.terminalEnter q r, Ev.remSettled 0] (PState.settled Sett.ok) :=
  ⟨⟨⟨0, rfl, rfl, rfl⟩, by simp, by simp⟩, ⟨2, rfl, rfl, rfl⟩⟩

/-- Claim C8 is refuted as stated: an asynchronous middleware that never
invokes the continuation does not prevent the remainder from executing.
With the single middleware `asyncOwn 0 none` (returns a promise that never
settles, never calls the continuation), the quiescing log contains the
terminal-handler invocation -- the remainder ran -- while the chain's
outcome is still pending. -/
theorem claim_C8_counterexample :
    Runs [MW.asyncOwn 0 none] (Handler.hsync none) 0 0
      [Ev.enter 0, Ev.terminalEnter 0 0, Ev.remSettled 0, Ev.teardownRel 0]
      (PState.pending []) ∧
    Ev.terminalEnter 0 0 ∈
      [Ev.enter 0, Ev.terminalEnter 0 0, Ev.remSettled 0, Ev.teardownRel 0] :=
  ⟨⟨2, rfl, rfl, rfl⟩, by simp⟩

/-- The quiescing tail shared by the never-settling `asyncOwn` runs: from
the state just after `run` (only the check queued, the returned promise
pending forever), the remainder runs the terminal handler and releases the
teardown, but the internal promise stays pending. -/
lemma ownNoneTail (cur : Option MW) (q r : Nat) :
    drive 2
      { frames := [{ current := cur, remaining := [], depth := 0, result := some 2,
                     internal := 0, teardown := 1, flag := false }],
        promises := [PState.pending [], PState.pending [],
                     PState.pending [Reaction.reactResult 0]],
        queue := [Task.check 0], log := [Ev.enter 0],
        handler := Handler.hsync none, reqCtx := q, resCtx := r } =
      { frames := [{ current := cur, remaining := [], depth := 0, result := some 2,
                     internal := 0, teardown := 1, flag := false }],
        promises := [PState.pending [], PState.settled Sett.ok,
                     PState.pending [Reaction.reactResult 0]],
        queue := [],
        log := [Ev.enter 0, Ev.terminalEnter q r, Ev.remSettled 0, Ev.teardownRel 0],
        handler := Handler.hsync none, reqCtx := q, resCtx := r } := rfl

/-- Claim C8, amended: for an asynchronous middleware that never invokes
the continuation, the remainder of the chain IS executed (the terminal
handler is entered and the teardown released in every case below), but the
frame's outcome settles only from the middleware's own pending work:
settling after the detection window to `s` makes the outcome `s` (success
passes through, failure propagates), work already fulfilled at attach time
passes through as success, and work that never settles leaves the outcome
pending forever even though the remainder completed. -/
theorem claim_C8_amended (d : Nat) (s : Sett) (q r : Nat) :
    Runs [MW.asyncOwn (d + 1) (some s)] (Handler.hsync none) q r
      [Ev.enter 0, Ev.terminalEnter q r, Ev.remSettled 0, Ev.teardownRel 0]
      (PState.settled s) ∧
    Runs [MW.asyncOwn 0 (some Sett.ok)] (Handler.hsync none) q r
      [Ev.enter 0, Ev.terminalEnter q r, Ev.remSettled 0, Ev.teardownRel 0]
      (PState.settled Sett.ok) ∧
    Runs [MW.asyncOwn d none] (Handler.hsync none) q r
      [Ev.enter 0, Ev.terminalEnter q r, Ev.remSettled 0, Ev.teardownRel 0]
      (PState.pending []) := by
  refine ⟨ownRunLater d s q r, ?_, ?_⟩
  · -- work already fulfilled when the handlers attach
    have e0 : execSt [MW.asyncOwn 0 (some Sett.ok)] (Handler.hsync none) q r =
        { frames := [{ current := some (MW.asyncOwn 0 (some Sett.ok)), remaining := [],
                       depth := 0, result := some 2, internal := 0, teardown := 1,
                       flag := false }],
          promises := [PState.pending [], PState.pending [], PState.settled Sett.ok],
          queue := [Task.react (Reaction.reactResult 0) Sett.ok, Task.check 0],
          log := [Ev.enter 0], handler := Handler.hsync none,
          reqCtx := q, resCtx := r } := rfl
    have e1 : drive 3
        { frames := [{ current := some (MW.asyncOwn 0 (some Sett.ok)), remaining := [],
                       depth := 0, result := some 2, internal := 0, teardown := 1,
                       flag := false }],
          promises := [PState.pending [], PState.pending [], PState.settled Sett.ok],
          queue := [Task.react (Reaction.reactResult 0) Sett.ok, Task.check 0],
          log := [Ev.enter 0], handler := Handler.hsync none,
          reqCtx := q, resCtx := r } =
        { frames := [{ current := some (MW.asyncOwn 0 (some Sett.ok)), remaining := [],
                       depth := 0, result := some 2, internal := 0, teardown := 1,
                       flag := false }],
          promises := [PState.settled Sett.ok, PState.settled Sett.ok,
                       PState.settled Sett.ok],
          queue := [],
          log := [Ev.enter 0, Ev.terminalEnter q r, Ev.remSettled 0, Ev.teardownRel 0],
          handler := Handler.hsync none, reqCtx := q, resCtx := r } := rfl
    refine ⟨3, ?_, ?_, ?_⟩ <;> rw [e0, e1] <;> rfl
  · -- work that never settles
    cases d with
    | zero =>
        have e0 : execSt [MW.asyncOwn 0 none] (Handler.hsync none) q r =
            { frames := [{ current := some (MW.asyncOwn 0 none), remaining := [],
                           depth := 0, result := some 2, internal := 0, teardown := 1,
                           flag := false }],
              promises := [PState.pending [], PState.pending [],
                           PState.pending [Reaction.reactResult 0]],
              queue := [Task.check 0], log := [Ev.enter 0],
              handler := Handler.hsync none, reqCtx := q, resCtx := r } := rfl
        refine ⟨2, ?_, ?_, ?_⟩ <;> rw [e0, ownNoneTail] <;> rfl
    | succ d' =>
        have e0 : execSt [MW.asyncOwn (d' + 1) none] (Handler.hsync none) q r =
            { frames := [{ current := some (MW.asyncOwn (d' + 1) none), remaining := [],
                           depth := 0, result := some 2, internal := 0, teardown := 1,
                           flag := false }],
              promises := [PState.pending [], PState.pending [],
                           PState.pending [Reaction.reactResult 0]],
              queue := [Task.check 0], log := [Ev.enter 0],
              handler := Handler.hsync none, reqCtx := q, resCtx := r } := rfl
        refine ⟨2, ?_, ?_, ?_⟩ <;> rw [e0, ownNoneTail] <;> rfl

/-! ## Single settlement: settled promises are immutable (first-fire-wins) -/

/-- `f` preserves every already-settled promise together with its value: no
application of `f` can re-settle or alter a settled promise. -/
def PresSett (f : St → St) : Prop :=
  ∀ st p v, getP st p = some (PState.settled v) → getP (f st) p = some (PState.settled v)

lemma presSett_pushLog (e : Ev) : PresSett (pushLog e) := fun _ _ _ h => h

lemma presSett_enqueue (ts : List Task) : PresSett (enqueue ts) := fun _ _ _ h => h

lemma presSett_setF (f : Nat) (fr : Frame) : PresSett (setF f fr) := fun _ _ _ h => h

lemma presSett_settle (p' : Nat) (s' : Sett) : PresSett (settle p' s') := by
  intro st p v h
  cases hp' : getP st p' with
  | none => simp only [settle, hp']; exact h
  | some ps =>
      cases ps with
      | settled s0 => rw [settle_of_settled hp' s']; exact h
      | pending rs =>
          have hne : p' ≠ p := by
            intro he
            rw [he] at hp'
            rw [hp'] at h
            simp at h
          rw [settle_of_pending hp' s']
          show getP (setP p' (PState.settled s') st) p = _
          rw [getP_setP_ne _ _ hne]
          exact h

lemma presSett_subscribe (p' : Nat) (rc : Reaction) : PresSett (subscribe p' rc) := by
  intro st p v h
  cases hp' : getP st p' with
  | none => simp only [subscribe, hp']; exact h
  | some ps =>
      cases ps with
      | settled s0 => rw [subscribe_of_settled hp' rc]; exact h
      | pending rs =>
          have hne : p' ≠ p := by
            intro he
            rw [he] at hp'
            rw [hp'] at h
            simp at h
          rw [subscribe_of_pending hp' rc]
          rw [getP_setP_ne _ _ hne]
          exact h

lemma presSett_succeedF (f : Nat) : PresSett (succeedF f) := by
  intro st p v h
  cases hf : getF st f with
  | none => simp only [succeedF, hf]; exact h
  | some fr =>
      simp only [succeedF, hf]
      exact presSett_settle fr.internal Sett.ok st p v h

lemma presSett_failF (f : Nat) (e : Err) : PresSett (failF f e) := by
  intro st p v h
  cases hf : getF st f with
  | none => simp only [failF, hf]; exact h
  | some fr =>
      simp only [failF, hf]
      exact presSett_settle fr.internal (Sett.er e) st p v h

lemma presSett_finishF (f : Nat) (err : Option Err) : PresSett (finishF f err) := by
  intro st p v h
  cases hf : getF st f with
  | none => simp only [finishF, hf]; exact h
  | some fr =>
      cases hr : fr.result with
      | some rp =>
          cases err with
          | some e =>
              simp only [finishF, hf, hr]
              exact presSett_settle _ _ _ p v
                (presSett_pushLog _ _ p v (presSett_pushLog _ _ p v h))
          | none =>
              simp only [finishF, hf, hr]
              exact presSett_settle _ _ _ p v
                (presSett_pushLog _ _ p v (presSett_pushLog _ _ p v h))
      | none =>
          cases err with
          | some e =>
              simp only [finishF, hf, hr]
              exact presSett_failF f e _ p v (presSett_pushLog _ _ p v h)
          | none =>
              simp only [finishF, hf, hr]
              exact presSett_succeedF f _ p v (presSett_pushLog _ _ p v h)

lemma presSett_callHandler (f : Nat) : PresSett (callHandler f) := by
  intro st p v h
  cases hh : st.handler with
  | hsync r0 =>
      cases r0 with
      | none =>
          rw [callHandler_hsync_ok f hh]
          exact presSett_enqueue _ _ p v (presSett_pushLog _ _ p v h)
      | some e =>
          rw [callHandler_hsync_throw f hh]
          exact presSett_finishF f (some e) _ p v (presSett_pushLog _ _ p v h)
  | hasync d r0 =>
      cases r0 with
      | some s =>
          cases d with
          | zero =>
              rw [callHandler_hasync_settled f hh]
              refine presSett_subscribe _ _ _ p v ?_
              show (st.promises ++ [PState.settled s])[p]? = _
              rw [List.getElem?_append_left (getP_lt_length h)]
              exact h
          | succ d' =>
              rw [callHandler_hasync_later f hh]
              refine presSett_subscribe _ _ _ p v ?_
              refine presSett_enqueue _ _ p v ?_
              show (st.promises ++ [PState.pending []])[p]? = _
              rw [List.getElem?_append_left (getP_lt_length h)]
              exact h
      | none =>
          rw [callHandler_hasync_none f hh]
          refine presSett_subscribe _ _ _ p v ?_
          show (st.promises ++ [PState.pending []])[p]? = _
          rw [List.getElem?_append_left (getP_lt_length h)]
          exact h

lemma presSett_newFrame (ms : List MW) (depth : Nat) (st : St) (p : Nat) (v : Sett)
    (h : getP st p = some (PState.settled v)) :
    getP (newFrame ms depth st).2 p = some (PState.settled v) := by
  have h1 : p < st.promises.length := getP_lt_length h
  show ((st.promises ++ [PState.pending []]) ++ [PState.pending []])[p]? = _
  rw [List.getElem?_append_left (by simp; omega), List.getElem?_append_left h1]
  exact h

lemma presSett_callMw (f : Nat) (fr : Frame) (mw : MW) (st : St) (p : Nat) (v : Sett)
    (h : getP st p = some (PState.settled v)) :
    getP (callMw f fr mw st).2 p = some (PState.settled v) := by
  have h1 := presSett_pushLog (Ev.enter fr.depth) st p v h
  cases mw with
  | sync b => exact h1
  | syncThrow e => exact h1
  | nextErr e c => cases c <;> exact h1
  | asyncAwait c =>
      have h2 := presSett_subscribe fr.teardown (Reaction.mwResume f) _ p v h1
      show ((subscribe fr.teardown (Reaction.mwResume f)
          (pushLog (Ev.enter fr.depth) st)).promises ++ [PState.pending []])[p]? = _
      rw [List.getElem?_append_left (getP_lt_length h2)]
      exact h2
  | asyncOwn d r0 =>
      cases r0 with
      | some s =>
          cases d with
          | zero =>
              show ((pushLog (Ev.enter fr.depth) st).promises ++ [PState.settled s])[p]? = _
              rw [List.getElem?_append_left (getP_lt_length h1)]
              exact h1
          | succ d' =>
              refine presSett_enqueue _ _ p v ?_
              show ((pushLog (Ev.enter fr.depth) st).promises ++ [PState.pending []])[p]? = _
              rw [List.getElem?_append_left (getP_lt_length h1)]
              exact h1
      | none =>
          cases d with
          | zero =>
              show ((pushLog (Ev.enter fr.depth) st).promises ++ [PState.pending []])[p]? = _
              rw [List.getElem?_append_left (getP_lt_length h1)]
              exact h1
          | succ d' =>
              show ((pushLog (Ev.enter fr.depth) st).promises ++ [PState.pending []])[p]? = _
              rw [List.getElem?_append_left (getP_lt_length h1)]
              exact h1

lemma presSett_run (f : Nat) : PresSett (run f) := by
  intro st p v h
  cases hf : getF st f with
  | none => simp only [run, hf]; exact h
  | some fr =>
      cases hc : fr.current with
      | none =>
          simp only [run, hf, hc]
          exact presSett_failF f Err.tyNotFn st p v h
      | some mw =>
          have hcm := presSett_callMw f fr mw st p v h
          rcases hcall : callMw f fr mw st with ⟨exc, st'⟩
          rw [hcall] at hcm
          simp only [run, hf, hc, hcall]
          cases exc with
          | error e => exact presSett_failF f e st' p v hcm
          | ok resOpt =>
              cases resOpt with
              | none => exact presSett_enqueue _ _ p v (presSett_setF _ _ _ p v hcm)
              | some rp =>
                  exact presSett_enqueue _ _ p v (presSett_subscribe _ _ _ p v
                    (presSett_setF _ _ _ p v hcm))

lemma presSett_runRemaining (f : Nat) : PresSett (runRemaining f) := by
  intro st p v h
  cases hf : getF st f with
  | none => simp only [runRemaining, hf]; exact h
  | some fr =>
      cases hr : fr.remaining with
      | nil =>
          rw [runRemaining_nil hf hr]
          exact presSett_callHandler f st p v h
      | cons m rest =>
          rw [runRemaining_cons hf hr]
          exact presSett_subscribe _ _ _ p v (presSett_run _ _ p v
            (presSett_newFrame _ _ st p v h))

lemma presSett_procReact (rc : Reaction) (s : Sett) : PresSett (procReact rc s) := by
  intro st p v h
  cases rc with
  | reactResult f =>
      cases s with
      | ok => exact presSett_succeedF f st p v h
      | er e =>
          cases hf : getF st f with
          | none =>
              simp only [procReact, hf]
              exact presSett_failF f e st p v h
          | some fr =>
              simp only [procReact, hf]
              exact presSett_failF f e _ p v (presSett_setF _ _ st p v h)
  | resumeRemaining f =>
      cases s with
      | ok => exact presSett_finishF f none st p v h
      | er e => exact presSett_finishF f (some e) st p v h
  | mwResume f =>
      cases hf : getF st f with
      | none => simp only [procReact, hf]; exact h
      | some fr =>
          cases hc : fr.current with
          | none => simp only [procReact, hf, hc]; exact h
          | some mw =>
              cases hres : fr.result with
              | none => cases mw <;> simp only [procReact, hf, hc, hres] <;> exact h
              | some rp =>
                  cases mw with
                  | sync b => simp only [procReact, hf, hc, hres]; exact h
                  | syncThrow e => simp only [procReact, hf, hc, hres]; exact h
                  | nextErr e c => simp only [procReact, hf, hc, hres]; exact h
                  | asyncOwn d r0 => simp only [procReact, hf, hc, hres]; exact h
                  | asyncAwait c =>
                      simp only [procReact, hf, hc, hres]
                      cases s with
                      | ok =>
                          exact presSett_settle _ _ _ p v (presSett_pushLog _ _ p v h)
                      | er e =>
                          cases c
                          · exact presSett_settle _ _ _ p v (presSett_pushLog _ _ p v h)
                          · exact presSett_settle _ _ _ p v (presSett_pushLog _ _ p v h)

lemma presSett_procTask (t : Task) : PresSett (procTask t) := by
  intro st p v h
  cases t with
  | check f =>
      cases hf : getF st f with
      | none => simp only [procTask, hf]; exact h
      | some fr =>
          simp only [procTask, hf]
          cases hfl : fr.flag with
          | true => exact h
          | false => exact presSett_runRemaining f st p v h
  | react rc s => exact presSett_procReact rc s st p v h
  | tick p' n s =>
      cases n with
      | zero => exact presSett_settle p' s st p v h
      | succ m => exact presSett_enqueue _ st p v h

lemma presSett_step {s t : St} (hst : step s = some t) (p : Nat) (v : Sett)
    (h : getP s p = some (PState.settled v)) : getP t p = some (PState.settled v) := by
  cases hq : s.queue with
  | nil => rw [step_nil hq] at hst; cases hst
  | cons t0 ts =>
      rw [step_cons hq] at hst
      injection hst with hst'
      rw [← hst']
      exact presSett_procTask t0 _ p v h

lemma presSett_steps {s t : St} (hst : Steps s t) : ∀ p v,
    getP s p = some (PState.settled v) → getP t p = some (PState.settled v) := by
  induction hst with
  | refl => intro p v h; exact h
  | tail _ hstep ih =>
      intro p v h
      exact presSett_step hstep p v (ih p v h)

/-- Claim C3 (single settlement / first-fire-wins): (1) along every
execution of the event loop, a promise that has settled keeps its
settlement, with the same value, forever -- later success or failure
signals are discarded, so in particular the chain's outcome settles at
most once and never changes once fired; (2) the outcome does settle
(hence, by (1), exactly once) on each of the four execution paths:
synchronous success, synchronous error, asynchronous success and
asynchronous error (the latter two through an asynchronous middleware
awaiting the continuation while the terminal handler succeeds or
throws). -/
theorem claim_C3_single_settlement (q r : Nat) (e : Err) :
    (∀ s t : St, Steps s t → ∀ p v, getP s p = some (PState.settled v) →
        getP t p = some (PState.settled v)) ∧
    Runs [MW.sync true] (Handler.hsync none) q r
      [Ev.enter 0, Ev.terminalEnter q r, Ev.remSettled 0] (PState.settled Sett.ok) ∧
    Runs [MW.syncThrow e] (Handler.hsync none) q r [Ev.enter 0]
      (PState.settled (Sett.er e)) ∧
    Runs [MW.asyncAwait false] (Handler.hsync none) q r
      [Ev.enter 0, Ev.terminalEnter q r, Ev.remSettled 0, Ev.teardownRel 0, Ev.post 0]
      (PState.settled Sett.ok) ∧
    Runs [MW.asyncAwait false] (Handler.hsync (some e)) q r
      [Ev.enter 0, Ev.terminalEnter q r, Ev.remSettled 0, Ev.teardownRel 0, Ev.tearErr 0 e]
      (PState.settled (Sett.er e)) := by
  refine ⟨fun s t hst => presSett_steps hst, ?_, ⟨0, rfl, rfl, rfl⟩,
    asyncRunOk 0 0 false q r, asyncRunThrow 0 0 false e q r⟩
  have e0 : execSt [MW.sync true] (Handler.hsync none) q r =
      { frames := [{ current := some (MW.sync true), remaining := [], depth := 0,
                     result := none, internal := 0, teardown := 1, flag := false }],
        promises := [PState.pending [], PState.pending []],
        queue := [Task.check 0], log := [Ev.enter 0],
        handler := Handler.hsync none, reqCtx := q, resCtx := r } := rfl
  have e1 : drive 2
      { frames := [{ current := some (MW.sync true), remaining := [], depth := 0,
                     result := none, internal := 0, teardown := 1, flag := false }],
        promises := [PState.pending [], PState.pending []],
        queue := [Task.check 0], log := [Ev.enter 0],
        handler := Handler.hsync none, reqCtx := q, resCtx := r } =
      { frames := [{ current := some (MW.sync true), remaining := [], depth := 0,
                     result := none, internal := 0, teardown := 1, flag := false }],
        promises := [PState.settled Sett.ok, PState.pending []],
        queue := [], log := [Ev.enter 0, Ev.terminalEnter q r, Ev.remSettled 0],
        handler := Handler.hsync none, reqCtx := q, resCtx := r } := rfl
  refine ⟨2, ?_, ?_, ?_⟩ <;> rw [e0, e1] <;> rfl

/-- Witness for Claim C3: a concrete chain (one `asyncOwn` middleware whose
returned promise is already fulfilled) has its returned promise settled at
the start; driving the event loop two microtasks further leaves that
promise settled with the same value. -/
theorem claim_C3_single_settlement_witness :
    getP (execSt [MW.asyncOwn 0 (some Sett.ok)] (Handler.hsync none) 0 0) 2 =
        some (PState.settled Sett.ok) ∧
    getP (drive 2 (execSt [MW.asyncOwn 0 (some Sett.ok)] (Handler.hsync none) 0 0)) 2 =
        some (PState.settled Sett.ok) :=
  ⟨by decide,
    (claim_C3_single_settlement 0 0 Err.tyNotFn).1 _ _
      (steps_drive 2 (execSt [MW.asyncOwn 0 (some Sett.ok)] (Handler.hsync none) 0 0))
      2 Sett.ok (by decide)⟩

end NextMW
